import Mathlib

/-!
Shallow embedding of the owlengine UCI codec (src/src/uci/*, src/src/score.rs)
together with proofs about its parsers and formatters.

Strings are Lean `String`s; a protocol line is tokenized exactly as Rust's
`str::split_whitespace` does (src/src/uci/token.rs, `tokenize`).  The
`PushTokens` buffer of the formatters (src/src/uci/str.rs, `impl PushTokens
for UciString`) inserts exactly one space between adjacent emissions and
skips empty payloads, so a formatted line is the single-space join of the
emitted token sequence: formatters below produce the emitted token list and
`fmtLine` performs the join.
-/

namespace Owl

/-- Whitespace test used by the tokenizer (Rust `char::is_whitespace`;
the ASCII subset is what `Char.isWhitespace` provides). -/
def isWsChar (c : Char) : Bool := c.isWhitespace

/-- Accumulating worker for `split_whitespace` over the line's characters.
`acc` holds the current token's characters in reverse. -/
def splitWsAux : List Char → List Char → List (List Char)
  | [], acc => if acc.isEmpty then [] else [acc.reverse]
  | c :: cs, acc =>
    if isWsChar c then
      if acc.isEmpty then splitWsAux cs [] else acc.reverse :: splitWsAux cs []
    else
      splitWsAux cs (c :: acc)

/-- `tokenize` from src/src/uci/token.rs: split a line on whitespace,
yielding the non-empty tokens in order. -/
def tokenize (s : String) : List String :=
  (splitWsAux s.data []).map String.mk

/-- Join character-level tokens with single spaces (the canonical line shape
produced by the `PushTokens` buffer). -/
def joinChars : List (List Char) → List Char
  | [] => []
  | t :: ts =>
    match ts with
    | [] => t
    | _ :: _ => t ++ ' ' :: joinChars ts

/-- Join string tokens with single spaces. -/
def joinToks (ts : List String) : String :=
  String.mk (joinChars (ts.map String.data))

/-- A well-formed token: non-empty and free of whitespace
(the `Token` invariant in src/src/uci/token.rs). -/
def tokWf (t : String) : Bool :=
  !t.isEmpty && t.data.all (fun c => !isWsChar c)

/-- All tokens of a list are well-formed. -/
def toksWf (ts : List String) : Bool := ts.all tokWf

/-! ### Decimal integers

Rust's `FromStr` for the unsigned integer types accepts an optional leading
`'+'` followed by one or more ASCII digits, and fails on overflow; the signed
types additionally accept a leading `'-'`.  `to_string` prints the plain
decimal form.  These are embedded below with explicit range bounds.
-/

/-- Numeric value of a decimal digit character. -/
def digitVal (c : Char) : Nat := c.toNat - 48

/-- Value of a digit run, most significant first. -/
def digitsVal (cs : List Char) : Nat :=
  cs.foldl (fun n c => n * 10 + digitVal c) 0

/-- Parse a non-empty all-digit character run. -/
def parseNatCore (cs : List Char) : Option Nat :=
  if cs ≠ [] ∧ ∀ c ∈ cs, c.isDigit then some (digitsVal cs) else none

/-- Unsigned decimal parse (optional leading `'+'`). -/
def parseUnsignedCore : List Char → Option Nat
  | [] => none
  | c :: cs => if c = '+' then parseNatCore cs else parseNatCore (c :: cs)

/-- Signed decimal parse (optional leading `'+'` or `'-'`). -/
def parseSignedCore : List Char → Option Int
  | [] => none
  | c :: cs =>
    if c = '-' then (parseNatCore cs).map (fun n => -(n : Int))
    else if c = '+' then (parseNatCore cs).map (fun n => (n : Int))
    else (parseNatCore (c :: cs)).map (fun n => (n : Int))

/-- Rust `u64::from_str` (and, with other bounds, the other unsigned types):
fails on overflow. -/
def parseUnsigned (bound : Nat) (s : String) : Option Nat :=
  (parseUnsignedCore s.data).bind (fun n => if n < bound then some n else none)

/-- Rust `i64::from_str` (and, with other bounds, the other signed types):
fails outside `[-bound, bound)`. -/
def parseSigned (bound : Int) (s : String) : Option Int :=
  (parseSignedCore s.data).bind
    (fun n => if -bound ≤ n ∧ n < bound then some n else none)

def parseU64 : String → Option Nat := parseUnsigned (2 ^ 64)
def parseU32 : String → Option Nat := parseUnsigned (2 ^ 32)
/-- Rust `NonZeroU64::from_str`: a `u64` parse that also rejects zero. -/
def parseNonZeroU64 (s : String) : Option Nat :=
  (parseU64 s).bind (fun n => if n = 0 then none else some n)
def parseI64 : String → Option Int := parseSigned (2 ^ 63)
def parseI32 : String → Option Int := parseSigned (2 ^ 31)

/-- Decimal digits, most significant first; structural fuel (any fuel
above `n` suffices, see `natToDigitsF_irrel`). -/
def natToDigitsF : Nat → Nat → List Char
  | 0, _ => []
  | f + 1, n =>
    if n < 10 then [Char.ofNat (n + 48)]
    else natToDigitsF f (n / 10) ++ [Char.ofNat (n % 10 + 48)]

/-- Decimal digits of `n`, most significant first (Rust `to_string`). -/
def natToDigits (n : Nat) : List Char := natToDigitsF (n + 1) n

/-- Rust `u64::to_string` and friends. -/
def fmtNat (n : Nat) : String := String.mk (natToDigits n)

/-- Rust `i64::to_string` and friends. -/
def fmtInt (x : Int) : String :=
  if x < 0 then String.mk ('-' :: natToDigits x.natAbs) else fmtNat x.natAbs

/-! ### Score algebra (src/src/score.rs)

`Color` is the external `owlchess::Color` (white/black, with `inv`). -/

inductive Color
  | white
  | black
deriving DecidableEq, Repr

/-- `owlchess::Color::inv` (the spec calls it `other`). -/
def Color.inv : Color → Color
  | .white => .black
  | .black => .white

/-- `Bound` (src/src/score.rs lines 5-10). -/
inductive Bound
  | lower
  | upper
  | exact
deriving DecidableEq, Repr

/-- `Bound::inv` (src/src/score.rs lines 20-27). -/
def Bound.inv : Bound → Bound
  | .lower => .upper
  | .upper => .lower
  | .exact => .exact

/-- `RelScore` (src/src/score.rs lines 37-41): `Cp(i32)` or `Mate{moves: u32, win}`. -/
inductive RelScore
  | cp (val : Int)
  | mate (moves : Nat) (win : Bool)
deriving DecidableEq, Repr

/-- Release-profile `i32` negation: two's-complement wrap on `i32::MIN`
(the debug profile aborts there instead, `i32NegPanics` below). -/
def i32WrapNeg (x : Int) : Int := if x = -(2 ^ 31) then x else -x

/-- Debug-profile `i32` negation overflows (panics) exactly on `i32::MIN`. -/
def i32NegPanics (x : Int) : Bool := decide (x = -(2 ^ 31))

/-- `RelScore::inv` (src/src/score.rs lines 51-57), with release-profile
arithmetic: `-x` on the `i32` payload wraps at `i32::MIN`. -/
def RelScore.inv : RelScore → RelScore
  | .cp x => .cp (i32WrapNeg x)
  | .mate moves win => .mate moves (!win)

/-- `AbsScore` (src/src/score.rs lines 96-100). -/
inductive AbsScore
  | cp (val : Int)
  | mate (moves : Nat) (winner : Color)
deriving DecidableEq, Repr

/-- `RelScore::abs_to` (src/src/score.rs lines 59-71), with release-profile
arithmetic: the Black branch's `-val` on the `i32` payload wraps at
`i32::MIN`. -/
def RelScore.abs_to : RelScore → Color → AbsScore
  | .cp val, .white => .cp val
  | .cp val, .black => .cp (i32WrapNeg val)
  | .mate moves win, side => .mate moves (if win then side else side.inv)

/-- `AbsScore::rel_to` (src/src/score.rs lines 110-122), with
release-profile arithmetic: the Black branch's `-val` on the `i32` payload
wraps at `i32::MIN`. -/
def AbsScore.rel_to : AbsScore → Color → RelScore
  | .cp val, .white => .cp val
  | .cp val, .black => .cp (i32WrapNeg val)
  | .mate moves winner, side => .mate moves (decide (winner = side))

/-- `RelScore::as_cmp_tuple` (src/src/score.rs lines 73-79): `(class, key)` with
class -1 for losing mates, 0 for cp, 1 for winning mates. -/
def RelScore.as_cmp_tuple : RelScore → Int × Int
  | .cp val => (0, val)
  | .mate moves true => (1, -(moves : Int))
  | .mate moves false => (-1, (moves : Int))

/-- Rust `Ord::cmp` on integers. -/
def intCmp (a b : Int) : Ordering :=
  if a < b then .lt else if a = b then .eq else .gt

/-- Rust's derived lexicographic `cmp` on `(i32, i64)` pairs. -/
def pairCmp (a b : Int × Int) : Ordering :=
  match intCmp a.1 b.1 with
  | .eq => intCmp a.2 b.2
  | o => o

/-- `Ord for RelScore` (src/src/score.rs lines 89-94). -/
def RelScore.cmp (a b : RelScore) : Ordering :=
  pairCmp a.as_cmp_tuple b.as_cmp_tuple

/-- `Ord for AbsScore` (src/src/score.rs lines 132-137): compare as
`rel_to(White)`. -/
def AbsScore.cmp (a b : AbsScore) : Ordering :=
  RelScore.cmp (a.rel_to .white) (b.rel_to .white)

/-- `BoundedRelScore` (src/src/score.rs lines 139-143). -/
structure BoundedRelScore where
  score : RelScore
  bound : Bound
deriving DecidableEq, Repr

/-! ### UCI moves

`UciMove` lives in the external `owlchess` library (an explicitly excluded
collaborator); it is modelled here concretely by the UCI wire grammar it
parses and prints: `0000` for the null move, otherwise source square,
destination square and an optional promotion piece letter. -/

/-- Modelled external (`owlchess`): a square as file (0 = a .. 7 = h) and
rank (0 = rank 1 .. 7 = rank 8). -/
structure Square where
  file : Nat
  rank : Nat
deriving DecidableEq, Repr

/-- Modelled external (`owlchess`): promotion pieces of UCI move suffixes. -/
inductive PromotePiece
  | knight
  | bishop
  | rook
  | queen
deriving DecidableEq, Repr

/-- Modelled external (`owlchess::moves::UciMove`). -/
inductive UciMove
  | null
  | move (src : Square) (dst : Square) (promote : Option PromotePiece)
deriving DecidableEq, Repr

def fileChar (f : Nat) : Char := Char.ofNat (97 + f)

def rankChar (r : Nat) : Char := Char.ofNat (49 + r)

def promoteChar : PromotePiece → Char
  | .knight => 'n'
  | .bishop => 'b'
  | .rook => 'r'
  | .queen => 'q'

/-- Modelled external: `UciMove`'s `Display`. -/
def fmtUciMove : UciMove → String
  | .null => "0000"
  | .move s d none =>
    String.mk [fileChar s.file, rankChar s.rank, fileChar d.file, rankChar d.rank]
  | .move s d (some pp) =>
    String.mk [fileChar s.file, rankChar s.rank, fileChar d.file, rankChar d.rank,
      promoteChar pp]

def parseFileChar (c : Char) : Option Nat :=
  if 97 ≤ c.toNat ∧ c.toNat ≤ 104 then some (c.toNat - 97) else none

def parseRankChar (c : Char) : Option Nat :=
  if 49 ≤ c.toNat ∧ c.toNat ≤ 56 then some (c.toNat - 49) else none

def parsePromoteChar (c : Char) : Option PromotePiece :=
  if c = 'n' then some .knight
  else if c = 'b' then some .bishop
  else if c = 'r' then some .rook
  else if c = 'q' then some .queen
  else none

def parseSquareChars (cf cr : Char) : Option Square :=
  match parseFileChar cf, parseRankChar cr with
  | some f, some r => some ⟨f, r⟩
  | _, _ => none

def parseMove4 (a b c d : Char) : Option UciMove :=
  match parseSquareChars a b, parseSquareChars c d with
  | some sq1, some sq2 => some (.move sq1 sq2 none)
  | _, _ => none

def parseMove5 (a b c d e : Char) : Option UciMove :=
  match parseSquareChars a b, parseSquareChars c d, parsePromoteChar e with
  | some sq1, some sq2, some pp => some (.move sq1 sq2 (some pp))
  | _, _, _ => none

/-- Modelled external: `UciMove`'s `FromStr`. -/
def parseUciMove (s : String) : Option UciMove :=
  if s = "0000" then some .null
  else
    match s.data with
    | [a, b, c, d] => parseMove4 a b c d
    | [a, b, c, d, e] => parseMove5 a b c d e
    | _ => none

def squareWf (sq : Square) : Bool :=
  decide (sq.file < 8) && decide (sq.rank < 8)

def moveWf : UciMove → Bool
  | .null => true
  | .move s d _ => squareWf s && squareWf d

/-! ### The "looks like a move" heuristic and the movevec subparser
(src/src/uci/parse/movevec.rs) -/

/-- UTF-8 code units of a character (what Rust's `str::as_bytes` exposes). -/
def encodeUtf8Char (c : Char) : List Nat :=
  let n := c.toNat
  if n < 0x80 then [n]
  else if n < 0x800 then [0xC0 + n / 64, 0x80 + n % 64]
  else if n < 0x10000 then [0xE0 + n / 4096, 0x80 + (n / 64) % 64, 0x80 + n % 64]
  else [0xF0 + n / 262144, 0x80 + (n / 4096) % 64, 0x80 + (n / 64) % 64, 0x80 + n % 64]

/-- UTF-8 bytes of a string. -/
def utf8Bytes : List Char → List Nat
  | [] => []
  | c :: cs => encodeUtf8Char c ++ utf8Bytes cs

def isAsciiLowerByte (b : Nat) : Bool := decide (97 ≤ b) && decide (b ≤ 122)

def isAsciiDigitByte (b : Nat) : Bool := decide (48 ≤ b) && decide (b ≤ 57)

/-- `looks_like_move` (src/src/uci/parse/movevec.rs lines 11-18): byte length
4 or 5, and the first four bytes follow lowercase/digit/lowercase/digit. -/
def looksLikeMove (t : String) : Bool :=
  let bytes := utf8Bytes t.data
  (bytes.length == 4 || bytes.length == 5) &&
    match bytes with
    | b0 :: b1 :: b2 :: b3 :: _ =>
      isAsciiLowerByte b0 && isAsciiDigitByte b1 &&
        isAsciiLowerByte b2 && isAsciiDigitByte b3
    | _ => false

/-- Modelled external (`owlchess::moves::uci::RawParseError`): only the
offending token is recorded. -/
structure MoveError where
  tok : String
deriving DecidableEq, Repr

/-- `movevec::Error` (src/src/uci/parse/movevec.rs lines 3-9): position of the
failed token plus the underlying move parse error. -/
structure MoveVecError where
  pos : Nat
  error : MoveError
deriving DecidableEq, Repr

/-- The loop of `movevec::parse` (src/src/uci/parse/movevec.rs lines 20-46).
`k` is `moves.len()` at entry of the iteration (0 for the top-level call);
the result is the parsed moves, the number of consumed tokens and the
warnings in emission order. -/
def movevecParseAux (untilFirstError : Bool) :
    List String → Nat → List UciMove × Nat × List MoveVecError
  | [], _ => ([], 0, [])
  | t :: ts, k =>
    if looksLikeMove t then
      match parseUciMove t with
      | some mv =>
        let r := movevecParseAux untilFirstError ts (k + 1)
        (mv :: r.1, r.2.1 + 1, r.2.2)
      | none =>
        if untilFirstError then ([], 1, [⟨k, ⟨t⟩⟩])
        else
          let r := movevecParseAux untilFirstError ts k
          (r.1, r.2.1 + 1, ⟨k, ⟨t⟩⟩ :: r.2.2)
    else ([], 0, [])

/-- `movevec::parse` (src/src/uci/parse/movevec.rs lines 20-46): the moves,
the unconsumed tokens and the warnings. -/
def movevecParse (toks : List String) (untilFirstError : Bool) :
    List UciMove × List String × List MoveVecError :=
  let r := movevecParseAux untilFirstError toks 0
  (r.1, toks.drop r.2.1, r.2.2)

/-- `movevec::fmt` (src/src/uci/parse/movevec.rs lines 48-52). -/
def movevecFmt (ms : List UciMove) : List String := ms.map fmtUciMove

/-- The failed tokens of a token run, each with its 0-based run position
(`j` at the top-level call is 0). -/
def enumFails (j : Nat) : List String → List (Nat × String)
  | [] => []
  | t :: ts =>
    if parseUciMove t = none then (j, t) :: enumFails (j + 1) ts
    else enumFails (j + 1) ts

/-- Turn enumerated failures into warnings, subtracting from each run
position the number of failures listed before it (`f` at the top-level
call is 0). -/
def shiftFails (f : Nat) : List (Nat × String) → List MoveVecError
  | [] => []
  | (q, t) :: rest => ⟨q - f, ⟨t⟩⟩ :: shiftFails (f + 1) rest

/-- The token list begins with something a movevec run cannot consume. -/
def headNotMoveLike : List String → Bool
  | [] => true
  | t :: _ => !looksLikeMove t

/-! ### Typed strings (src/src/uci/str.rs)

A typed string stores its body as tokens joined by single spaces; the
embedding represents the body by its token list (`UciTokens`), a faithful
representation for the token-joined strings the codec builds. -/

abbrev UciTokens := List String

/-- `str::Error` (src/src/uci/str.rs lines 173-177). -/
inductive StrError
  | badToken (t : String)
deriving DecidableEq, Repr

/-- The reserved-token scan of `from_tokens` (impl_uci_str macro,
src/src/uci/str.rs lines 75-86): scan the tokens in order, and for the first
token that occurs in `badTokens` return that reserved token.  The comparison
is plain (case-sensitive) string equality. -/
def findBadToken (badTokens : List String) : List String → Option String
  | [] => none
  | t :: ts =>
    match badTokens.find? (fun b => b = t) with
    | some b => some b
    | none => findBadToken badTokens ts

/-- `from_tokens` of the impl_uci_str macro. -/
def fromTokensChecked (badTokens : List String) (toks : List String) :
    Except StrError UciTokens :=
  match findBadToken badTokens toks with
  | some b => .error (.badToken b)
  | none => .ok toks

/-- `from_str_impl` (src/src/uci/str.rs lines 369-384): re-tokenize the
string and validate.  The source joins while scanning; observably this is
tokenize-then-check since tokens are scanned in order. -/
def fromStrImpl (badTokens : List String) (s : String) : Except StrError UciTokens :=
  fromTokensChecked badTokens (tokenize s)

def OptName.from_tokens : List String → Except StrError UciTokens :=
  fromTokensChecked ["type", "value"]

def OptName.from_str : String → Except StrError UciTokens :=
  fromStrImpl ["type", "value"]

def OptComboVar.from_tokens : List String → Except StrError UciTokens :=
  fromTokensChecked ["var"]

def OptComboVar.from_str : String → Except StrError UciTokens :=
  fromStrImpl ["var"]

def RegisterName.from_tokens : List String → Except StrError UciTokens :=
  fromTokensChecked ["code"]

def RegisterName.from_str : String → Except StrError UciTokens :=
  fromStrImpl ["code"]

/-- Rust `u8::to_ascii_lowercase`, on a char of the stored string. -/
def asciiLower (c : Char) : Char :=
  if 65 ≤ c.toNat ∧ c.toNat ≤ 90 then Char.ofNat (c.toNat + 32) else c

/-- The case-insensitive equality of `impl_case_insensitive`
(src/src/uci/str.rs lines 107-137), on the stored (joined) strings. -/
def caseInsensitiveEq (a b : UciTokens) : Bool :=
  (joinToks a).data.map asciiLower == (joinToks b).data.map asciiLower

/-! ### Scalar types (src/src/uci/types.rs) -/

/-- `Permille` (src/src/uci/types.rs lines 3-4): a `u16` amount, kept
in 0..=1000 by its constructors. -/
structure Permille where
  amount : Nat
deriving DecidableEq, Repr

/-- `Permille::new_truncated` (src/src/uci/types.rs lines 21-24):
saturates at 1000. -/
def Permille.new_truncated (n : Nat) : Permille := ⟨min n 1000⟩

/-- `TriStatus` (src/src/uci/types.rs lines 66-71). -/
inductive TriStatus
  | ok
  | checking
  | error
deriving DecidableEq, Repr

/-! ### The AST (src/src/uci/msg.rs)

Durations are represented by their millisecond count: the parsers build
them with `Duration::from_millis` and the formatters read them back with
`as_millis`, so the codec only ever observes whole milliseconds.
`RawBoard` is the external FEN-parsed board (an excluded collaborator),
modelled by the token list of its FEN text. -/

/-- Modelled external (`owlchess::RawBoard`): the board is represented by
the whitespace-split tokens of its FEN text; the external library prints
the same FEN it parsed. -/
structure RawBoard where
  fen : List String
deriving DecidableEq, Repr

/-- Well-formedness of the modelled board: a non-empty whitespace-free
token list.  Real FEN fields never equal the keyword `moves`, which the
`position` grammar relies on. -/
def fenWf (b : RawBoard) : Bool :=
  !b.fen.isEmpty && toksWf b.fen && !b.fen.contains "moves"

/-- Modelled external: `RawBoard::initial()`'s FEN. -/
def RawBoard.initial : RawBoard :=
  ⟨["rnbqkbnr/pppppppp/8/8/8/8/PPPPPPPP/RNBQKBNR", "w", "KQkq", "-", "0", "1"]⟩

/-- Modelled external: `RawBoard::from_fen` — tokenizes the text and
accepts any well-formed FEN token list, storing it verbatim. -/
def RawBoard.from_fen (s : String) : Option RawBoard :=
  let ts := tokenize s
  if fenWf ⟨ts⟩ then some ⟨ts⟩ else none

/-- Modelled external: `RawBoard`'s `Display` prints the FEN back. -/
def RawBoard.fen_string (b : RawBoard) : String := joinToks b.fen

/-- `Register` (src/src/uci/msg.rs lines 12-16). -/
inductive Register
  | later
  | now (name : UciTokens) (code : UciTokens)
deriving DecidableEq, Repr

/-- `GoLimits` (src/src/uci/msg.rs lines 18-34); durations in ms,
`movestogo` a non-zero u64. -/
inductive GoLimits
  | infinite
  | clock (wtime btime winc binc : Nat) (movestogo : Option Nat)
  | mate (n : Nat)
  | limits (depth nodes : Option Nat) (movetime : Option Nat)
deriving DecidableEq, Repr

/-- `Command` (src/src/uci/msg.rs lines 36-59). -/
inductive Command
  | uci
  | debug (val : Bool)
  | isready
  | setoption (name : UciTokens) (value : Option UciTokens)
  | register (reg : Register)
  | ucinewgame
  | position (startpos : RawBoard) (moves : List UciMove)
  | go (searchmoves : Option (List UciMove)) (ponder : Option Unit) (limits : GoLimits)
  | stop
  | ponderhit
  | quit
deriving DecidableEq, Repr

/-- `Id` (src/src/uci/msg.rs lines 61-65). -/
inductive Id
  | name (s : UciTokens)
  | author (s : UciTokens)
deriving DecidableEq, Repr

/-- `Info` (src/src/uci/msg.rs lines 67-85); durations in ms. -/
inductive Info
  | depth (n : Nat)
  | seldepth (n : Nat)
  | time (ms : Nat)
  | nodes (n : Nat)
  | pv (moves : List UciMove)
  | multipv (n : Nat)
  | score (s : BoundedRelScore)
  | currmove (m : UciMove)
  | currmovenumber (n : Nat)
  | hashfull (p : Permille)
  | nps (n : Nat)
  | tbhits (n : Nat)
  | sbhits (n : Nat)
  | cpuload (p : Permille)
  | refutation (moves : List UciMove)
  | currline (cpuNum : Nat) (moves : List UciMove)
deriving DecidableEq, Repr

/-- `OptBody` (src/src/uci/msg.rs lines 87-101). -/
inductive OptBody
  | check (default : Bool)
  | spin (default min max : Int)
  | combo (default : UciTokens) (vars : List UciTokens)
  | button
  | string (default : UciTokens)
deriving DecidableEq, Repr

/-- `Message` (src/src/uci/msg.rs lines 103-122). -/
inductive Message
  | id (i : Id)
  | uciok
  | readyok
  | bestmove (bestmove : UciMove) (ponder : Option UciMove)
  | copyprotection (s : TriStatus)
  | registration (s : TriStatus)
  | info (info : List Info) (string : Option UciTokens)
  | option (name : UciTokens) (body : OptBody)
deriving DecidableEq, Repr

/-- Modelled from the spec: the `Go` record referenced by the new-style go
subparser (src/src/uci/parse/go.rs constructs `msg::Go`, whose declaration
is absent from the sources).  Field types follow spec §3's `Go` record and
the subparser's construction: unit options for `ponder`/`infinite`,
millisecond durations for the clocks and `movetime`, a non-zero u64 for
`movestogo`, u64 `mate`/`depth` and u32 `nodes`. -/
structure Go where
  searchmoves : Option (List UciMove)
  ponder : Option Unit
  infinite : Option Unit
  wtime : Option Nat
  btime : Option Nat
  winc : Option Nat
  binc : Option Nat
  movestogo : Option Nat
  mate : Option Nat
  depth : Option Nat
  nodes : Option Nat
  movetime : Option Nat
deriving DecidableEq, Repr

/-! ### Token helpers (src/src/uci/parse/tok.rs) -/

/-- `tok::try_split` (src/src/uci/parse/tok.rs lines 8-16): split at the
first occurrence of the keyword; `(tokens, none)` when absent. -/
def trySplit : List String → String → List String × Option (List String)
  | [], _ => ([], none)
  | t :: ts, kw =>
    if t = kw then ([], some ts)
    else
      let r := trySplit ts kw
      (t :: r.1, r.2)

/-! ### Score subparser (src/src/uci/parse/score.rs) -/

/-- `score::Error` (src/src/uci/parse/score.rs lines 4-14); `BadInteger`
records the offending token in place of Rust's `ParseIntError`. -/
inductive ScoreError
  | unexpectedToken (t : String)
  | unexpectedEol
  | badInteger (t : String)
  | mateTooLarge (src : Int)
deriving DecidableEq, Repr

/-- Release-profile `i64::abs`: two's-complement wrap on `i64::MIN`. -/
def i64WrapAbs (x : Int) : Int := if x = -(2 ^ 63) then x else (x.natAbs : Int)

/-- Debug-profile `i64::abs` overflows (panics) exactly on `i64::MIN`. -/
def i64AbsPanics (x : Int) : Bool := decide (x = -(2 ^ 63))

/-- `parse_unbounded` (src/src/uci/parse/score.rs lines 16-39), with
release-profile arithmetic.  Returns the score (if any), the unconsumed
tokens and the warnings. -/
def scoreParseUnbounded : List String → Option RelScore × List String × List ScoreError
  | [] => (none, [], [.unexpectedEol])
  | t :: ts =>
    if t = "cp" then
      match ts with
      | [] => (none, [], [.unexpectedEol])
      | v :: rest =>
        match parseI32 v with
        | some x => (some (.cp x), rest, [])
        | none => (none, rest, [.badInteger v])
    else if t = "mate" then
      match ts with
      | [] => (none, [], [.unexpectedEol])
      | v :: rest =>
        match parseI64 v with
        | none => (none, rest, [.badInteger v])
        | some src =>
          let a := i64WrapAbs src
          if 0 ≤ a ∧ a < 2 ^ 32 then
            (some (.mate a.toNat (decide (0 < src))), rest, [])
          else (none, rest, [.mateTooLarge src])
    else (none, ts, [.unexpectedToken t])

/-- Outcome of running code that may hit an arithmetic-overflow panic. -/
inductive DbgResult (α : Type)
  | panic
  | ok (val : α)
deriving DecidableEq

/-- `RelScore::inv` under the debug profile: negating `Cp(i32::MIN)`
aborts (src/src/score.rs line 54). -/
def RelScore.invDbg : RelScore → DbgResult RelScore
  | .cp x => if i32NegPanics x then .panic else .ok (.cp (-x))
  | .mate moves win => .ok (.mate moves (!win))

/-- `RelScore::abs_to` under the debug profile: the Black branch negating
`Cp(i32::MIN)` aborts (src/src/score.rs line 64). -/
def RelScore.abs_toDbg : RelScore → Color → DbgResult AbsScore
  | .cp val, .white => .ok (.cp val)
  | .cp val, .black => if i32NegPanics val then .panic else .ok (.cp (-val))
  | .mate moves win, side => .ok (.mate moves (if win then side else side.inv))

/-- `AbsScore::rel_to` under the debug profile: the Black branch negating
`Cp(i32::MIN)` aborts (src/src/score.rs line 115). -/
def AbsScore.rel_toDbg : AbsScore → Color → DbgResult RelScore
  | .cp val, .white => .ok (.cp val)
  | .cp val, .black => if i32NegPanics val then .panic else .ok (.cp (-val))
  | .mate moves winner, side => .ok (.mate moves (decide (winner = side)))

/-- A representable `RelScore`: `i32` centipawns, `u32` mate distance. -/
def relScoreI32Wf : RelScore → Bool
  | .cp v => decide (-(2 ^ 31) ≤ v) && decide (v < 2 ^ 31)
  | .mate m _ => decide (m < 2 ^ 32)

/-- A relative score whose centipawn payload is not `i32::MIN` (the one
value whose negation aborts under the debug profile). -/
def cpNotMin : RelScore → Bool
  | .cp v => !(decide (v = -(2 ^ 31)))
  | .mate _ _ => true

/-- `parse_unbounded` under the debug profile, where `src.abs()` on
`i64::MIN` aborts (src/src/uci/parse/score.rs line 25). -/
def scoreParseUnboundedDbg (toks : List String) :
    DbgResult (Option RelScore × List String × List ScoreError) :=
  match toks with
  | [] => .ok (none, [], [.unexpectedEol])
  | t :: ts =>
    if t = "cp" then .ok (scoreParseUnbounded (t :: ts))
    else if t = "mate" then
      match ts with
      | [] => .ok (none, [], [.unexpectedEol])
      | v :: rest =>
        match parseI64 v with
        | none => .ok (none, rest, [.badInteger v])
        | some src =>
          if i64AbsPanics src then .panic
          else
            let a := i64WrapAbs src
            if 0 ≤ a ∧ a < 2 ^ 32 then
              .ok (some (.mate a.toNat (decide (0 < src))), rest, [])
            else .ok (none, rest, [.mateTooLarge src])
    else .ok (none, ts, [.unexpectedToken t])

/-- `score::parse` (src/src/uci/parse/score.rs lines 41-55): the unbounded
score, then an optional bound keyword. -/
def scoreParse (toks : List String) :
    Option BoundedRelScore × List String × List ScoreError :=
  match scoreParseUnbounded toks with
  | (none, rest, ws) => (none, rest, ws)
  | (some sc, rest, ws) =>
    match rest with
    | [] => (some ⟨sc, .exact⟩, [], ws)
    | b :: r2 =>
      if b = "lowerbound" then (some ⟨sc, .lower⟩, r2, ws)
      else if b = "upperbound" then (some ⟨sc, .upper⟩, r2, ws)
      else (some ⟨sc, .exact⟩, b :: r2, ws)

/-- `fmt_unbounded` (src/src/uci/parse/score.rs lines 57-72). -/
def scoreFmtUnbounded : RelScore → List String
  | .cp v => ["cp", fmtInt v]
  | .mate m win => ["mate", fmtInt (if win then (m : Int) else -(m : Int))]

/-- `score::fmt` (src/src/uci/parse/score.rs lines 74-81). -/
def scoreFmt (s : BoundedRelScore) : List String :=
  scoreFmtUnbounded s.score ++
    (match s.bound with
     | .lower => ["lowerbound"]
     | .upper => ["upperbound"]
     | .exact => [])

/-! ### TriStatus subparser (src/src/uci/parse/tristatus.rs) -/

inductive TriStatusError
  | unexpectedEol
  | unexpectedToken (t : String)
deriving DecidableEq, Repr

/-- `tristatus::parse` (src/src/uci/parse/tristatus.rs lines 13-23). -/
def triStatusParse : List String → Option TriStatus × List String × List TriStatusError
  | [] => (none, [], [.unexpectedEol])
  | t :: ts =>
    if t = "ok" then (some .ok, ts, [])
    else if t = "checking" then (some .checking, ts, [])
    else if t = "error" then (some .error, ts, [])
    else (none, ts, [.unexpectedToken t])

/-- `tristatus::fmt` (src/src/uci/parse/tristatus.rs lines 25-31). -/
def triStatusFmt : TriStatus → List String
  | .ok => ["ok"]
  | .checking => ["checking"]
  | .error => ["error"]

/-! ### Info subparser (src/src/uci/parse/info.rs) -/

/-- `info::Error` (src/src/uci/parse/info.rs lines 4-20). -/
inductive InfoError
  | unexpectedToken (t : String)
  | unexpectedEol
  | badInteger (t : String)
  | badMove (e : MoveError)
  | permilleTruncated (srcValue : Nat)
  | badMoveVec (e : MoveVecError)
  | badScore (e : ScoreError)
deriving DecidableEq, Repr

/-- `make_permille` (src/src/uci/parse/info.rs lines 22-27): warns when the
raw value is `>= 1000` and stores the truncated value. -/
def make_permille (val : Nat) : Permille × List InfoError :=
  (Permille.new_truncated val,
    if 1000 ≤ val then [.permilleTruncated val] else [])

/-- One mandatory integer field of an info item (`tok::parse`):
consume one token and parse it, or warn. -/
def infoIntField (p : String → Option Nat) (mk : Nat → Info) :
    List String → Option Info × List String × List InfoError
  | [] => (none, [], [.unexpectedEol])
  | v :: rest =>
    match p v with
    | some n => (some (mk n), rest, [])
    | none => (none, rest, [.badInteger v])

/-- An info Permille field: integer parse followed by `make_permille`. -/
def infoPermilleField (mk : Permille → Info) :
    List String → Option Info × List String × List InfoError
  | [] => (none, [], [.unexpectedEol])
  | v :: rest =>
    match parseU64 v with
    | some n =>
      let r := make_permille n
      (some (mk r.1), rest, r.2)
    | none => (none, rest, [.badInteger v])

/-- The `currmove` branch: one mandatory move token. -/
def infoMoveField (mk : UciMove → Info) :
    List String → Option Info × List String × List InfoError
  | [] => (none, [], [.unexpectedEol])
  | v :: rest =>
    match parseUciMove v with
    | some m => (some (mk m), rest, [])
    | none => (none, rest, [.badMove ⟨v⟩])

/-- The `pv`/`refutation` branches: an until-first-error move run. -/
def infoMoveVecField (mk : List UciMove → Info) (ts : List String) :
    Option Info × List String × List InfoError :=
  let r := movevecParse ts true
  (some (mk r.1), r.2.1, r.2.2.map .badMoveVec)

/-- The `score` branch: delegate to the score subparser. -/
def infoScoreField (ts : List String) :
    Option Info × List String × List InfoError :=
  let r := scoreParse ts
  (r.1.map .score, r.2.1, r.2.2.map .badScore)

/-- The `currline` branch: a cpu number then an until-first-error move run. -/
def infoCurrlineField : List String → Option Info × List String × List InfoError
  | [] => (none, [], [.unexpectedEol])
  | v :: rest =>
    match parseU32 v with
    | none => (none, rest, [.badInteger v])
    | some cpu =>
      let r := movevecParse rest true
      (some (.currline cpu r.1), r.2.1, r.2.2.map .badMoveVec)

/-- `info::parse` (src/src/uci/parse/info.rs lines 29-66). -/
def infoParse : List String → Option Info × List String × List InfoError
  | [] => (none, [], [.unexpectedEol])
  | t :: ts =>
    if t = "depth" then infoIntField parseU32 .depth ts
    else if t = "seldepth" then infoIntField parseU32 .seldepth ts
    else if t = "time" then infoIntField parseU64 .time ts
    else if t = "nodes" then infoIntField parseU64 .nodes ts
    else if t = "pv" then infoMoveVecField .pv ts
    else if t = "multipv" then infoIntField parseU32 .multipv ts
    else if t = "score" then infoScoreField ts
    else if t = "currmove" then infoMoveField .currmove ts
    else if t = "currmovenumber" then infoIntField parseU32 .currmovenumber ts
    else if t = "hashfull" then infoPermilleField .hashfull ts
    else if t = "nps" then infoIntField parseU64 .nps ts
    else if t = "tbhits" then infoIntField parseU64 .tbhits ts
    else if t = "sbhits" then infoIntField parseU64 .sbhits ts
    else if t = "cpuload" then infoPermilleField .cpuload ts
    else if t = "refutation" then infoMoveVecField .refutation ts
    else if t = "currline" then infoCurrlineField ts
    else (none, ts, [.unexpectedToken t])

/-- `info::fmt` (src/src/uci/parse/info.rs lines 68-136). -/
def infoFmt : Info → List String
  | .depth n => ["depth", fmtNat n]
  | .seldepth n => ["seldepth", fmtNat n]
  | .time ms => ["time", fmtNat ms]
  | .nodes n => ["nodes", fmtNat n]
  | .pv moves => "pv" :: movevecFmt moves
  | .multipv n => ["multipv", fmtNat n]
  | .score s => "score" :: scoreFmt s
  | .currmove m => ["currmove", fmtUciMove m]
  | .currmovenumber n => ["currmovenumber", fmtNat n]
  | .hashfull p => ["hashfull", fmtNat p.amount]
  | .nps n => ["nps", fmtNat n]
  | .tbhits n => ["tbhits", fmtNat n]
  | .sbhits n => ["sbhits", fmtNat n]
  | .cpuload p => ["cpuload", fmtNat p.amount]
  | .refutation moves => "refutation" :: movevecFmt moves
  | .currline cpu moves => "currline" :: fmtNat cpu :: movevecFmt moves

/-! ### Go subparser, record form (src/src/uci/parse/go.rs) -/

/-- `go::Error` (src/src/uci/parse/go.rs lines 4-21); `InvalidIntSub`
records the field name and the offending token. -/
inductive GoError
  | unexpectedToken (t : String)
  | unexpectedEol
  | duplicate (name : String)
  | invalidSearchMove (e : MoveVecError)
  | invalidIntSub (name : String) (t : String)
deriving DecidableEq, Repr

/-- The `Go` record with all fields `None` (the loop's initial state). -/
def emptyGo : Go :=
  ⟨none, none, none, none, none, none, none, none, none, none, none, none⟩

/-- The `parse_int!` macro body (src/src/uci/parse/go.rs lines 38-54): warn
`Duplicate` if the field is already set, then consume and parse one token;
on success overwrite the field, otherwise keep it.  Returns the new field
value, the number of consumed tokens and the warnings. -/
def goIntItem (cur : Option Nat) (name : String) (p : String → Option Nat)
    (ts : List String) : Option Nat × Nat × List GoError :=
  let dup : List GoError := if cur.isSome then [.duplicate name] else []
  match ts with
  | [] => (cur, 0, dup ++ [.unexpectedEol])
  | v :: rest =>
    match p v with
    | some n => (some n, 1, dup)
    | none =>
      let _ := rest
      (cur, 1, dup ++ [.invalidIntSub name v])

/-- The keyword loop of `go::parse` (src/src/uci/parse/go.rs lines 37-90).
Note the `searchmoves` arm tests `ponder.is_some()` for its duplicate
warning, exactly as the source does.  The structural fuel bounds the number
of iterations; each iteration consumes at least one token, so the initial
fuel `toks.length` never runs out (`goParseAuxF_irrel` below). -/
def goParseAuxF : Nat → List String → Go → Go × List GoError
  | 0, _, g => (g, [])
  | _ + 1, [], g => (g, [])
  | f + 1, t :: ts, g =>
    if t = "searchmoves" then
      let dup : List GoError := if g.ponder.isSome then [.duplicate "searchmoves"] else []
      let r := movevecParse ts false
      let next := goParseAuxF f r.2.1 { g with searchmoves := some r.1 }
      (next.1, dup ++ r.2.2.map .invalidSearchMove ++ next.2)
    else if t = "ponder" then
      let dup : List GoError := if g.ponder.isSome then [.duplicate "ponder"] else []
      let next := goParseAuxF f ts { g with ponder := some () }
      (next.1, dup ++ next.2)
    else if t = "infinite" then
      let dup : List GoError := if g.infinite.isSome then [.duplicate "infinite"] else []
      let next := goParseAuxF f ts { g with infinite := some () }
      (next.1, dup ++ next.2)
    else if t = "wtime" then
      let r := goIntItem g.wtime "wtime" parseU64 ts
      let next := goParseAuxF f (ts.drop r.2.1) { g with wtime := r.1 }
      (next.1, r.2.2 ++ next.2)
    else if t = "btime" then
      let r := goIntItem g.btime "btime" parseU64 ts
      let next := goParseAuxF f (ts.drop r.2.1) { g with btime := r.1 }
      (next.1, r.2.2 ++ next.2)
    else if t = "winc" then
      let r := goIntItem g.winc "winc" parseU64 ts
      let next := goParseAuxF f (ts.drop r.2.1) { g with winc := r.1 }
      (next.1, r.2.2 ++ next.2)
    else if t = "binc" then
      let r := goIntItem g.binc "binc" parseU64 ts
      let next := goParseAuxF f (ts.drop r.2.1) { g with binc := r.1 }
      (next.1, r.2.2 ++ next.2)
    else if t = "movestogo" then
      let r := goIntItem g.movestogo "movestogo" parseNonZeroU64 ts
      let next := goParseAuxF f (ts.drop r.2.1) { g with movestogo := r.1 }
      (next.1, r.2.2 ++ next.2)
    else if t = "mate" then
      let r := goIntItem g.mate "mate" parseU64 ts
      let next := goParseAuxF f (ts.drop r.2.1) { g with mate := r.1 }
      (next.1, r.2.2 ++ next.2)
    else if t = "depth" then
      let r := goIntItem g.depth "depth" parseU64 ts
      let next := goParseAuxF f (ts.drop r.2.1) { g with depth := r.1 }
      (next.1, r.2.2 ++ next.2)
    else if t = "nodes" then
      let r := goIntItem g.nodes "nodes" parseU32 ts
      let next := goParseAuxF f (ts.drop r.2.1) { g with nodes := r.1 }
      (next.1, r.2.2 ++ next.2)
    else if t = "movetime" then
      let r := goIntItem g.movetime "movetime" parseU64 ts
      let next := goParseAuxF f (ts.drop r.2.1) { g with movetime := r.1 }
      (next.1, r.2.2 ++ next.2)
    else
      let next := goParseAuxF f ts g
      (next.1, .unexpectedToken t :: next.2)

/-- The keyword loop at its canonical fuel. -/
def goParseAux (toks : List String) (g : Go) : Go × List GoError :=
  goParseAuxF toks.length toks g

/-- `go::parse` (src/src/uci/parse/go.rs lines 23-106). -/
def goParse (toks : List String) : Go × List GoError :=
  goParseAux toks emptyGo

/-- `k v` pair of an optional numeric field (`push_tag`). -/
def tagOpt (kw : String) : Option Nat → List String
  | some v => [kw, fmtNat v]
  | none => []

/-- The optional `searchmoves` block of `go::fmt` / `Command::fmt`. -/
def searchTag : Option (List UciMove) → List String
  | some ms => "searchmoves" :: movevecFmt ms
  | none => []

/-- The optional `value` suffix of `Command::fmt`'s `SetOption` branch. -/
def valueTag : Option UciTokens → List String
  | some v => "value" :: v
  | none => []

/-- The optional `string` suffix of `message::fmt`'s `Info` branch. -/
def stringTag : Option UciTokens → List String
  | some s => "string" :: s
  | none => []

/-- The optional `ponder` suffix of `message::fmt`'s `BestMove` branch. -/
def ponderTag : Option UciMove → List String
  | some p => ["ponder", fmtUciMove p]
  | none => []

/-- `go::fmt` (src/src/uci/parse/go.rs lines 108-146). -/
def goFmt (g : Go) : List String :=
  searchTag g.searchmoves ++
  (if g.ponder.isSome then ["ponder"] else []) ++
  (if g.infinite.isSome then ["infinite"] else []) ++
  tagOpt "wtime" g.wtime ++ tagOpt "btime" g.btime ++
  tagOpt "winc" g.winc ++ tagOpt "binc" g.binc ++
  tagOpt "movestogo" g.movestogo ++ tagOpt "mate" g.mate ++
  tagOpt "depth" g.depth ++ tagOpt "nodes" g.nodes ++
  tagOpt "movetime" g.movetime

/-! ### Command subparser (src/src/uci/parse/command.rs) -/

/-- `command::Error` (src/src/uci/parse/command.rs lines 9-51); payloads of
external error types are reduced to the offending data. -/
inductive CommandError
  | unexpectedToken (t : String)
  | extraToken (t : String)
  | unexpectedEol
  | setOptionNoName
  | setOptionBadName (e : StrError)
  | registerNoCode
  | registerBadName (e : StrError)
  | positionNoMoves
  | noPosition
  | invalidFen
  | invalidMove (pos : Nat) (e : MoveError)
  | goDuplicate (name : String)
  | invalidSearchMove (e : MoveVecError)
  | goInvalidIntSub (name : String) (t : String)
  | goConflict (name : String)
  | goNoLimits
deriving DecidableEq, Repr

/-- As `goIntItem`, for the identical `parse_int!` macro of
`command::parse_go` (src/src/uci/parse/command.rs lines 68-84). -/
def cmdGoIntItem (cur : Option Nat) (name : String) (p : String → Option Nat)
    (ts : List String) : Option Nat × Nat × List CommandError :=
  let dup : List CommandError := if cur.isSome then [.goDuplicate name] else []
  match ts with
  | [] => (cur, 0, dup ++ [.unexpectedEol])
  | v :: rest =>
    match p v with
    | some n => (some n, 1, dup)
    | none =>
      let _ := rest
      (cur, 1, dup ++ [.goInvalidIntSub name v])

/-- The keyword loop of `command::parse_go` (src/src/uci/parse/command.rs
lines 67-120); identical to the go.rs loop (including the `ponder.is_some()`
test in the `searchmoves` arm) except for the error type and the u64
`nodes` field. -/
def cmdGoParseAuxF : Nat → List String → Go → Go × List CommandError
  | 0, _, g => (g, [])
  | _ + 1, [], g => (g, [])
  | f + 1, t :: ts, g =>
    if t = "searchmoves" then
      let dup : List CommandError := if g.ponder.isSome then [.goDuplicate "searchmoves"] else []
      let r := movevecParse ts false
      let next := cmdGoParseAuxF f r.2.1 { g with searchmoves := some r.1 }
      (next.1, dup ++ r.2.2.map .invalidSearchMove ++ next.2)
    else if t = "ponder" then
      let dup : List CommandError := if g.ponder.isSome then [.goDuplicate "ponder"] else []
      let next := cmdGoParseAuxF f ts { g with ponder := some () }
      (next.1, dup ++ next.2)
    else if t = "infinite" then
      let dup : List CommandError := if g.infinite.isSome then [.goDuplicate "infinite"] else []
      let next := cmdGoParseAuxF f ts { g with infinite := some () }
      (next.1, dup ++ next.2)
    else if t = "wtime" then
      let r := cmdGoIntItem g.wtime "wtime" parseU64 ts
      let next := cmdGoParseAuxF f (ts.drop r.2.1) { g with wtime := r.1 }
      (next.1, r.2.2 ++ next.2)
    else if t = "btime" then
      let r := cmdGoIntItem g.btime "btime" parseU64 ts
      let next := cmdGoParseAuxF f (ts.drop r.2.1) { g with btime := r.1 }
      (next.1, r.2.2 ++ next.2)
    else if t = "winc" then
      let r := cmdGoIntItem g.winc "winc" parseU64 ts
      let next := cmdGoParseAuxF f (ts.drop r.2.1) { g with winc := r.1 }
      (next.1, r.2.2 ++ next.2)
    else if t = "binc" then
      let r := cmdGoIntItem g.binc "binc" parseU64 ts
      let next := cmdGoParseAuxF f (ts.drop r.2.1) { g with binc := r.1 }
      (next.1, r.2.2 ++ next.2)
    else if t = "movestogo" then
      let r := cmdGoIntItem g.movestogo "movestogo" parseNonZeroU64 ts
      let next := cmdGoParseAuxF f (ts.drop r.2.1) { g with movestogo := r.1 }
      (next.1, r.2.2 ++ next.2)
    else if t = "mate" then
      let r := cmdGoIntItem g.mate "mate" parseU64 ts
      let next := cmdGoParseAuxF f (ts.drop r.2.1) { g with mate := r.1 }
      (next.1, r.2.2 ++ next.2)
    else if t = "depth" then
      let r := cmdGoIntItem g.depth "depth" parseU64 ts
      let next := cmdGoParseAuxF f (ts.drop r.2.1) { g with depth := r.1 }
      (next.1, r.2.2 ++ next.2)
    else if t = "nodes" then
      let r := cmdGoIntItem g.nodes "nodes" parseU64 ts
      let next := cmdGoParseAuxF f (ts.drop r.2.1) { g with nodes := r.1 }
      (next.1, r.2.2 ++ next.2)
    else if t = "movetime" then
      let r := cmdGoIntItem g.movetime "movetime" parseU64 ts
      let next := cmdGoParseAuxF f (ts.drop r.2.1) { g with movetime := r.1 }
      (next.1, r.2.2 ++ next.2)
    else
      let next := cmdGoParseAuxF f ts g
      (next.1, .unexpectedToken t :: next.2)

/-- The keyword loop at its canonical fuel. -/
def cmdGoParseAux (toks : List String) (g : Go) : Go × List CommandError :=
  cmdGoParseAuxF toks.length toks g

/-- The limit-collapsing closure plus `verify_taken!` of `command::parse_go`
(src/src/uci/parse/command.rs lines 122-160): precedence
infinite > mate > clock > limits, `GoNoLimits` fallback, then a
`GoConflict` warning for every field the chosen branch did not take. -/
def parseGoFinish (g0 : Go) : GoLimits × List CommandError :=
  let step :
      GoLimits × Go × List CommandError :=
    if g0.infinite.isSome then
      (GoLimits.infinite, { g0 with infinite := none }, [])
    else if g0.mate.isSome then
      (GoLimits.mate (g0.mate.getD 0), { g0 with mate := none }, [])
    else if g0.wtime.isSome ∧ g0.btime.isSome then
      (GoLimits.clock (g0.wtime.getD 0) (g0.btime.getD 0) (g0.winc.getD 0)
        (g0.binc.getD 0) g0.movestogo,
       { g0 with wtime := none, btime := none, winc := none, binc := none,
                 movestogo := none }, [])
    else if g0.depth.isSome ∨ g0.nodes.isSome ∨ g0.movetime.isSome then
      (GoLimits.limits g0.depth g0.nodes g0.movetime,
       { g0 with depth := none, nodes := none, movetime := none }, [])
    else (GoLimits.infinite, g0, [.goNoLimits])
  let g := step.2.1
  let conflicts : List CommandError :=
    (if g.infinite.isSome then [CommandError.goConflict "infinite"] else []) ++
    (if g.wtime.isSome then [CommandError.goConflict "wtime"] else []) ++
    (if g.btime.isSome then [CommandError.goConflict "btime"] else []) ++
    (if g.winc.isSome then [CommandError.goConflict "winc"] else []) ++
    (if g.binc.isSome then [CommandError.goConflict "binc"] else []) ++
    (if g.movestogo.isSome then [CommandError.goConflict "movestogo"] else []) ++
    (if g.mate.isSome then [CommandError.goConflict "mate"] else []) ++
    (if g.depth.isSome then [CommandError.goConflict "depth"] else []) ++
    (if g.nodes.isSome then [CommandError.goConflict "nodes"] else []) ++
    (if g.movetime.isSome then [CommandError.goConflict "movetime"] else [])
  (step.1, step.2.2 ++ conflicts)

/-- `command::parse_go` (src/src/uci/parse/command.rs lines 53-167). -/
def parseGo (toks : List String) : Command × List CommandError :=
  let r := cmdGoParseAux toks emptyGo
  let f := parseGoFinish r.1
  (.go r.1.searchmoves r.1.ponder f.1, r.2 ++ f.2)

/-- All-or-nothing move parsing of the `position` branch
(src/src/uci/parse/command.rs lines 234-243): the first bad move aborts. -/
def parseMovesAll : List String → Nat → Except (Nat × String) (List UciMove)
  | [], _ => .ok []
  | v :: rest, pos =>
    match parseUciMove v with
    | some m => (parseMovesAll rest (pos + 1)).map (m :: ·)
    | none => .error (pos, v)

/-- Finish the `position` branch once the board is known. -/
def posMoves (b : RawBoard) (movesToks : List String) (ws : List CommandError) :
    Option Command × List String × List CommandError :=
  match parseMovesAll movesToks 0 with
  | .ok ms => (some (.position b ms), [], ws)
  | .error e => (none, [], ws ++ [.invalidMove e.1 ⟨e.2⟩])

/-- The dispatch loop of `command::parse` (src/src/uci/parse/command.rs
lines 169-252): unknown leading tokens are warned and skipped; a recognized
keyword hands off to its branch.  Returns the result, the tokens left
unconsumed by the branch and the warnings. -/
def commandParseLoop : List String → Option Command × List String × List CommandError
  | [] => (none, [], [])
  | t :: ts =>
    if t = "uci" then (some .uci, ts, [])
    else if t = "debug" then
      match ts with
      | [] => (none, [], [.unexpectedEol])
      | v :: rest =>
        if v = "on" then (some (.debug true), rest, [])
        else if v = "off" then (some (.debug false), rest, [])
        else (none, rest, [.unexpectedToken v])
    else if t = "isready" then (some .isready, ts, [])
    else if t = "setoption" then
      match ts with
      | [] => (none, [], [.unexpectedEol])
      | v :: rest =>
        if v = "name" then
          let s := trySplit rest "value"
          match OptName.from_tokens s.1 with
          | .error e => (none, [], [.setOptionBadName e])
          | .ok nm => (some (.setoption nm s.2), [], [])
        else (none, rest, [.setOptionNoName])
    else if t = "register" then
      match ts with
      | [] => (none, [], [.unexpectedEol])
      | v :: rest =>
        if v = "later" then (some (.register .later), rest, [])
        else if v = "name" then
          let s := trySplit rest "code"
          let ws : List CommandError := if s.2.isNone then [.registerNoCode] else []
          match RegisterName.from_tokens s.1 with
          | .error e => (none, [], ws ++ [.registerBadName e])
          | .ok nm => (some (.register (.now nm (s.2.getD []))), [], ws)
        else (none, rest, [.unexpectedToken v])
    else if t = "ucinewgame" then (some .ucinewgame, ts, [])
    else if t = "position" then
      let s := trySplit ts "moves"
      let ws0 : List CommandError := if s.2.isNone then [.positionNoMoves] else []
      let movesToks := s.2.getD []
      match s.1 with
      | [] => posMoves RawBoard.initial movesToks (ws0 ++ [.noPosition])
      | d :: drest =>
        if d = "startpos" then
          posMoves RawBoard.initial movesToks
            (ws0 ++ (match drest with
                     | [] => []
                     | x :: _ => [CommandError.extraToken x]))
        else if d = "fen" then
          match RawBoard.from_fen (joinToks drest) with
          | some b => posMoves b movesToks ws0
          | none => (none, [], ws0 ++ [.invalidFen])
        else (none, [], ws0 ++ [.unexpectedToken d])
    else if t = "go" then
      let r := parseGo ts
      (some r.1, [], r.2)
    else if t = "stop" then (some .stop, ts, [])
    else if t = "ponderhit" then (some .ponderhit, ts, [])
    else if t = "quit" then (some .quit, ts, [])
    else
      let next := commandParseLoop ts
      (next.1, next.2.1, .unexpectedToken t :: next.2.2)

/-- `command::parse` (src/src/uci/parse/command.rs lines 169-257): the
dispatch loop followed by the `ExtraToken` warning for residual tokens. -/
def commandParse (toks : List String) : Option Command × List CommandError :=
  let r := commandParseLoop toks
  (r.1, r.2.2 ++ (match r.2.1 with
                  | [] => []
                  | x :: _ => [CommandError.extraToken x]))

/-- `Command::parse_line` (src/src/uci/parse/mod.rs lines 42-49). -/
def commandParseLine (line : String) : Option Command × List CommandError :=
  commandParse (tokenize line)

/-- `GoLimits` branch of `command::fmt` (src/src/uci/parse/command.rs
lines 315-366). -/
def goLimitsFmt : GoLimits → List String
  | .infinite => ["infinite"]
  | .clock wt bt wi bi mtg =>
    ["wtime", fmtNat wt, "btime", fmtNat bt] ++
    (if wi ≠ 0 then ["winc", fmtNat wi] else []) ++
    (if bi ≠ 0 then ["binc", fmtNat bi] else []) ++
    tagOpt "movestogo" mtg
  | .mate v => ["mate", fmtNat v]
  | .limits d n mt =>
    (if d = none ∧ n = none ∧ mt = none then ["infinite"] else []) ++
    tagOpt "depth" d ++ tagOpt "nodes" n ++ tagOpt "movetime" mt

/-- `command::fmt` (src/src/uci/parse/command.rs lines 259-372). -/
def commandFmt : Command → List String
  | .uci => ["uci"]
  | .debug v => ["debug", if v then "on" else "off"]
  | .isready => ["isready"]
  | .setoption nm val => ["setoption", "name"] ++ nm ++ valueTag val
  | .register .later => ["register", "later"]
  | .register (.now nm code) => ["register", "name"] ++ nm ++ "code" :: code
  | .ucinewgame => ["ucinewgame"]
  | .position b moves =>
    "position" ::
      (if b = RawBoard.initial then ["startpos"] else "fen" :: b.fen) ++
      "moves" :: movevecFmt moves
  | .go sm po limits =>
    "go" :: searchTag sm ++
      (if po.isSome then ["ponder"] else []) ++ goLimitsFmt limits
  | .stop => ["stop"]
  | .ponderhit => ["ponderhit"]
  | .quit => ["quit"]

/-- `Command::fmt_line` (src/src/uci/parse/mod.rs lines 52-61). -/
def commandFmtLine (c : Command) : String := joinToks (commandFmt c)

/-! ### OptBody subparser (src/src/uci/parse/optbody.rs) -/

/-- `optbody::Error` (src/src/uci/parse/optbody.rs lines 6-30). -/
inductive OptBodyError
  | unexpectedToken (t : String)
  | unexpectedEol
  | extraToken (t : String)
  | unknownType (t : String)
  | expectedToken (kw : String)
  | expectedBool
  | badInteger (t : String)
  | badComboDefaultVar (e : StrError)
  | badComboVar (pos : Nat) (e : StrError)
deriving DecidableEq, Repr

/-- Rust's slice `split` on a separator token: n separators yield n+1
groups (src/src/uci/parse/optbody.rs line 57). -/
def splitOnTok (sep : String) : List String → List (List String)
  | [] => [[]]
  | t :: ts =>
    if t = sep then [] :: splitOnTok sep ts
    else
      match splitOnTok sep ts with
      | g :: gs => (t :: g) :: gs
      | [] => [[t]]

/-- The combo-variant collection (src/src/uci/parse/optbody.rs lines 66-73):
validate each group, keep the good ones, warn `BadComboVar{pos}` for the
bad ones. -/
def comboVars : List (List String) → Nat → List UciTokens × List OptBodyError
  | [], _ => ([], [])
  | g :: gs, pos =>
    match OptComboVar.from_tokens g with
    | .ok v =>
      let r := comboVars gs (pos + 1)
      (v :: r.1, r.2)
    | .error e =>
      let r := comboVars gs (pos + 1)
      (r.1, .badComboVar pos e :: r.2)

/-- The `spin` branch (src/src/uci/parse/optbody.rs lines 46-54): three
mandatory keyword/value pairs in order. -/
def spinParse : List String → Option OptBody × List String × List OptBodyError
  | [] => (none, [], [.unexpectedEol])
  | d :: rest =>
    if d = "default" then
      match rest with
      | [] => (none, [], [.unexpectedEol])
      | v1 :: r1 =>
        match parseI64 v1 with
        | none => (none, r1, [.badInteger v1])
        | some dv =>
          match r1 with
          | [] => (none, [], [.unexpectedEol])
          | m :: r2 =>
            if m = "min" then
              match r2 with
              | [] => (none, [], [.unexpectedEol])
              | v2 :: r3 =>
                match parseI64 v2 with
                | none => (none, r3, [.badInteger v2])
                | some mn =>
                  match r3 with
                  | [] => (none, [], [.unexpectedEol])
                  | x :: r4 =>
                    if x = "max" then
                      match r4 with
                      | [] => (none, [], [.unexpectedEol])
                      | v3 :: r5 =>
                        match parseI64 v3 with
                        | none => (none, r5, [.badInteger v3])
                        | some mx => (some (.spin dv mn mx), r5, [])
                    else (none, r4, [.expectedToken "max"])
            else (none, r2, [.expectedToken "min"])
    else (none, rest, [.expectedToken "default"])

/-- The dispatch of `optbody::parse` before the trailing `ExtraToken` check
(src/src/uci/parse/optbody.rs lines 33-85). -/
def optbodyParseCore : List String → Option OptBody × List String × List OptBodyError
  | [] => (none, [], [.unexpectedEol])
  | t :: ts =>
    if t = "check" then
      match ts with
      | [] => (none, [], [.unexpectedEol])
      | d :: rest =>
        if d = "default" then
          match rest with
          | [] => (none, [], [.unexpectedEol])
          | v :: rest2 =>
            if v = "true" then (some (.check true), rest2, [])
            else if v = "false" then (some (.check false), rest2, [])
            else (none, rest2, [.expectedBool])
        else (none, rest, [.expectedToken "default"])
    else if t = "spin" then spinParse ts
    else if t = "combo" then
      match ts with
      | [] => (none, [], [.unexpectedEol])
      | d :: rest =>
        if d = "default" then
          let groups := splitOnTok "var" rest
          match OptComboVar.from_tokens (groups.headD []) with
          | .error e => (none, [], [.badComboDefaultVar e])
          | .ok dv =>
            let vr := comboVars groups.tail 0
            (some (.combo dv vr.1), [], vr.2)
        else (none, rest, [.expectedToken "default"])
    else if t = "button" then (some .button, ts, [])
    else if t = "string" then
      match ts with
      | [] => (none, [], [.unexpectedEol])
      | d :: rest =>
        if d = "default" then (some (.string rest), [], [])
        else (none, rest, [.expectedToken "default"])
    else (none, ts, [.unknownType t])

/-- `optbody::parse` (src/src/uci/parse/optbody.rs lines 32-90): dispatch
plus the trailing `ExtraToken` warning. -/
def optbodyParse (toks : List String) : Option OptBody × List OptBodyError :=
  let r := optbodyParseCore toks
  (r.1, r.2.2 ++ (match r.2.1 with
                  | [] => []
                  | x :: _ => [OptBodyError.extraToken x]))

/-- `optbody::fmt` (src/src/uci/parse/optbody.rs lines 92-123).  Note the
`String` arm emits no `default` keyword, unlike its parser. -/
def optbodyFmt : OptBody → List String
  | .check v => ["check", "default", if v then "true" else "false"]
  | .spin d mn mx => ["spin", "default", fmtInt d, "min", fmtInt mn, "max", fmtInt mx]
  | .combo d vars => ["combo", "default"] ++ d ++ vars.foldr (fun v acc => "var" :: (v ++ acc)) []
  | .button => ["button"]
  | .string s => "string" :: s

/-! ### Message subparser (src/src/uci/parse/message.rs) -/

/-- `message::Error` (src/src/uci/parse/message.rs lines 7-38). -/
inductive MessageError
  | unexpectedToken (t : String)
  | extraToken (t : String)
  | unexpectedEol
  | invalidBestmove (e : MoveError)
  | invalidPonder (e : MoveError)
  | invalidCopyProtection (e : TriStatusError)
  | invalidRegistration (e : TriStatusError)
  | badInfo (pos : Nat) (e : InfoError)
  | optionNoName
  | optionNoType
  | optionBadName (e : StrError)
  | optionBadBody (e : OptBodyError)
deriving DecidableEq, Repr

/-- The `info` item loop (src/src/uci/parse/message.rs lines 89-105):
repeatedly apply `info::parse` until `string` or end of line; `pos` is
`info.len()` before each item.  The structural fuel bounds the number of
iterations; each iteration consumes at least one token, so the initial
fuel `toks.length` never runs out (`infoItemsF_irrel` below). -/
def infoItemsF : Nat → List String → Nat → List Info × Option UciTokens × List MessageError
  | 0, _, _ => ([], none, [])
  | _ + 1, [], _ => ([], none, [])
  | f + 1, t :: ts, pos =>
    if t = "string" then ([], some ts, [])
    else
      let r := infoParse (t :: ts)
      match r.1 with
      | some i =>
        let next := infoItemsF f r.2.1 (pos + 1)
        (i :: next.1, next.2.1, r.2.2.map (.badInfo pos) ++ next.2.2)
      | none =>
        let next := infoItemsF f r.2.1 pos
        (next.1, next.2.1, r.2.2.map (.badInfo pos) ++ next.2.2)

/-- The `info` item loop at its canonical fuel. -/
def infoItems (toks : List String) (pos : Nat) :
    List Info × Option UciTokens × List MessageError :=
  infoItemsF toks.length toks pos

/-- The dispatch loop of `message::parse` (src/src/uci/parse/message.rs
lines 40-119): unknown leading tokens are warned and skipped. -/
def messageParseLoop : List String → Option Message × List String × List MessageError
  | [] => (none, [], [])
  | t :: ts =>
    if t = "id" then
      match ts with
      | [] => (none, [], [.unexpectedEol])
      | v :: rest =>
        if v = "name" then (some (.id (.name rest)), [], [])
        else if v = "author" then (some (.id (.author rest)), [], [])
        else (none, rest, [.unexpectedToken v])
    else if t = "uciok" then (some .uciok, ts, [])
    else if t = "readyok" then (some .readyok, ts, [])
    else if t = "bestmove" then
      match ts with
      | [] => (none, [], [.unexpectedEol])
      | v :: rest =>
        let bmWs : List MessageError :=
          match parseUciMove v with
          | some _ => []
          | none => [.invalidBestmove ⟨v⟩]
        let bm := (parseUciMove v).getD .null
        match rest with
        | [] => (some (.bestmove bm none), [], bmWs)
        | p :: rest2 =>
          if p = "ponder" then
            match rest2 with
            | [] => (some (.bestmove bm none), [], bmWs ++ [.unexpectedEol])
            | pv :: rest3 =>
              match parseUciMove pv with
              | some pm => (some (.bestmove bm (some pm)), rest3, bmWs)
              | none => (some (.bestmove bm none), rest3, bmWs ++ [.invalidPonder ⟨pv⟩])
          else (some (.bestmove bm none), rest2, bmWs ++ [.unexpectedToken p])
    else if t = "copyprotection" then
      let r := triStatusParse ts
      match r.1 with
      | some s => (some (.copyprotection s), r.2.1, r.2.2.map .invalidCopyProtection)
      | none => (none, r.2.1, r.2.2.map .invalidCopyProtection)
    else if t = "registration" then
      let r := triStatusParse ts
      match r.1 with
      | some s => (some (.registration s), r.2.1, r.2.2.map .invalidRegistration)
      | none => (none, r.2.1, r.2.2.map .invalidRegistration)
    else if t = "info" then
      let r := infoItems ts 0
      (some (.info r.1 r.2.1), [], r.2.2)
    else if t = "option" then
      match ts with
      | [] => (none, [], [.unexpectedEol])
      | v :: rest =>
        if v = "name" then
          let s := trySplit rest "type"
          let ws : List MessageError := if s.2.isNone then [.optionNoType] else []
          match OptName.from_tokens s.1 with
          | .error e => (none, [], ws ++ [.optionBadName e])
          | .ok nm =>
            let b := optbodyParse (s.2.getD [])
            match b.1 with
            | some body => (some (.option nm body), [], ws ++ b.2.map .optionBadBody)
            | none => (none, [], ws ++ b.2.map .optionBadBody)
        else (none, rest, [.optionNoName])
    else
      let next := messageParseLoop ts
      (next.1, next.2.1, .unexpectedToken t :: next.2.2)

/-- `message::parse` (src/src/uci/parse/message.rs lines 40-124): the loop
followed by the residual-token warning, which this parser reports as
`UnexpectedToken` (line 121). -/
def messageParse (toks : List String) : Option Message × List MessageError :=
  let r := messageParseLoop toks
  (r.1, r.2.2 ++ (match r.2.1 with
                  | [] => []
                  | x :: _ => [MessageError.unexpectedToken x]))

/-- `Message::parse_line` (src/src/uci/parse/mod.rs lines 42-49). -/
def messageParseLine (line : String) : Option Message × List MessageError :=
  messageParse (tokenize line)

/-- `message::fmt` (src/src/uci/parse/message.rs lines 126-167). -/
def messageFmt : Message → List String
  | .id (.name s) => ["id", "name"] ++ s
  | .id (.author s) => ["id", "author"] ++ s
  | .uciok => ["uciok"]
  | .readyok => ["readyok"]
  | .bestmove bm po => ["bestmove", fmtUciMove bm] ++ ponderTag po
  | .copyprotection s => "copyprotection" :: triStatusFmt s
  | .registration s => "registration" :: triStatusFmt s
  | .info items str =>
    "info" :: items.foldr (fun i acc => infoFmt i ++ acc) [] ++ stringTag str
  | .option nm body => ["option", "name"] ++ nm ++ "type" :: optbodyFmt body

/-- `Message::fmt_line` (src/src/uci/parse/mod.rs lines 52-61). -/
def messageFmtLine (m : Message) : String := joinToks (messageFmt m)

/-! ### Well-formedness

These predicates describe the values the round-trip statements quantify
over: the Rust types' own invariants (integer widths, `NonZeroU64`,
`Permille ≤ 1000`, square coordinates, token well-formedness, the typed
strings' reserved-token invariants), plus the exclusions the round-trip
counterexamples force (no null move inside movevec-parsed lists, no
winning mate in 0, `GoLimits::Limits` not all-`None`, no
`OptBody::String` body). -/

/-- An optional numeric field within its integer width. -/
def optNatLt (bound : Nat) : Option Nat → Bool
  | none => true
  | some v => decide (v < bound)

/-- Moves acceptable inside a movevec-parsed list: well-formed and not the
null move (whose `0000` rendering the run heuristic refuses to consume). -/
def movesWfNoNull (ms : List UciMove) : Bool :=
  ms.all (fun m => moveWf m && !(decide (m = UciMove.null)))

/-- An `i64` value. -/
def intI64Wf (x : Int) : Bool := decide (-(2 ^ 63) ≤ x) && decide (x < 2 ^ 63)

/-- A score whose formatting is reversible: in-range, and not a winning
mate in 0 (printed `mate 0`, which reparses as a losing mate). -/
def relScoreRT : RelScore → Bool
  | .cp v => decide (-(2 ^ 31) ≤ v) && decide (v < 2 ^ 31)
  | .mate m win => decide (m < 2 ^ 32) && !(decide (m = 0) && win)

/-- An `OptName` body: well-formed tokens free of `type` and `value`. -/
def optNameWf (nm : UciTokens) : Bool :=
  toksWf nm && !(nm.contains "type") && !(nm.contains "value")

/-- An `OptComboVar` body: well-formed tokens free of `var`. -/
def comboVarWf (v : UciTokens) : Bool := toksWf v && !(v.contains "var")

/-- A `RegisterName` body: well-formed tokens free of `code`. -/
def registerNameWf (nm : UciTokens) : Bool := toksWf nm && !(nm.contains "code")

/-- Round-trippable info items. -/
def infoRT : Info → Bool
  | .depth n => decide (n < 2 ^ 32)
  | .seldepth n => decide (n < 2 ^ 32)
  | .time ms => decide (ms < 2 ^ 64)
  | .nodes n => decide (n < 2 ^ 64)
  | .pv ms => movesWfNoNull ms
  | .multipv n => decide (n < 2 ^ 32)
  | .score s => relScoreRT s.score
  | .currmove m => moveWf m
  | .currmovenumber n => decide (n < 2 ^ 32)
  | .hashfull p => decide (p.amount ≤ 1000)
  | .nps n => decide (n < 2 ^ 64)
  | .tbhits n => decide (n < 2 ^ 64)
  | .sbhits n => decide (n < 2 ^ 64)
  | .cpuload p => decide (p.amount ≤ 1000)
  | .refutation ms => movesWfNoNull ms
  | .currline cpu ms => decide (cpu < 2 ^ 32) && movesWfNoNull ms

/-- Round-trippable option bodies; `String` bodies are excluded because
`optbody::fmt` omits the `default` keyword its parser requires. -/
def optBodyRT : OptBody → Bool
  | .check _ => true
  | .spin d mn mx => intI64Wf d && intI64Wf mn && intI64Wf mx
  | .combo d vars => comboVarWf d && vars.all comboVarWf
  | .button => true
  | .string _ => false

/-- Round-trippable messages. -/
def messageRT : Message → Bool
  | .id (.name s) => toksWf s
  | .id (.author s) => toksWf s
  | .uciok => true
  | .readyok => true
  | .bestmove bm po =>
    moveWf bm &&
      (match po with
       | none => true
       | some p => moveWf p)
  | .copyprotection _ => true
  | .registration _ => true
  | .info items str =>
    items.all infoRT &&
      (match str with
       | none => true
       | some s => toksWf s)
  | .option nm body => optNameWf nm && optBodyRT body

/-- Round-trippable `GoLimits`: integer widths, non-zero `movestogo`, and
the `Limits` variant not all-`None` (which formats as `infinite`). -/
def goLimitsRT : GoLimits → Bool
  | .infinite => true
  | .clock wt bt wi bi mtg =>
    decide (wt < 2 ^ 64) && decide (bt < 2 ^ 64) && decide (wi < 2 ^ 64) &&
      decide (bi < 2 ^ 64) &&
      (match mtg with
       | none => true
       | some v => decide (0 < v) && decide (v < 2 ^ 64))
  | .mate n => decide (n < 2 ^ 64)
  | .limits d n mt =>
    !(d.isNone && n.isNone && mt.isNone) &&
      optNatLt (2 ^ 64) d && optNatLt (2 ^ 64) n && optNatLt (2 ^ 64) mt

/-- Round-trippable commands. -/
def commandRT : Command → Bool
  | .uci => true
  | .debug _ => true
  | .isready => true
  | .setoption nm val =>
    optNameWf nm &&
      (match val with
       | none => true
       | some v => toksWf v)
  | .register .later => true
  | .register (.now nm code) => registerNameWf nm && toksWf code
  | .ucinewgame => true
  | .position b ms => fenWf b && ms.all moveWf
  | .go sm po limits =>
    (match sm with
     | none => true
     | some ms => movesWfNoNull ms) &&
      (let _ := po
       goLimitsRT limits)
  | .stop => true
  | .ponderhit => true
  | .quit => true

/-- Well-formed `Go` records (spec §3 field types, `movestogo` non-zero). -/
def goWf (g : Go) : Bool :=
  (match g.searchmoves with
   | none => true
   | some ms => movesWfNoNull ms) &&
  optNatLt (2 ^ 64) g.wtime && optNatLt (2 ^ 64) g.btime &&
  optNatLt (2 ^ 64) g.winc && optNatLt (2 ^ 64) g.binc &&
  (match g.movestogo with
   | none => true
   | some v => decide (0 < v) && decide (v < 2 ^ 64)) &&
  optNatLt (2 ^ 64) g.mate && optNatLt (2 ^ 64) g.depth &&
  optNatLt (2 ^ 32) g.nodes && optNatLt (2 ^ 64) g.movetime

/-- A token list that cannot start a `lowerbound`/`upperbound` suffix (what
follows a formatted score inside an `info` line). -/
def scoreBoundary : List String → Bool
  | [] => true
  | t :: _ => !(decide (t = "lowerbound")) && !(decide (t = "upperbound"))

/-- A token list that can safely follow a formatted info item: its head (if
any) is not move-like and is not a score-bound keyword. -/
def infoBoundary : List String → Bool
  | [] => true
  | t :: _ =>
    !looksLikeMove t && !(decide (t = "lowerbound")) && !(decide (t = "upperbound"))

/-! ### Fatal-condition predicates (amended spec §6)

These transcribe the amended description of exactly when `parse_line`
returns `None`; the characterization theorems compare them with the
parsers above. -/

/-- An all-or-nothing move list is fatal iff some token fails to parse. -/
def movesFatal (toks : List String) : Bool :=
  toks.any (fun t => (parseUciMove t).isNone)

/-- A tri-status argument is fatal iff it is absent or not one of the
three status tokens. -/
def triStatusFatal : List String → Bool
  | [] => true
  | t :: _ =>
    !(decide (t = "ok")) && !(decide (t = "checking")) && !(decide (t = "error"))

/-- A `spin` body is fatal iff the `default v min v max v` chain is
interrupted: a keyword missing or wrong, a value missing, or a value not
an i64. -/
def spinFatal : List String → Bool
  | [] => true
  | d :: rest =>
    if d = "default" then
      match rest with
      | [] => true
      | v1 :: r1 =>
        if (parseI64 v1).isNone then true
        else
          match r1 with
          | [] => true
          | m :: r2 =>
            if m = "min" then
              match r2 with
              | [] => true
              | v2 :: r3 =>
                if (parseI64 v2).isNone then true
                else
                  match r3 with
                  | [] => true
                  | x :: r4 =>
                    if x = "max" then
                      match r4 with
                      | [] => true
                      | v3 :: _ => (parseI64 v3).isNone
                    else true
            else true
    else true

/-- An option body is fatal iff the type keyword is absent or unknown, a
mandatory `default` keyword or value is missing, a `check` value is not a
boolean, or a `spin` chain is interrupted. -/
def optbodyFatal : List String → Bool
  | [] => true
  | t :: ts =>
    if t = "check" then
      match ts with
      | [] => true
      | d :: rest =>
        if d = "default" then
          match rest with
          | [] => true
          | v :: _ => !(decide (v = "true")) && !(decide (v = "false"))
        else true
    else if t = "spin" then spinFatal ts
    else if t = "combo" then
      match ts with
      | [] => true
      | d :: _ => !(decide (d = "default"))
    else if t = "button" then false
    else if t = "string" then
      match ts with
      | [] => true
      | d :: _ => !(decide (d = "default"))
    else true

/-- Fatal conditions of `command::parse`: an empty line or one of only
unrecognized tokens; `debug` with a missing or invalid mode; `setoption`
without `name` or with a reserved token in the name; `register` with a
missing or unknown argument; `position` with an unknown discriminator, an
invalid FEN, or an invalid move.  Unrecognized leading tokens are skipped,
and `go` is never fatal. -/
def commandFatal : List String → Bool
  | [] => true
  | t :: ts =>
    if t = "uci" then false
    else if t = "debug" then
      match ts with
      | [] => true
      | v :: _ => !(decide (v = "on")) && !(decide (v = "off"))
    else if t = "isready" then false
    else if t = "setoption" then
      match ts with
      | [] => true
      | v :: rest =>
        if v = "name" then
          ((trySplit rest "value").1.contains "type") ||
            ((trySplit rest "value").1.contains "value")
        else true
    else if t = "register" then
      match ts with
      | [] => true
      | v :: _ => !(decide (v = "later")) && !(decide (v = "name"))
    else if t = "ucinewgame" then false
    else if t = "position" then
      let s := trySplit ts "moves"
      match s.1 with
      | [] => movesFatal (s.2.getD [])
      | d :: drest =>
        if d = "startpos" then movesFatal (s.2.getD [])
        else if d = "fen" then
          (RawBoard.from_fen (joinToks drest)).isNone || movesFatal (s.2.getD [])
        else true
    else if t = "go" then false
    else if t = "stop" then false
    else if t = "ponderhit" then false
    else if t = "quit" then false
    else commandFatal ts

/-- Fatal conditions of `message::parse`: an empty line or one of only
unrecognized tokens; `id` with a missing or unknown argument; `bestmove`
at end of line; a tri-status command with a bad status; `option` without
`name`, with a reserved token in the name, or with a fatal body.
Unrecognized leading tokens are skipped, and `info` is never fatal. -/
def messageFatal : List String → Bool
  | [] => true
  | t :: ts =>
    if t = "id" then
      match ts with
      | [] => true
      | v :: _ => !(decide (v = "name")) && !(decide (v = "author"))
    else if t = "uciok" then false
    else if t = "readyok" then false
    else if t = "bestmove" then ts.isEmpty
    else if t = "copyprotection" then triStatusFatal ts
    else if t = "registration" then triStatusFatal ts
    else if t = "info" then false
    else if t = "option" then
      match ts with
      | [] => true
      | v :: rest =>
        if v = "name" then
          ((trySplit rest "type").1.contains "type") ||
            ((trySplit rest "type").1.contains "value") ||
            optbodyFatal ((trySplit rest "type").2.getD [])
        else true
    else messageFatal ts

-- ANCHOR-DEFS (definitions are inserted above this line)

end Owl

namespace Owl

theorem splitWsAux_append_nonws (t : List Char) (h : ∀ c ∈ t, isWsChar c = false) :
    ∀ rest acc, splitWsAux (t ++ rest) acc = splitWsAux rest (t.reverse ++ acc) := by
  induction t with
  | nil => intro rest acc; simp
  | cons c cs ih =>
    intro rest acc
    have hc : isWsChar c = false := h c (by simp)
    have hcs : ∀ x ∈ cs, isWsChar x = false := fun x hx => h x (by simp [hx])
    simp [splitWsAux, hc, ih hcs, List.reverse_cons, List.append_assoc]

theorem splitWsAux_space (rest : List Char) (acc : List Char) :
    splitWsAux (' ' :: rest) acc =
      if acc.isEmpty then splitWsAux rest [] else acc.reverse :: splitWsAux rest [] := by
  simp [splitWsAux, isWsChar]

theorem splitWs_joinChars (ts : List (List Char))
    (h : ∀ t ∈ ts, t ≠ [] ∧ ∀ c ∈ t, isWsChar c = false) :
    splitWsAux (joinChars ts) [] = ts := by
  induction ts with
  | nil => simp [joinChars, splitWsAux]
  | cons t ts ih =>
    obtain ⟨hne, hnw⟩ := h t (by simp)
    have hts : ∀ u ∈ ts, u ≠ [] ∧ ∀ c ∈ u, isWsChar c = false :=
      fun u hu => h u (by simp [hu])
    cases ts with
    | nil =>
      have := splitWsAux_append_nonws t hnw [] []
      simp only [joinChars, List.append_nil] at this ⊢
      rw [this]
      simp [splitWsAux, List.isEmpty_iff, hne]
    | cons u us =>
      have hjoin : joinChars (t :: u :: us) = t ++ ' ' :: joinChars (u :: us) := rfl
      rw [hjoin, splitWsAux_append_nonws t hnw, splitWsAux_space]
      simp only [List.append_nil, List.isEmpty_iff, List.reverse_eq_nil_iff]
      rw [if_neg hne]
      simp [ih hts]

theorem tokenize_joinToks (ts : List String) (h : toksWf ts = true) :
    tokenize (joinToks ts) = ts := by
  have hchars : ∀ t ∈ ts.map String.data, t ≠ [] ∧ ∀ c ∈ t, isWsChar c = false := by
    intro t ht
    simp only [List.mem_map] at ht
    obtain ⟨s, hs, rfl⟩ := ht
    have := (List.all_eq_true.mp h) s hs
    simp only [tokWf, Bool.and_eq_true, String.isEmpty_iff, Bool.not_eq_true'] at this
    obtain ⟨h1, h2⟩ := this
    constructor
    · intro hc
      cases s with
      | mk data =>
        simp only at hc
        subst hc
        simp [String.isEmpty] at h1
    · intro c hc
      have := (List.all_eq_true.mp h2) c hc
      simpa using this
  unfold tokenize joinToks
  simp only [String.data]
  rw [splitWs_joinChars _ hchars]
  rw [List.map_map]
  have : (String.mk ∘ String.data) = id := by
    funext s; cases s; rfl
  simp [this]

theorem natToDigitsF_irrel (n : Nat) : ∀ f1 f2, n < f1 → n < f2 →
    natToDigitsF f1 n = natToDigitsF f2 n := by
  induction n using Nat.strong_induction_on with
  | _ n ih =>
    intro f1 f2 h1 h2
    match f1, f2, h1, h2 with
    | g1 + 1, g2 + 1, h1, h2 =>
      rw [natToDigitsF, natToDigitsF]
      split
      · rfl
      · next h =>
        have hdiv : n / 10 < n := Nat.div_lt_self (by omega) (by omega)
        rw [ih (n / 10) hdiv g1 g2 (by omega) (by omega)]

theorem natToDigits_eq (n : Nat) : natToDigits n =
    if n < 10 then [Char.ofNat (n + 48)]
    else natToDigits (n / 10) ++ [Char.ofNat (n % 10 + 48)] := by
  rw [natToDigits, natToDigitsF]
  split
  · rfl
  · next h =>
    have hdiv : n / 10 < n := Nat.div_lt_self (by omega) (by omega)
    rw [show natToDigits (n / 10) = natToDigitsF (n / 10 + 1) (n / 10) from rfl,
      natToDigitsF_irrel (n / 10) n (n / 10 + 1) (by omega) (by omega)]

theorem digitChar_isDigit (d : Nat) (h : d < 10) :
    (Char.ofNat (d + 48)).isDigit = true := by
  interval_cases d <;> decide

theorem digitChar_val (d : Nat) (h : d < 10) :
    digitVal (Char.ofNat (d + 48)) = d := by
  interval_cases d <;> decide

theorem digitChar_not_ws (d : Nat) (h : d < 10) :
    isWsChar (Char.ofNat (d + 48)) = false := by
  interval_cases d <;> decide

theorem natToDigits_ne_nil (n : Nat) : natToDigits n ≠ [] := by
  rw [natToDigits_eq]
  split <;> simp

theorem natToDigits_all_digits (n : Nat) : ∀ c ∈ natToDigits n, c.isDigit := by
  induction n using Nat.strong_induction_on with
  | _ n ih =>
    rw [natToDigits_eq]
    split
    · intro c hc
      simp only [List.mem_singleton] at hc
      subst hc
      exact digitChar_isDigit n (by omega)
    · intro c hc
      rcases List.mem_append.mp hc with h | h
      · exact ih (n / 10) (Nat.div_lt_self (by omega) (by omega)) c h
      · simp only [List.mem_singleton] at h
        subst h
        exact digitChar_isDigit (n % 10) (Nat.mod_lt _ (by omega))

theorem digitsVal_append_digit (ds : List Char) (c : Char) :
    digitsVal (ds ++ [c]) = digitsVal ds * 10 + digitVal c := by
  simp [digitsVal, List.foldl_append]

theorem digitsVal_natToDigits (n : Nat) : digitsVal (natToDigits n) = n := by
  induction n using Nat.strong_induction_on with
  | _ n ih =>
    rw [natToDigits_eq]
    split
    · next h =>
      simp [digitsVal, digitChar_val n h]
    · next h =>
      rw [digitsVal_append_digit,
        ih (n / 10) (Nat.div_lt_self (by omega) (by omega)),
        digitChar_val (n % 10) (Nat.mod_lt _ (by omega))]
      omega

theorem parseNatCore_natToDigits (n : Nat) :
    parseNatCore (natToDigits n) = some n := by
  rw [parseNatCore, if_pos ⟨natToDigits_ne_nil n, natToDigits_all_digits n⟩,
    digitsVal_natToDigits]

theorem natToDigits_head_digit (n : Nat) :
    ∃ c cs, natToDigits n = c :: cs ∧ c.isDigit = true := by
  cases h : natToDigits n with
  | nil => exact absurd h (natToDigits_ne_nil n)
  | cons c cs =>
    refine ⟨c, cs, rfl, ?_⟩
    exact natToDigits_all_digits n c (h ▸ List.mem_cons_self c cs)

theorem isDigit_ne_plus {c : Char} (h : c.isDigit = true) : c ≠ '+' := by
  intro hc; subst hc; exact absurd h (by decide)

theorem isDigit_ne_minus {c : Char} (h : c.isDigit = true) : c ≠ '-' := by
  intro hc; subst hc; exact absurd h (by decide)

theorem isDigit_not_ws {c : Char} (h : c.isDigit = true) : isWsChar c = false := by
  rw [Char.isDigit, Bool.and_eq_true, decide_eq_true_eq, decide_eq_true_eq] at h
  obtain ⟨h1, h2⟩ := h
  rw [isWsChar, Char.isWhitespace]
  simp only [Bool.or_eq_false_iff, decide_eq_false_iff_not]
  refine ⟨⟨⟨?_, ?_⟩, ?_⟩, ?_⟩ <;> intro hc <;> subst hc <;> revert h1 h2 <;> decide

theorem parseUnsignedCore_cons_of_ne_plus (c : Char) (cs : List Char) (h : c ≠ '+') :
    parseUnsignedCore (c :: cs) = parseNatCore (c :: cs) := by
  rw [parseUnsignedCore, if_neg h]

theorem parseSignedCore_cons_of_ne_sign (c : Char) (cs : List Char)
    (h1 : c ≠ '+') (h2 : c ≠ '-') :
    parseSignedCore (c :: cs) = (parseNatCore (c :: cs)).map (fun n => (n : Int)) := by
  rw [parseSignedCore, if_neg h2, if_neg h1]

theorem parseUnsignedCore_natToDigits (n : Nat) :
    parseUnsignedCore (natToDigits n) = some n := by
  obtain ⟨c, cs, hcons, hdig⟩ := natToDigits_head_digit n
  rw [hcons, parseUnsignedCore_cons_of_ne_plus c cs (isDigit_ne_plus hdig),
    ← hcons, parseNatCore_natToDigits]

theorem parseUnsigned_fmtNat (bound n : Nat) (h : n < bound) :
    parseUnsigned bound (fmtNat n) = some n := by
  rw [parseUnsigned, fmtNat]
  simp only [String.data]
  rw [parseUnsignedCore_natToDigits]
  simp [h]

theorem parseSignedCore_nonneg (n : Nat) :
    parseSignedCore (natToDigits n) = some (n : Int) := by
  obtain ⟨c, cs, hcons, hdig⟩ := natToDigits_head_digit n
  rw [hcons,
    parseSignedCore_cons_of_ne_sign c cs (isDigit_ne_plus hdig) (isDigit_ne_minus hdig),
    ← hcons, parseNatCore_natToDigits]
  rfl

theorem parseSignedCore_neg (n : Nat) :
    parseSignedCore ('-' :: natToDigits n) = some (-(n : Int)) := by
  rw [parseSignedCore, if_pos rfl, parseNatCore_natToDigits]
  rfl

theorem parseSigned_fmtInt (bound : Int) (x : Int)
    (h : -bound ≤ x ∧ x < bound) : parseSigned bound (fmtInt x) = some x := by
  rw [parseSigned, fmtInt]
  by_cases hx : x < 0
  · rw [if_pos hx]
    simp only [String.data]
    rw [parseSignedCore_neg]
    have hxx : -(x.natAbs : Int) = x := by omega
    rw [hxx, Option.some_bind, if_pos h]
  · rw [if_neg hx, fmtNat]
    simp only [String.data]
    rw [parseSignedCore_nonneg]
    have hxx : ((x.natAbs : Nat) : Int) = x := by omega
    rw [hxx, Option.some_bind, if_pos h]

theorem isEmpty_mk_cons (c : Char) (cs : List Char) :
    (String.mk (c :: cs)).isEmpty = false := by
  rw [Bool.eq_false_iff]
  intro hemp
  have h2 : String.mk (c :: cs) = "" := (String.isEmpty_iff _).mp hemp
  have h3 : c :: cs = ([] : List Char) := congrArg String.data h2
  simp at h3

theorem fmtNat_tokWf (n : Nat) : tokWf (fmtNat n) = true := by
  rw [tokWf, fmtNat]
  simp only [Bool.and_eq_true, List.all_eq_true]
  constructor
  · cases h : natToDigits n with
    | nil => exact absurd h (natToDigits_ne_nil n)
    | cons c cs => rw [isEmpty_mk_cons c cs]; rfl
  · intro c hc
    rw [isDigit_not_ws (natToDigits_all_digits n c hc)]
    rfl

theorem fmtInt_tokWf (x : Int) : tokWf (fmtInt x) = true := by
  rw [fmtInt]
  by_cases hx : x < 0
  · rw [if_pos hx, tokWf]
    simp only [Bool.and_eq_true, List.all_eq_true]
    refine ⟨by rw [isEmpty_mk_cons]; rfl, ?_⟩
    intro c hc
    rcases List.mem_cons.mp hc with h | h
    · subst h; decide
    · rw [isDigit_not_ws (natToDigits_all_digits x.natAbs c h)]; rfl
  · rw [if_neg hx]; exact fmtNat_tokWf x.natAbs

theorem i32WrapNeg_involutive (v : Int) (h1 : -(2 ^ 31) ≤ v) (h2 : v < 2 ^ 31) :
    i32WrapNeg (i32WrapNeg v) = v := by
  by_cases hv : v = -(2 ^ 31)
  · simp [i32WrapNeg, hv]
  · have hw : i32WrapNeg v = -v := by rw [i32WrapNeg, if_neg hv]
    rw [hw, i32WrapNeg, if_neg (show ¬(-v = -(2 ^ 31)) by omega)]
    omega

/-- C5 counterexample: at `Cp(i32::MIN)` the conversions negate `i32::MIN`,
so the debug profile aborts in `inv`, in `abs_to(Black)` and in
`rel_to(Black)` instead of satisfying the claimed identities (the release
profile wraps the negation back to `i32::MIN`); at any other centipawn
value the debug negation succeeds. -/
theorem c5_i32min_negation_counterexample :
    RelScore.invDbg (.cp (-(2 ^ 31))) = .panic ∧
    RelScore.abs_toDbg (.cp (-(2 ^ 31))) .black = .panic ∧
    AbsScore.rel_toDbg (.cp (-(2 ^ 31))) .black = .panic ∧
    RelScore.inv (.cp (-(2 ^ 31))) = .cp (-(2 ^ 31)) ∧
    RelScore.invDbg (.cp (-(2 ^ 31) + 1)) = .ok (.cp (2 ^ 31 - 1)) := by
  refine ⟨by decide, by decide, by decide, by decide, by decide⟩

/-- C5 (amended): under the release profile, where `i32` negation wraps,
the conversion identities `r.abs_to(s).rel_to(s) = r` and
`r.abs_to(s).rel_to(s.other()) = r.inv()` hold for every representable
score and color — including `Cp(i32::MIN)`, since wrapping negation is an
involution on the `i32` range; under the debug profile the conversions
agree with the release ones (so the identities carry over) whenever the
centipawn value is not `i32::MIN`, where negation aborts instead. -/
theorem c5_amended_score_conversion_roundtrip (r : RelScore) (s : Color)
    (h : relScoreI32Wf r = true) :
    ((r.abs_to s).rel_to s = r ∧ (r.abs_to s).rel_to s.inv = r.inv) ∧
    (cpNotMin r = true →
      RelScore.invDbg r = .ok r.inv ∧
      RelScore.abs_toDbg r s = .ok (r.abs_to s) ∧
      AbsScore.rel_toDbg (r.abs_to s) s = .ok r ∧
      AbsScore.rel_toDbg (r.abs_to s) s.inv = .ok r.inv) := by
  cases r with
  | cp v =>
    simp only [relScoreI32Wf, Bool.and_eq_true, decide_eq_true_eq] at h
    obtain ⟨h1, h2⟩ := h
    constructor
    · cases s with
      | white =>
        exact ⟨rfl, rfl⟩
      | black =>
        constructor
        · show RelScore.cp (i32WrapNeg (i32WrapNeg v)) = RelScore.cp v
          rw [i32WrapNeg_involutive v h1 h2]
        · rfl
    · intro hnm
      simp only [cpNotMin, Bool.not_eq_true', decide_eq_false_iff_not] at hnm
      have hw : i32WrapNeg v = -v := by rw [i32WrapNeg, if_neg hnm]
      have hp1 : i32NegPanics v = false := by
        simp only [i32NegPanics, decide_eq_false_iff_not]
        exact hnm
      have hp2 : i32NegPanics (-v) = false := by
        simp only [i32NegPanics, decide_eq_false_iff_not]
        omega
      cases s <;>
        simp [RelScore.invDbg, RelScore.abs_toDbg, AbsScore.rel_toDbg,
          RelScore.abs_to, AbsScore.rel_to, RelScore.inv, Color.inv, hw, hp1, hp2]
  | mate m w =>
    constructor
    · cases s <;> cases w <;>
        simp [RelScore.abs_to, AbsScore.rel_to, RelScore.inv, Color.inv]
    · intro _
      cases s <;> cases w <;>
        simp [RelScore.invDbg, RelScore.abs_toDbg, AbsScore.rel_toDbg,
          RelScore.abs_to, AbsScore.rel_to, RelScore.inv, Color.inv]

theorem c5_amended_score_conversion_roundtrip_witness :
    (relScoreI32Wf (.cp (-(2 ^ 31))) = true ∧
      ((RelScore.cp (-(2 ^ 31))).abs_to .black).rel_to .black =
        .cp (-(2 ^ 31))) ∧
    (relScoreI32Wf (.cp 150) = true ∧ cpNotMin (.cp 150) = true ∧
      RelScore.invDbg (.cp 150) = .ok ((RelScore.cp 150).inv)) :=
  ⟨⟨by decide,
    (c5_amended_score_conversion_roundtrip (.cp (-(2 ^ 31))) .black
      (by decide)).1.1⟩,
   ⟨by decide, by decide,
    ((c5_amended_score_conversion_roundtrip (.cp 150) .black
      (by decide)).2 (by decide)).1⟩⟩

theorem intCmp_lt_of_lt {a b : Int} (h : a < b) : intCmp a b = .lt := by
  rw [intCmp, if_pos h]

theorem intCmp_gt_of_gt {a b : Int} (h : b < a) : intCmp a b = .gt := by
  rw [intCmp, if_neg (by omega), if_neg (by omega)]

/-- C6: `RelScore`'s total order is the lexicographic order on
`(class, key)`: losing mates sort below all centipawn scores, which sort
below winning mates; within losing mates fewer moves is smaller, within
winning mates fewer moves is larger, and centipawns compare by value;
`AbsScore::cmp` compares as `rel_to(White)`. -/
theorem c6_score_ordering :
    (∀ a b : RelScore, RelScore.cmp a b = pairCmp a.as_cmp_tuple b.as_cmp_tuple) ∧
    (∀ m v, RelScore.cmp (.mate m false) (.cp v) = .lt) ∧
    (∀ v m, RelScore.cmp (.cp v) (.mate m true) = .lt) ∧
    (∀ m₁ m₂, m₁ < m₂ →
      RelScore.cmp (.mate m₁ false) (.mate m₂ false) = .lt ∧
      RelScore.cmp (.mate m₁ true) (.mate m₂ true) = .gt) ∧
    (∀ v₁ v₂, RelScore.cmp (.cp v₁) (.cp v₂) = intCmp v₁ v₂) ∧
    (∀ a b : AbsScore, AbsScore.cmp a b = RelScore.cmp (a.rel_to .white) (b.rel_to .white)) := by
  refine ⟨fun a b => rfl, ?_, ?_, ?_, ?_, fun a b => rfl⟩
  · intro m v
    simp only [RelScore.cmp, RelScore.as_cmp_tuple, pairCmp]
    rw [intCmp_lt_of_lt (by omega)]
  · intro v m
    simp only [RelScore.cmp, RelScore.as_cmp_tuple, pairCmp]
    rw [intCmp_lt_of_lt (by omega)]
  · intro m₁ m₂ h
    constructor
    · simp only [RelScore.cmp, RelScore.as_cmp_tuple, pairCmp]
      rw [show intCmp (-1) (-1) = .eq from rfl, intCmp_lt_of_lt (by omega)]
    · simp only [RelScore.cmp, RelScore.as_cmp_tuple, pairCmp]
      rw [show intCmp 1 1 = .eq from rfl, intCmp_gt_of_gt (by omega)]
  · intro v₁ v₂
    simp only [RelScore.cmp, RelScore.as_cmp_tuple, pairCmp]
    rfl

/-- Witness for C6 at concrete scores. -/
theorem c6_score_ordering_witness :
    RelScore.cmp (.mate 1 false) (.mate 2 false) = .lt ∧
    RelScore.cmp (.mate 1 true) (.mate 2 true) = .gt :=
  c6_score_ordering.2.2.2.1 1 2 (by decide)

theorem parseU64_fmtNat (n : Nat) (h : n < 2 ^ 64) : parseU64 (fmtNat n) = some n :=
  parseUnsigned_fmtNat _ n h

theorem parseU32_fmtNat (n : Nat) (h : n < 2 ^ 32) : parseU32 (fmtNat n) = some n :=
  parseUnsigned_fmtNat _ n h

theorem parseNonZeroU64_fmtNat (n : Nat) (h0 : 0 < n) (h : n < 2 ^ 64) :
    parseNonZeroU64 (fmtNat n) = some n := by
  rw [parseNonZeroU64, parseU64_fmtNat n h, Option.some_bind, if_neg (by omega)]

theorem parseI64_fmtInt (x : Int) (h : -(2 ^ 63) ≤ x ∧ x < 2 ^ 63) :
    parseI64 (fmtInt x) = some x :=
  parseSigned_fmtInt _ x h

theorem parseI32_fmtInt (x : Int) (h : -(2 ^ 31) ≤ x ∧ x < 2 ^ 31) :
    parseI32 (fmtInt x) = some x :=
  parseSigned_fmtInt _ x h

theorem parseFileChar_fileChar (f : Nat) (h : f < 8) :
    parseFileChar (fileChar f) = some f := by
  interval_cases f <;> decide

theorem parseRankChar_rankChar (r : Nat) (h : r < 8) :
    parseRankChar (rankChar r) = some r := by
  interval_cases r <;> decide

theorem fileChar_ne_zero (f : Nat) (h : f < 8) : fileChar f ≠ '0' := by
  interval_cases f <;> decide

theorem parsePromoteChar_promoteChar (p : PromotePiece) :
    parsePromoteChar (promoteChar p) = some p := by
  cases p <;> decide

theorem parseSquareChars_fmt (sq : Square) (h : squareWf sq = true) :
    parseSquareChars (fileChar sq.file) (rankChar sq.rank) = some sq := by
  rw [squareWf, Bool.and_eq_true, decide_eq_true_eq, decide_eq_true_eq] at h
  rw [parseSquareChars, parseFileChar_fileChar _ h.1, parseRankChar_rankChar _ h.2]

theorem fmtUciMove_move_ne_0000 (s d : Square) (p : Option PromotePiece)
    (h : squareWf s = true) : fmtUciMove (.move s d p) ≠ "0000" := by
  intro heq
  have hf : s.file < 8 := by
    rw [squareWf, Bool.and_eq_true, decide_eq_true_eq, decide_eq_true_eq] at h
    exact h.1
  cases p with
  | none =>
    have hdata := congrArg String.data heq
    simp only [fmtUciMove] at hdata
    exact fileChar_ne_zero s.file hf (List.cons.inj hdata).1
  | some pp =>
    have hdata := congrArg String.data heq
    simp only [fmtUciMove] at hdata
    exact absurd (congrArg List.length hdata) (by simp)

theorem parseUciMove_fmtUciMove (m : UciMove) (h : moveWf m = true) :
    parseUciMove (fmtUciMove m) = some m := by
  cases m with
  | null => decide
  | move s d p =>
    rw [moveWf, Bool.and_eq_true] at h
    obtain ⟨hs, hd⟩ := h
    rw [parseUciMove, if_neg (fmtUciMove_move_ne_0000 s d p hs)]
    cases p with
    | none =>
      show parseMove4 (fileChar s.file) (rankChar s.rank) (fileChar d.file)
        (rankChar d.rank) = some (UciMove.move s d none)
      simp only [parseMove4, parseSquareChars_fmt s hs, parseSquareChars_fmt d hd]
    | some pp =>
      show parseMove5 (fileChar s.file) (rankChar s.rank) (fileChar d.file)
        (rankChar d.rank) (promoteChar pp) = some (UciMove.move s d (some pp))
      simp only [parseMove5, parseSquareChars_fmt s hs, parseSquareChars_fmt d hd,
        parsePromoteChar_promoteChar]

theorem encodeUtf8Char_fileChar (f : Nat) (h : f < 8) :
    encodeUtf8Char (fileChar f) = [97 + f] := by
  interval_cases f <;> decide

theorem encodeUtf8Char_rankChar (r : Nat) (h : r < 8) :
    encodeUtf8Char (rankChar r) = [49 + r] := by
  interval_cases r <;> decide

theorem encodeUtf8Char_promoteChar (p : PromotePiece) :
    encodeUtf8Char (promoteChar p) = [(promoteChar p).toNat] := by
  cases p <;> decide

theorem isAsciiLowerByte_file (f : Nat) (hf : f < 8) :
    isAsciiLowerByte (97 + f) = true := by
  rw [isAsciiLowerByte, Bool.and_eq_true, decide_eq_true_eq, decide_eq_true_eq]
  omega

theorem isAsciiDigitByte_rank (r : Nat) (hr : r < 8) :
    isAsciiDigitByte (49 + r) = true := by
  rw [isAsciiDigitByte, Bool.and_eq_true, decide_eq_true_eq, decide_eq_true_eq]
  omega

theorem looksLikeMove_fmt_move (s d : Square) (p : Option PromotePiece)
    (hs : squareWf s = true) (hd : squareWf d = true) :
    looksLikeMove (fmtUciMove (.move s d p)) = true := by
  rw [squareWf, Bool.and_eq_true, decide_eq_true_eq, decide_eq_true_eq] at hs hd
  cases p with
  | none =>
    rw [fmtUciMove, looksLikeMove]
    simp only [String.data]
    rw [show utf8Bytes [fileChar s.file, rankChar s.rank, fileChar d.file, rankChar d.rank] =
        [97 + s.file, 49 + s.rank, 97 + d.file, 49 + d.rank] by
      simp [utf8Bytes, encodeUtf8Char_fileChar _ hs.1, encodeUtf8Char_rankChar _ hs.2,
        encodeUtf8Char_fileChar _ hd.1, encodeUtf8Char_rankChar _ hd.2]]
    simp [isAsciiLowerByte_file _ hs.1, isAsciiDigitByte_rank _ hs.2,
      isAsciiLowerByte_file _ hd.1, isAsciiDigitByte_rank _ hd.2]
  | some pp =>
    rw [fmtUciMove, looksLikeMove]
    simp only [String.data]
    rw [show utf8Bytes [fileChar s.file, rankChar s.rank, fileChar d.file, rankChar d.rank,
        promoteChar pp] =
        [97 + s.file, 49 + s.rank, 97 + d.file, 49 + d.rank, (promoteChar pp).toNat] by
      simp [utf8Bytes, encodeUtf8Char_fileChar _ hs.1, encodeUtf8Char_rankChar _ hs.2,
        encodeUtf8Char_fileChar _ hd.1, encodeUtf8Char_rankChar _ hd.2,
        encodeUtf8Char_promoteChar]]
    simp [isAsciiLowerByte_file _ hs.1, isAsciiDigitByte_rank _ hs.2,
      isAsciiLowerByte_file _ hd.1, isAsciiDigitByte_rank _ hd.2]

theorem looksLikeMove_null : looksLikeMove (fmtUciMove .null) = false := by decide

theorem movevecParseAux_until_warns (toks : List String) :
    ∀ k, (movevecParseAux true toks k).2.2 =
      (match enumFails k (toks.takeWhile looksLikeMove) with
       | [] => []
       | (q, t) :: _ => [⟨q, ⟨t⟩⟩]) := by
  induction toks with
  | nil => intro k; rfl
  | cons t ts ih =>
    intro k
    rw [movevecParseAux]
    by_cases hl : looksLikeMove t
    · rw [if_pos hl, List.takeWhile_cons_of_pos hl]
      cases hp : parseUciMove t with
      | some mv =>
        simp only []
        rw [show enumFails k (t :: ts.takeWhile looksLikeMove) =
            enumFails (k + 1) (ts.takeWhile looksLikeMove) by
          rw [enumFails, if_neg (by rw [hp]; simp)]]
        exact ih (k + 1)
      | none =>
        simp only [if_true]
        rw [show enumFails k (t :: ts.takeWhile looksLikeMove) =
            (k, t) :: enumFails (k + 1) (ts.takeWhile looksLikeMove) by
          rw [enumFails, if_pos hp]]
    · rw [if_neg hl, List.takeWhile_cons_of_neg hl]
      rfl

theorem movevecParseAux_full_warns (toks : List String) :
    ∀ k f, (movevecParseAux false toks k).2.2 =
      shiftFails f (enumFails (k + f) (toks.takeWhile looksLikeMove)) := by
  induction toks with
  | nil => intro k f; rfl
  | cons t ts ih =>
    intro k f
    rw [movevecParseAux]
    by_cases hl : looksLikeMove t
    · rw [if_pos hl, List.takeWhile_cons_of_pos hl]
      cases hp : parseUciMove t with
      | some mv =>
        simp only []
        rw [show enumFails (k + f) (t :: ts.takeWhile looksLikeMove) =
            enumFails (k + f + 1) (ts.takeWhile looksLikeMove) by
          rw [enumFails, if_neg (by rw [hp]; simp)]]
        have := ih (k + 1) f
        rw [show k + 1 + f = k + f + 1 by omega] at this
        exact this
      | none =>
        rw [if_neg (by decide)]
        rw [show enumFails (k + f) (t :: ts.takeWhile looksLikeMove) =
            (k + f, t) :: enumFails (k + f + 1) (ts.takeWhile looksLikeMove) by
          rw [enumFails, if_pos hp]]
        rw [shiftFails]
        have hih := ih k (f + 1)
        rw [show k + (f + 1) = k + f + 1 by omega] at hih
        rw [show k + f - f = k by omega]
        simp only []
        rw [hih]
    · rw [if_neg hl, List.takeWhile_cons_of_neg hl]
      rfl

theorem looksLikeMove_fmt_of_wf (m : UciMove) (hwf : moveWf m = true)
    (hnull : m ≠ .null) : looksLikeMove (fmtUciMove m) = true := by
  cases m with
  | null => exact absurd rfl hnull
  | move s d p =>
    rw [moveWf, Bool.and_eq_true] at hwf
    exact looksLikeMove_fmt_move s d p hwf.1 hwf.2

theorem movevecParseAux_fmt (u : Bool) (ms : List UciMove)
    (h : ∀ m ∈ ms, moveWf m = true ∧ m ≠ .null) :
    ∀ rest, headNotMoveLike rest = true → ∀ k,
      movevecParseAux u (movevecFmt ms ++ rest) k =
        (ms, (movevecFmt ms).length, []) := by
  induction ms with
  | nil =>
    intro rest hrest k
    cases rest with
    | nil => rfl
    | cons t ts =>
      rw [movevecFmt, List.map_nil, List.nil_append, movevecParseAux,
        if_neg (by rw [headNotMoveLike, Bool.not_eq_true'] at hrest; rw [hrest]; simp)]
      rfl
  | cons m ms ih =>
    intro rest hrest k
    obtain ⟨hwf, hnull⟩ := h m (by simp)
    have hms : ∀ x ∈ ms, moveWf x = true ∧ x ≠ .null := fun x hx => h x (by simp [hx])
    rw [movevecFmt, List.map_cons, List.cons_append, movevecParseAux,
      if_pos (looksLikeMove_fmt_of_wf m hwf hnull)]
    rw [show (List.map fmtUciMove ms : List String) = movevecFmt ms from rfl]
    rw [parseUciMove_fmtUciMove m hwf]
    simp only []
    rw [ih hms rest hrest (k + 1)]
    simp [movevecFmt]

theorem movevecParse_fmt (u : Bool) (ms : List UciMove)
    (h : ∀ m ∈ ms, moveWf m = true ∧ m ≠ .null)
    (rest : List String) (hrest : headNotMoveLike rest = true) :
    movevecParse (movevecFmt ms ++ rest) u = (ms, rest, []) := by
  rw [movevecParse]
  rw [movevecParseAux_fmt u ms h rest hrest 0]
  simp

theorem fmtUciMove_tokWf (m : UciMove) (h : moveWf m = true) :
    tokWf (fmtUciMove m) = true := by
  cases m with
  | null => decide
  | move s d p =>
    rw [moveWf, Bool.and_eq_true] at h
    obtain ⟨hs, hd⟩ := h
    rw [squareWf, Bool.and_eq_true, decide_eq_true_eq, decide_eq_true_eq] at hs hd
    obtain ⟨hs1, hs2⟩ := hs
    obtain ⟨hd1, hd2⟩ := hd
    have hfile : ∀ f, f < 8 → isWsChar (fileChar f) = false := by
      intro f hf; interval_cases f <;> decide
    have hrank : ∀ r, r < 8 → isWsChar (rankChar r) = false := by
      intro r hr; interval_cases r <;> decide
    have hprom : ∀ pp : PromotePiece, isWsChar (promoteChar pp) = false := by
      intro pp; cases pp <;> decide
    cases p with
    | none =>
      rw [fmtUciMove, tokWf]
      simp only [Bool.and_eq_true, List.all_eq_true]
      refine ⟨by rw [isEmpty_mk_cons]; rfl, ?_⟩
      intro c hc
      simp only [String.data, List.mem_cons, List.not_mem_nil, or_false] at hc
      rcases hc with rfl | rfl | rfl | rfl <;>
        simp [hfile _ hs1, hrank _ hs2, hfile _ hd1, hrank _ hd2]
    | some pp =>
      rw [fmtUciMove, tokWf]
      simp only [Bool.and_eq_true, List.all_eq_true]
      refine ⟨by rw [isEmpty_mk_cons]; rfl, ?_⟩
      intro c hc
      simp only [String.data, List.mem_cons, List.not_mem_nil, or_false] at hc
      rcases hc with rfl | rfl | rfl | rfl | rfl <;>
        simp [hfile _ hs1, hrank _ hs2, hfile _ hd1, hrank _ hd2, hprom]

/-- C9 counterexample: the token `a0a0` passes the "looks like a move"
test (so both occurrences are consumed into one run) but fails to parse
as a UCI move.  Both warnings carry `pos = 0`, although the second
offending token sits at run position 1: in full mode the emitted `pos` is
not the 0-based position of the token within the run, refuting the claim. -/
theorem c9_movevec_pos_counterexample :
    (movevecParse ["a0a0", "a0a0"] false).2.2 =
      [⟨0, ⟨"a0a0"⟩⟩, ⟨0, ⟨"a0a0"⟩⟩] ∧
    ["a0a0", "a0a0"].takeWhile looksLikeMove = ["a0a0", "a0a0"] := by
  constructor <;> decide

/-- C9 amended: a warning's `pos` is the run position of the offending token
minus the number of earlier failed tokens of the run (i.e. the number of
successfully parsed moves before it, the index the move would have had in
the output).  In until-first-error mode the run stops at the first failure,
so there `pos` is exactly the 0-based run position; in full mode the two
notions diverge after the first failure. -/
theorem c9_amended_movevec_warning_positions (toks : List String) :
    (movevecParse toks true).2.2 =
      (match enumFails 0 (toks.takeWhile looksLikeMove) with
       | [] => []
       | (q, t) :: _ => [⟨q, ⟨t⟩⟩]) ∧
    (movevecParse toks false).2.2 =
      shiftFails 0 (enumFails 0 (toks.takeWhile looksLikeMove)) := by
  refine ⟨movevecParseAux_until_warns toks 0, ?_⟩
  have h := movevecParseAux_full_warns toks 0 0
  simpa using h

theorem findBadToken_eq_none_iff (bad toks : List String) :
    findBadToken bad toks = none ↔ ∀ t ∈ toks, t ∉ bad := by
  induction toks with
  | nil => simp [findBadToken]
  | cons t ts ih =>
    rw [findBadToken]
    cases hf : bad.find? (fun b => b = t) with
    | some b =>
      simp only []
      constructor
      · intro h; exact absurd h (by simp)
      · intro h
        have hmem := List.mem_of_find?_eq_some hf
        have heq : b = t := by
          have := List.find?_some hf
          simpa using this
        subst heq
        exact absurd hmem (h b (by simp))
    | none =>
      simp only []
      rw [ih]
      constructor
      · intro h
        intro x hx
        rcases List.mem_cons.mp hx with rfl | hx'
        · intro hbad
          have := List.find?_eq_none.mp hf x hbad
          simp at this
        · exact h x hx'
      · intro h x hx
        exact h x (by simp [hx])

theorem fromTokensChecked_ok_iff (bad toks : List String) :
    (∃ v, fromTokensChecked bad toks = .ok v) ↔ ∀ t ∈ toks, t ∉ bad := by
  rw [fromTokensChecked]
  cases hf : findBadToken bad toks with
  | some b =>
    simp only []
    constructor
    · rintro ⟨v, hv⟩; exact absurd hv (by simp)
    · intro h
      have hnone := (findBadToken_eq_none_iff bad toks).mpr h
      rw [hnone] at hf
      exact absurd hf (by simp)
  | none =>
    rw [findBadToken_eq_none_iff] at hf
    simp only []
    exact ⟨fun _ => hf, fun _ => ⟨toks, rfl⟩⟩

/-- C10: the reserved-token check of `OptName`, `OptComboVar` and
`RegisterName` construction compares tokens case-sensitively (exact string
equality), both from a token slice and from a string, even though `OptName`
and `OptComboVar` compare case-insensitively once constructed: any
non-lowercase casing such as `Type` or `VALUE` is accepted, while the exact
lowercase `type` / `value` fail with `BadToken`. -/
theorem c10_reserved_token_check_case_sensitive :
    (∀ toks, (∃ v, OptName.from_tokens toks = .ok v) ↔
      "type" ∉ toks ∧ "value" ∉ toks) ∧
    (∀ toks, (∃ v, OptComboVar.from_tokens toks = .ok v) ↔ "var" ∉ toks) ∧
    (∀ toks, (∃ v, RegisterName.from_tokens toks = .ok v) ↔ "code" ∉ toks) ∧
    (∀ t : String, t ≠ "type" → t ≠ "value" →
      OptName.from_tokens [t] = .ok [t]) ∧
    (OptName.from_str "Type" = .ok ["Type"] ∧
     OptName.from_str "VALUE" = .ok ["VALUE"] ∧
     OptName.from_str "type" = .error (.badToken "type") ∧
     OptName.from_str "value" = .error (.badToken "value")) ∧
    (caseInsensitiveEq ["Type"] ["tYpe"] = true ∧ "Type" ≠ "tYpe") := by
  refine ⟨?_, ?_, ?_, ?_, ⟨by rfl, by rfl, by rfl, by rfl⟩, by decide, by decide⟩
  · intro toks
    rw [OptName.from_tokens, fromTokensChecked_ok_iff]
    constructor
    · intro h
      exact ⟨fun hc => (h _ hc) (by simp), fun hc => (h _ hc) (by simp)⟩
    · rintro ⟨h1, h2⟩ t ht hbad
      rcases (by simpa using hbad : t = "type" ∨ t = "value") with rfl | rfl
      · exact h1 ht
      · exact h2 ht
  · intro toks
    rw [OptComboVar.from_tokens, fromTokensChecked_ok_iff]
    constructor
    · intro h hc
      exact (h _ hc) (by simp)
    · intro h t ht hbad
      rcases (by simpa using hbad : t = "var") with rfl
      exact h ht
  · intro toks
    rw [RegisterName.from_tokens, fromTokensChecked_ok_iff]
    constructor
    · intro h hc
      exact (h _ hc) (by simp)
    · intro h t ht hbad
      rcases (by simpa using hbad : t = "code") with rfl
      exact h ht
  · intro t h1 h2
    rw [OptName.from_tokens, fromTokensChecked]
    have hnone : findBadToken ["type", "value"] [t] = none := by
      rw [findBadToken_eq_none_iff]
      intro x hx hbad
      have hxt : x = t := by simpa using hx
      subst hxt
      rcases (by simpa using hbad : x = "type" ∨ x = "value") with h | h
      · exact h1 h
      · exact h2 h
    rw [hnone]

/-- Witness for C10: `Type` is accepted as an `OptName` token. -/
theorem c10_reserved_token_check_case_sensitive_witness :
    OptName.from_tokens ["Type"] = .ok ["Type"] :=
  c10_reserved_token_check_case_sensitive.2.2.2.1 "Type" (by decide) (by decide)

/-- The movevec leftover is a suffix of the input. -/
theorem movevecParse_rest_le (l : List String) (u : Bool) :
    ((movevecParse l u).2.1).length ≤ l.length := by
  simp [movevecParse, List.length_drop]

/-- The score subparser's leftover is no longer than its input. -/
theorem scoreParseUnbounded_rest_le (l : List String) :
    ((scoreParseUnbounded l).2.1).length ≤ l.length := by
  match l with
  | [] => simp [scoreParseUnbounded]
  | x :: xs =>
    rw [scoreParseUnbounded.eq_def]
    simp only []
    split_ifs
    · match xs with
      | [] => simp
      | v :: r => simp only []; split <;> simp <;> omega
    · match xs with
      | [] => simp
      | v :: r =>
        simp only []
        split
        · simp; omega
        · split_ifs <;> simp <;> omega
    · simp

theorem scoreParse_rest_le (l : List String) :
    ((scoreParse l).2.1).length ≤ l.length := by
  have hsu := scoreParseUnbounded_rest_le l
  rw [scoreParse]
  split
  · next heq =>
    rw [heq] at hsu
    simpa using hsu
  · next sc rest ws heq =>
    rw [heq] at hsu
    have hlen : rest.length ≤ l.length := by simpa using hsu
    match rest, hlen with
    | [], _ => simp
    | b :: r2, hlen =>
      simp only [List.length_cons] at hlen
      simp only []
      split_ifs <;> simp <;> omega

theorem infoIntField_rest_le (p : String → Option Nat) (mk : Nat → Info) (l : List String) :
    ((infoIntField p mk l).2.1).length ≤ l.length := by
  match l with
  | [] => simp [infoIntField]
  | v :: r => rw [infoIntField]; split <;> simp

theorem infoPermilleField_rest_le (mk : Permille → Info) (l : List String) :
    ((infoPermilleField mk l).2.1).length ≤ l.length := by
  match l with
  | [] => simp [infoPermilleField]
  | v :: r => rw [infoPermilleField]; split <;> simp

theorem infoMoveField_rest_le (mk : UciMove → Info) (l : List String) :
    ((infoMoveField mk l).2.1).length ≤ l.length := by
  match l with
  | [] => simp [infoMoveField]
  | v :: r => rw [infoMoveField]; split <;> simp

theorem infoMoveVecField_rest_le (mk : List UciMove → Info) (l : List String) :
    ((infoMoveVecField mk l).2.1).length ≤ l.length := by
  rw [infoMoveVecField]
  exact movevecParse_rest_le l true

theorem infoScoreField_rest_le (l : List String) :
    ((infoScoreField l).2.1).length ≤ l.length := by
  rw [infoScoreField]
  exact scoreParse_rest_le l

theorem infoCurrlineField_rest_le (l : List String) :
    ((infoCurrlineField l).2.1).length ≤ l.length := by
  match l with
  | [] => simp [infoCurrlineField]
  | v :: r =>
    rw [infoCurrlineField]
    split
    · simp
    · simp only []
      have := movevecParse_rest_le r true
      simp only [List.length_cons]
      omega

/-- `info::parse` consumes at least the token it dispatches on; its leftover
is no longer than the dispatched tail. -/
theorem infoParse_rest_le (t : String) (ts : List String) :
    ((infoParse (t :: ts)).2.1).length ≤ ts.length := by
  rw [infoParse]
  by_cases h1 : t = "depth"
  · rw [if_pos h1]; exact infoIntField_rest_le _ _ ts
  rw [if_neg h1]
  by_cases h2 : t = "seldepth"
  · rw [if_pos h2]; exact infoIntField_rest_le _ _ ts
  rw [if_neg h2]
  by_cases h3 : t = "time"
  · rw [if_pos h3]; exact infoIntField_rest_le _ _ ts
  rw [if_neg h3]
  by_cases h4 : t = "nodes"
  · rw [if_pos h4]; exact infoIntField_rest_le _ _ ts
  rw [if_neg h4]
  by_cases h5 : t = "pv"
  · rw [if_pos h5]; exact infoMoveVecField_rest_le _ ts
  rw [if_neg h5]
  by_cases h6 : t = "multipv"
  · rw [if_pos h6]; exact infoIntField_rest_le _ _ ts
  rw [if_neg h6]
  by_cases h7 : t = "score"
  · rw [if_pos h7]; exact infoScoreField_rest_le ts
  rw [if_neg h7]
  by_cases h8 : t = "currmove"
  · rw [if_pos h8]; exact infoMoveField_rest_le _ ts
  rw [if_neg h8]
  by_cases h9 : t = "currmovenumber"
  · rw [if_pos h9]; exact infoIntField_rest_le _ _ ts
  rw [if_neg h9]
  by_cases h10 : t = "hashfull"
  · rw [if_pos h10]; exact infoPermilleField_rest_le _ ts
  rw [if_neg h10]
  by_cases h11 : t = "nps"
  · rw [if_pos h11]; exact infoIntField_rest_le _ _ ts
  rw [if_neg h11]
  by_cases h12 : t = "tbhits"
  · rw [if_pos h12]; exact infoIntField_rest_le _ _ ts
  rw [if_neg h12]
  by_cases h13 : t = "sbhits"
  · rw [if_pos h13]; exact infoIntField_rest_le _ _ ts
  rw [if_neg h13]
  by_cases h14 : t = "cpuload"
  · rw [if_pos h14]; exact infoPermilleField_rest_le _ ts
  rw [if_neg h14]
  by_cases h15 : t = "refutation"
  · rw [if_pos h15]; exact infoMoveVecField_rest_le _ ts
  rw [if_neg h15]
  by_cases h16 : t = "currline"
  · rw [if_pos h16]; exact infoCurrlineField_rest_le ts
  rw [if_neg h16]


theorem infoItemsF_irrel (n : Nat) : ∀ (toks : List String), toks.length ≤ n →
    ∀ f1 f2 pos, toks.length ≤ f1 → toks.length ≤ f2 →
      infoItemsF f1 toks pos = infoItemsF f2 toks pos := by
  induction n with
  | zero =>
    intro toks hn f1 f2 pos h1 h2
    match toks, hn with
    | [], _ => cases f1 <;> cases f2 <;> rfl
  | succ n ih =>
    intro toks hn f1 f2 pos h1 h2
    match toks with
    | [] => cases f1 <;> cases f2 <;> rfl
    | t :: ts =>
      match f1, f2, h1, h2 with
      | g1 + 1, g2 + 1, h1, h2 =>
        rw [infoItemsF, infoItemsF]
        by_cases hs : t = "string"
        · rw [if_pos hs, if_pos hs]
        · rw [if_neg hs, if_neg hs]
          have hrest := infoParse_rest_le t ts
          simp only [List.length_cons] at hn h1 h2
          have hih := ih (infoParse (t :: ts)).2.1 (by omega) g1 g2
          cases hpr : (infoParse (t :: ts)).1 with
          | some i =>
            simp only [hpr]
            rw [hih (pos + 1) (by omega) (by omega)]
          | none =>
            simp only [hpr]
            rw [hih pos (by omega) (by omega)]

theorem infoItems_cons (t : String) (ts : List String) (pos : Nat) :
    infoItems (t :: ts) pos =
      (if t = "string" then ([], some ts, [])
       else
         let r := infoParse (t :: ts)
         match r.1 with
         | some i =>
           let next := infoItems r.2.1 (pos + 1)
           (i :: next.1, next.2.1, r.2.2.map (.badInfo pos) ++ next.2.2)
         | none =>
           let next := infoItems r.2.1 pos
           (next.1, next.2.1, r.2.2.map (.badInfo pos) ++ next.2.2)) := by
  rw [infoItems, List.length_cons, infoItemsF]
  by_cases hs : t = "string"
  · rw [if_pos hs, if_pos hs]
  · rw [if_neg hs, if_neg hs]
    have hrest := infoParse_rest_le t ts
    have hirrel := infoItemsF_irrel (infoParse (t :: ts)).2.1.length
      (infoParse (t :: ts)).2.1 (le_refl _) ts.length (infoParse (t :: ts)).2.1.length
    cases hpr : (infoParse (t :: ts)).1 with
    | some i =>
      simp only [hpr]
      rw [show infoItems (infoParse (t :: ts)).2.1 (pos + 1) =
        infoItemsF (infoParse (t :: ts)).2.1.length (infoParse (t :: ts)).2.1 (pos + 1) from rfl]
      rw [hirrel (pos + 1) (by omega) (by omega)]
    | none =>
      simp only [hpr]
      rw [show infoItems (infoParse (t :: ts)).2.1 pos =
        infoItemsF (infoParse (t :: ts)).2.1.length (infoParse (t :: ts)).2.1 pos from rfl]
      rw [hirrel pos (by omega) (by omega)]

theorem goParseAuxF_irrel (n : Nat) : ∀ (toks : List String), toks.length ≤ n →
    ∀ f1 f2 g, toks.length ≤ f1 → toks.length ≤ f2 →
      goParseAuxF f1 toks g = goParseAuxF f2 toks g := by
  induction n with
  | zero =>
    intro toks hn f1 f2 g h1 h2
    match toks, hn with
    | [], _ => cases f1 <;> cases f2 <;> rfl
  | succ n ih =>
    intro toks hn f1 f2 g h1 h2
    match toks with
    | [] => cases f1 <;> cases f2 <;> rfl
    | t :: ts =>
      match f1, f2, h1, h2 with
      | g1 + 1, g2 + 1, h1, h2 =>
        rw [goParseAuxF, goParseAuxF]
        simp only [List.length_cons] at hn h1 h2
        have hts : ts.length ≤ n := by omega
        have hts1 : ts.length ≤ g1 := by omega
        have hts2 : ts.length ≤ g2 := by omega
        have hdropLe : ∀ k, (ts.drop k).length ≤ ts.length := by
          intro k; simp [List.length_drop]
        have hmvLe : ((movevecParse ts false).2.1).length ≤ ts.length :=
          movevecParse_rest_le ts false
        by_cases c0 : t = "searchmoves"
        · rw [if_pos c0, if_pos c0]
          have e := fun S => ih ((movevecParse ts false).2.1)
            (le_trans hmvLe hts) g1 g2 S (le_trans hmvLe hts1) (le_trans hmvLe hts2)
          simp only [e]
        rw [if_neg c0, if_neg c0]
        by_cases c1 : t = "ponder"
        · rw [if_pos c1, if_pos c1]
          have e := fun S => ih ts hts g1 g2 S hts1 hts2
          simp only [e]
        rw [if_neg c1, if_neg c1]
        by_cases c2 : t = "infinite"
        · rw [if_pos c2, if_pos c2]
          have e := fun S => ih ts hts g1 g2 S hts1 hts2
          simp only [e]
        rw [if_neg c2, if_neg c2]
        by_cases c3 : t = "wtime"
        · rw [if_pos c3, if_pos c3]
          have e := fun S k => ih (ts.drop k)
            (le_trans (hdropLe k) hts) g1 g2 S (le_trans (hdropLe k) hts1)
            (le_trans (hdropLe k) hts2)
          simp only [e]
        rw [if_neg c3, if_neg c3]
        by_cases c4 : t = "btime"
        · rw [if_pos c4, if_pos c4]
          have e := fun S k => ih (ts.drop k)
            (le_trans (hdropLe k) hts) g1 g2 S (le_trans (hdropLe k) hts1)
            (le_trans (hdropLe k) hts2)
          simp only [e]
        rw [if_neg c4, if_neg c4]
        by_cases c5 : t = "winc"
        · rw [if_pos c5, if_pos c5]
          have e := fun S k => ih (ts.drop k)
            (le_trans (hdropLe k) hts) g1 g2 S (le_trans (hdropLe k) hts1)
            (le_trans (hdropLe k) hts2)
          simp only [e]
        rw [if_neg c5, if_neg c5]
        by_cases c6 : t = "binc"
        · rw [if_pos c6, if_pos c6]
          have e := fun S k => ih (ts.drop k)
            (le_trans (hdropLe k) hts) g1 g2 S (le_trans (hdropLe k) hts1)
            (le_trans (hdropLe k) hts2)
          simp only [e]
        rw [if_neg c6, if_neg c6]
        by_cases c7 : t = "movestogo"
        · rw [if_pos c7, if_pos c7]
          have e := fun S k => ih (ts.drop k)
            (le_trans (hdropLe k) hts) g1 g2 S (le_trans (hdropLe k) hts1)
            (le_trans (hdropLe k) hts2)
          simp only [e]
        rw [if_neg c7, if_neg c7]
        by_cases c8 : t = "mate"
        · rw [if_pos c8, if_pos c8]
          have e := fun S k => ih (ts.drop k)
            (le_trans (hdropLe k) hts) g1 g2 S (le_trans (hdropLe k) hts1)
            (le_trans (hdropLe k) hts2)
          simp only [e]
        rw [if_neg c8, if_neg c8]
        by_cases c9 : t = "depth"
        · rw [if_pos c9, if_pos c9]
          have e := fun S k => ih (ts.drop k)
            (le_trans (hdropLe k) hts) g1 g2 S (le_trans (hdropLe k) hts1)
            (le_trans (hdropLe k) hts2)
          simp only [e]
        rw [if_neg c9, if_neg c9]
        by_cases c10 : t = "nodes"
        · rw [if_pos c10, if_pos c10]
          have e := fun S k => ih (ts.drop k)
            (le_trans (hdropLe k) hts) g1 g2 S (le_trans (hdropLe k) hts1)
            (le_trans (hdropLe k) hts2)
          simp only [e]
        rw [if_neg c10, if_neg c10]
        by_cases c11 : t = "movetime"
        · rw [if_pos c11, if_pos c11]
          have e := fun S k => ih (ts.drop k)
            (le_trans (hdropLe k) hts) g1 g2 S (le_trans (hdropLe k) hts1)
            (le_trans (hdropLe k) hts2)
          simp only [e]
        rw [if_neg c11, if_neg c11]
        have e := fun S => ih ts hts g1 g2 S hts1 hts2
        simp only [e]

theorem goParseAux_fuel (toks : List String) (g : Go) (f : Nat) (h : toks.length ≤ f) :
    goParseAuxF f toks g = goParseAux toks g := by
  rw [goParseAux]
  exact goParseAuxF_irrel toks.length toks (le_refl _) f toks.length g h (le_refl _)

theorem cmdGoParseAuxF_irrel (n : Nat) : ∀ (toks : List String), toks.length ≤ n →
    ∀ f1 f2 g, toks.length ≤ f1 → toks.length ≤ f2 →
      cmdGoParseAuxF f1 toks g = cmdGoParseAuxF f2 toks g := by
  induction n with
  | zero =>
    intro toks hn f1 f2 g h1 h2
    match toks, hn with
    | [], _ => cases f1 <;> cases f2 <;> rfl
  | succ n ih =>
    intro toks hn f1 f2 g h1 h2
    match toks with
    | [] => cases f1 <;> cases f2 <;> rfl
    | t :: ts =>
      match f1, f2, h1, h2 with
      | g1 + 1, g2 + 1, h1, h2 =>
        rw [cmdGoParseAuxF, cmdGoParseAuxF]
        simp only [List.length_cons] at hn h1 h2
        have hts : ts.length ≤ n := by omega
        have hts1 : ts.length ≤ g1 := by omega
        have hts2 : ts.length ≤ g2 := by omega
        have hdropLe : ∀ k, (ts.drop k).length ≤ ts.length := by
          intro k; simp [List.length_drop]
        have hmvLe : ((movevecParse ts false).2.1).length ≤ ts.length :=
          movevecParse_rest_le ts false
        by_cases c0 : t = "searchmoves"
        · rw [if_pos c0, if_pos c0]
          have e := fun S => ih ((movevecParse ts false).2.1)
            (le_trans hmvLe hts) g1 g2 S (le_trans hmvLe hts1) (le_trans hmvLe hts2)
          simp only [e]
        rw [if_neg c0, if_neg c0]
        by_cases c1 : t = "ponder"
        · rw [if_pos c1, if_pos c1]
          have e := fun S => ih ts hts g1 g2 S hts1 hts2
          simp only [e]
        rw [if_neg c1, if_neg c1]
        by_cases c2 : t = "infinite"
        · rw [if_pos c2, if_pos c2]
          have e := fun S => ih ts hts g1 g2 S hts1 hts2
          simp only [e]
        rw [if_neg c2, if_neg c2]
        by_cases c3 : t = "wtime"
        · rw [if_pos c3, if_pos c3]
          have e := fun S k => ih (ts.drop k)
            (le_trans (hdropLe k) hts) g1 g2 S (le_trans (hdropLe k) hts1)
            (le_trans (hdropLe k) hts2)
          simp only [e]
        rw [if_neg c3, if_neg c3]
        by_cases c4 : t = "btime"
        · rw [if_pos c4, if_pos c4]
          have e := fun S k => ih (ts.drop k)
            (le_trans (hdropLe k) hts) g1 g2 S (le_trans (hdropLe k) hts1)
            (le_trans (hdropLe k) hts2)
          simp only [e]
        rw [if_neg c4, if_neg c4]
        by_cases c5 : t = "winc"
        · rw [if_pos c5, if_pos c5]
          have e := fun S k => ih (ts.drop k)
            (le_trans (hdropLe k) hts) g1 g2 S (le_trans (hdropLe k) hts1)
            (le_trans (hdropLe k) hts2)
          simp only [e]
        rw [if_neg c5, if_neg c5]
        by_cases c6 : t = "binc"
        · rw [if_pos c6, if_pos c6]
          have e := fun S k => ih (ts.drop k)
            (le_trans (hdropLe k) hts) g1 g2 S (le_trans (hdropLe k) hts1)
            (le_trans (hdropLe k) hts2)
          simp only [e]
        rw [if_neg c6, if_neg c6]
        by_cases c7 : t = "movestogo"
        · rw [if_pos c7, if_pos c7]
          have e := fun S k => ih (ts.drop k)
            (le_trans (hdropLe k) hts) g1 g2 S (le_trans (hdropLe k) hts1)
            (le_trans (hdropLe k) hts2)
          simp only [e]
        rw [if_neg c7, if_neg c7]
        by_cases c8 : t = "mate"
        · rw [if_pos c8, if_pos c8]
          have e := fun S k => ih (ts.drop k)
            (le_trans (hdropLe k) hts) g1 g2 S (le_trans (hdropLe k) hts1)
            (le_trans (hdropLe k) hts2)
          simp only [e]
        rw [if_neg c8, if_neg c8]
        by_cases c9 : t = "depth"
        · rw [if_pos c9, if_pos c9]
          have e := fun S k => ih (ts.drop k)
            (le_trans (hdropLe k) hts) g1 g2 S (le_trans (hdropLe k) hts1)
            (le_trans (hdropLe k) hts2)
          simp only [e]
        rw [if_neg c9, if_neg c9]
        by_cases c10 : t = "nodes"
        · rw [if_pos c10, if_pos c10]
          have e := fun S k => ih (ts.drop k)
            (le_trans (hdropLe k) hts) g1 g2 S (le_trans (hdropLe k) hts1)
            (le_trans (hdropLe k) hts2)
          simp only [e]
        rw [if_neg c10, if_neg c10]
        by_cases c11 : t = "movetime"
        · rw [if_pos c11, if_pos c11]
          have e := fun S k => ih (ts.drop k)
            (le_trans (hdropLe k) hts) g1 g2 S (le_trans (hdropLe k) hts1)
            (le_trans (hdropLe k) hts2)
          simp only [e]
        rw [if_neg c11, if_neg c11]
        have e := fun S => ih ts hts g1 g2 S hts1 hts2
        simp only [e]

theorem cmdGoParseAux_fuel (toks : List String) (g : Go) (f : Nat) (h : toks.length ≤ f) :
    cmdGoParseAuxF f toks g = cmdGoParseAux toks g := by
  rw [cmdGoParseAux]
  exact cmdGoParseAuxF_irrel toks.length toks (le_refl _) f toks.length g h (le_refl _)

theorem movesWfNoNull_forall {ms : List UciMove} (h : movesWfNoNull ms = true) :
    ∀ m ∈ ms, moveWf m = true ∧ m ≠ .null := by
  intro m hm
  have hone := List.all_eq_true.mp h m hm
  rw [Bool.and_eq_true, Bool.not_eq_true', decide_eq_false_iff_not] at hone
  exact hone

theorem goParseAux_searchmoves (ms : List UciMove)
    (hms : ∀ m ∈ ms, moveWf m = true ∧ m ≠ .null) (B : List String)
    (hB : headNotMoveLike B = true) (g : Go) (hp : g.ponder = none) :
    goParseAux ("searchmoves" :: (movevecFmt ms ++ B)) g =
      goParseAux B { g with searchmoves := some ms } := by
  rw [goParseAux]
  simp only [List.length_cons]
  rw [goParseAuxF]
  rw [if_pos rfl]
  simp only [movevecParse_fmt false ms hms B hB, hp, Option.isSome_none,
    Bool.false_eq_true, if_false, List.map_nil, List.nil_append]
  rw [goParseAux_fuel B _ _ (by simp [List.length_append])]

theorem goParseAux_searchmoves_opt (o : Option (List UciMove))
    (ho : (match o with | none => true | some ms => movesWfNoNull ms) = true)
    (B : List String) (hB : headNotMoveLike B = true) (g : Go)
    (hp : g.ponder = none) (hsm : g.searchmoves = none) :
    goParseAux (searchTag o ++ B) g =
      goParseAux B { g with searchmoves := o } := by
  cases o with
  | none =>
    have hg : { g with searchmoves := none } = g := by cases g; simp_all
    rw [hg]
    simp only [searchTag, List.nil_append]
  | some ms =>
    simp only [searchTag, List.cons_append]
    exact goParseAux_searchmoves ms (movesWfNoNull_forall (by simpa using ho)) B hB g hp

theorem goParseAux_ponder (B : List String) (g : Go) (h : g.ponder = none) :
    goParseAux ("ponder" :: B) g = goParseAux B { g with ponder := some () } := by
  rw [goParseAux]
  simp only [List.length_cons]
  rw [goParseAuxF]
  rw [if_neg (by decide), if_pos rfl]
  simp only [h, Option.isSome_none, Bool.false_eq_true, if_false, List.nil_append]
  rw [goParseAux_fuel B _ B.length (le_refl _)]

theorem goParseAux_ponder_opt (o : Option Unit) (B : List String) (g : Go)
    (h : g.ponder = none) :
    goParseAux ((if o.isSome then ["ponder"] else []) ++ B) g =
      goParseAux B { g with ponder := o } := by
  cases o with
  | none =>
    have hg : { g with ponder := none } = g := by cases g; simp_all
    simp only [Option.isSome_none, Bool.false_eq_true, if_false, List.nil_append, hg]
  | some u =>
    cases u
    simp only [Option.isSome_some, if_true, List.cons_append, List.nil_append]
    exact goParseAux_ponder B g h

theorem goParseAux_infinite (B : List String) (g : Go) (h : g.infinite = none) :
    goParseAux ("infinite" :: B) g = goParseAux B { g with infinite := some () } := by
  rw [goParseAux]
  simp only [List.length_cons]
  rw [goParseAuxF]
  rw [if_neg (by decide), if_neg (by decide), if_pos rfl]
  simp only [h, Option.isSome_none, Bool.false_eq_true, if_false, List.nil_append]
  rw [goParseAux_fuel B _ B.length (le_refl _)]

theorem goParseAux_infinite_opt (o : Option Unit) (B : List String) (g : Go)
    (h : g.infinite = none) :
    goParseAux ((if o.isSome then ["infinite"] else []) ++ B) g =
      goParseAux B { g with infinite := o } := by
  cases o with
  | none =>
    have hg : { g with infinite := none } = g := by cases g; simp_all
    simp only [Option.isSome_none, Bool.false_eq_true, if_false, List.nil_append, hg]
  | some u =>
    cases u
    simp only [Option.isSome_some, if_true, List.cons_append, List.nil_append]
    exact goParseAux_infinite B g h

theorem goParseAux_wtime (v : Nat) (hv : v < 2 ^ 64) (B : List String) (g : Go)
    (h : g.wtime = none) :
    goParseAux ("wtime" :: fmtNat v :: B) g = goParseAux B { g with wtime := some v } := by
  rw [goParseAux]
  simp only [List.length_cons]
  rw [goParseAuxF]
  rw [if_neg (by decide), if_neg (by decide), if_neg (by decide), if_pos rfl]
  simp only [goIntItem, cmdGoIntItem, h, Option.isSome_none, Bool.false_eq_true, if_false,
    parseU64_fmtNat v hv, List.nil_append, List.drop_succ_cons, List.drop_zero]
  rw [goParseAux_fuel B _ (B.length + 1) (by omega)]

theorem goParseAux_wtime_opt (o : Option Nat) (ho : optNatLt (2 ^ 64) o = true)
    (B : List String) (g : Go) (h : g.wtime = none) :
    goParseAux (tagOpt "wtime" o ++ B) g = goParseAux B { g with wtime := o } := by
  cases o with
  | none =>
    have hg : { g with wtime := none } = g := by cases g; simp_all
    simp only [tagOpt, List.nil_append, hg]
  | some v =>
    have hv : v < 2 ^ 64 := by simpa [optNatLt] using ho
    simp only [tagOpt, List.cons_append, List.nil_append]
    exact goParseAux_wtime v hv B g h

theorem goParseAux_btime (v : Nat) (hv : v < 2 ^ 64) (B : List String) (g : Go)
    (h : g.btime = none) :
    goParseAux ("btime" :: fmtNat v :: B) g = goParseAux B { g with btime := some v } := by
  rw [goParseAux]
  simp only [List.length_cons]
  rw [goParseAuxF]
  rw [if_neg (by decide), if_neg (by decide), if_neg (by decide), if_neg (by decide), if_pos rfl]
  simp only [goIntItem, cmdGoIntItem, h, Option.isSome_none, Bool.false_eq_true, if_false,
    parseU64_fmtNat v hv, List.nil_append, List.drop_succ_cons, List.drop_zero]
  rw [goParseAux_fuel B _ (B.length + 1) (by omega)]

theorem goParseAux_btime_opt (o : Option Nat) (ho : optNatLt (2 ^ 64) o = true)
    (B : List String) (g : Go) (h : g.btime = none) :
    goParseAux (tagOpt "btime" o ++ B) g = goParseAux B { g with btime := o } := by
  cases o with
  | none =>
    have hg : { g with btime := none } = g := by cases g; simp_all
    simp only [tagOpt, List.nil_append, hg]
  | some v =>
    have hv : v < 2 ^ 64 := by simpa [optNatLt] using ho
    simp only [tagOpt, List.cons_append, List.nil_append]
    exact goParseAux_btime v hv B g h

theorem goParseAux_winc (v : Nat) (hv : v < 2 ^ 64) (B : List String) (g : Go)
    (h : g.winc = none) :
    goParseAux ("winc" :: fmtNat v :: B) g = goParseAux B { g with winc := some v } := by
  rw [goParseAux]
  simp only [List.length_cons]
  rw [goParseAuxF]
  rw [if_neg (by decide), if_neg (by decide), if_neg (by decide), if_neg (by decide), if_neg (by decide), if_pos rfl]
  simp only [goIntItem, cmdGoIntItem, h, Option.isSome_none, Bool.false_eq_true, if_false,
    parseU64_fmtNat v hv, List.nil_append, List.drop_succ_cons, List.drop_zero]
  rw [goParseAux_fuel B _ (B.length + 1) (by omega)]

theorem goParseAux_winc_opt (o : Option Nat) (ho : optNatLt (2 ^ 64) o = true)
    (B : List String) (g : Go) (h : g.winc = none) :
    goParseAux (tagOpt "winc" o ++ B) g = goParseAux B { g with winc := o } := by
  cases o with
  | none =>
    have hg : { g with winc := none } = g := by cases g; simp_all
    simp only [tagOpt, List.nil_append, hg]
  | some v =>
    have hv : v < 2 ^ 64 := by simpa [optNatLt] using ho
    simp only [tagOpt, List.cons_append, List.nil_append]
    exact goParseAux_winc v hv B g h

theorem goParseAux_binc (v : Nat) (hv : v < 2 ^ 64) (B : List String) (g : Go)
    (h : g.binc = none) :
    goParseAux ("binc" :: fmtNat v :: B) g = goParseAux B { g with binc := some v } := by
  rw [goParseAux]
  simp only [List.length_cons]
  rw [goParseAuxF]
  rw [if_neg (by decide), if_neg (by decide), if_neg (by decide), if_neg (by decide), if_neg (by decide), if_neg (by decide), if_pos rfl]
  simp only [goIntItem, cmdGoIntItem, h, Option.isSome_none, Bool.false_eq_true, if_false,
    parseU64_fmtNat v hv, List.nil_append, List.drop_succ_cons, List.drop_zero]
  rw [goParseAux_fuel B _ (B.length + 1) (by omega)]

theorem goParseAux_binc_opt (o : Option Nat) (ho : optNatLt (2 ^ 64) o = true)
    (B : List String) (g : Go) (h : g.binc = none) :
    goParseAux (tagOpt "binc" o ++ B) g = goParseAux B { g with binc := o } := by
  cases o with
  | none =>
    have hg : { g with binc := none } = g := by cases g; simp_all
    simp only [tagOpt, List.nil_append, hg]
  | some v =>
    have hv : v < 2 ^ 64 := by simpa [optNatLt] using ho
    simp only [tagOpt, List.cons_append, List.nil_append]
    exact goParseAux_binc v hv B g h

theorem goParseAux_movestogo (v : Nat) (h0 : 0 < v) (hv : v < 2 ^ 64) (B : List String) (g : Go)
    (h : g.movestogo = none) :
    goParseAux ("movestogo" :: fmtNat v :: B) g = goParseAux B { g with movestogo := some v } := by
  rw [goParseAux]
  simp only [List.length_cons]
  rw [goParseAuxF]
  rw [if_neg (by decide), if_neg (by decide), if_neg (by decide), if_neg (by decide), if_neg (by decide), if_neg (by decide), if_neg (by decide), if_pos rfl]
  simp only [goIntItem, cmdGoIntItem, h, Option.isSome_none, Bool.false_eq_true, if_false,
    parseNonZeroU64_fmtNat v h0 hv, List.nil_append, List.drop_succ_cons, List.drop_zero]
  rw [goParseAux_fuel B _ (B.length + 1) (by omega)]

theorem goParseAux_movestogo_opt (o : Option Nat) (ho : (match o with | none => true | some v => decide (0 < v) && decide (v < 2 ^ 64)) = true)
    (B : List String) (g : Go) (h : g.movestogo = none) :
    goParseAux (tagOpt "movestogo" o ++ B) g = goParseAux B { g with movestogo := o } := by
  cases o with
  | none =>
    have hg : { g with movestogo := none } = g := by cases g; simp_all
    simp only [tagOpt, List.nil_append, hg]
  | some v =>
    have hv := ho
    rw [Bool.and_eq_true, decide_eq_true_eq, decide_eq_true_eq] at hv
    simp only [tagOpt, List.cons_append, List.nil_append]
    exact goParseAux_movestogo v hv.1 hv.2 B g h

theorem goParseAux_mate (v : Nat) (hv : v < 2 ^ 64) (B : List String) (g : Go)
    (h : g.mate = none) :
    goParseAux ("mate" :: fmtNat v :: B) g = goParseAux B { g with mate := some v } := by
  rw [goParseAux]
  simp only [List.length_cons]
  rw [goParseAuxF]
  rw [if_neg (by decide), if_neg (by decide), if_neg (by decide), if_neg (by decide), if_neg (by decide), if_neg (by decide), if_neg (by decide), if_neg (by decide), if_pos rfl]
  simp only [goIntItem, cmdGoIntItem, h, Option.isSome_none, Bool.false_eq_true, if_false,
    parseU64_fmtNat v hv, List.nil_append, List.drop_succ_cons, List.drop_zero]
  rw [goParseAux_fuel B _ (B.length + 1) (by omega)]

theorem goParseAux_mate_opt (o : Option Nat) (ho : optNatLt (2 ^ 64) o = true)
    (B : List String) (g : Go) (h : g.mate = none) :
    goParseAux (tagOpt "mate" o ++ B) g = goParseAux B { g with mate := o } := by
  cases o with
  | none =>
    have hg : { g with mate := none } = g := by cases g; simp_all
    simp only [tagOpt, List.nil_append, hg]
  | some v =>
    have hv : v < 2 ^ 64 := by simpa [optNatLt] using ho
    simp only [tagOpt, List.cons_append, List.nil_append]
    exact goParseAux_mate v hv B g h

theorem goParseAux_depth (v : Nat) (hv : v < 2 ^ 64) (B : List String) (g : Go)
    (h : g.depth = none) :
    goParseAux ("depth" :: fmtNat v :: B) g = goParseAux B { g with depth := some v } := by
  rw [goParseAux]
  simp only [List.length_cons]
  rw [goParseAuxF]
  rw [if_neg (by decide), if_neg (by decide), if_neg (by decide), if_neg (by decide), if_neg (by decide), if_neg (by decide), if_neg (by decide), if_neg (by decide), if_neg (by decide), if_pos rfl]
  simp only [goIntItem, cmdGoIntItem, h, Option.isSome_none, Bool.false_eq_true, if_false,
    parseU64_fmtNat v hv, List.nil_append, List.drop_succ_cons, List.drop_zero]
  rw [goParseAux_fuel B _ (B.length + 1) (by omega)]

theorem goParseAux_depth_opt (o : Option Nat) (ho : optNatLt (2 ^ 64) o = true)
    (B : List String) (g : Go) (h : g.depth = none) :
    goParseAux (tagOpt "depth" o ++ B) g = goParseAux B { g with depth := o } := by
  cases o with
  | none =>
    have hg : { g with depth := none } = g := by cases g; simp_all
    simp only [tagOpt, List.nil_append, hg]
  | some v =>
    have hv : v < 2 ^ 64 := by simpa [optNatLt] using ho
    simp only [tagOpt, List.cons_append, List.nil_append]
    exact goParseAux_depth v hv B g h

theorem goParseAux_nodes (v : Nat) (hv : v < 2 ^ 32) (B : List String) (g : Go)
    (h : g.nodes = none) :
    goParseAux ("nodes" :: fmtNat v :: B) g = goParseAux B { g with nodes := some v } := by
  rw [goParseAux]
  simp only [List.length_cons]
  rw [goParseAuxF]
  rw [if_neg (by decide), if_neg (by decide), if_neg (by decide), if_neg (by decide), if_neg (by decide), if_neg (by decide), if_neg (by decide), if_neg (by decide), if_neg (by decide), if_neg (by decide), if_pos rfl]
  simp only [goIntItem, cmdGoIntItem, h, Option.isSome_none, Bool.false_eq_true, if_false,
    parseU32_fmtNat v hv, List.nil_append, List.drop_succ_cons, List.drop_zero]
  rw [goParseAux_fuel B _ (B.length + 1) (by omega)]

theorem goParseAux_nodes_opt (o : Option Nat) (ho : optNatLt (2 ^ 32) o = true)
    (B : List String) (g : Go) (h : g.nodes = none) :
    goParseAux (tagOpt "nodes" o ++ B) g = goParseAux B { g with nodes := o } := by
  cases o with
  | none =>
    have hg : { g with nodes := none } = g := by cases g; simp_all
    simp only [tagOpt, List.nil_append, hg]
  | some v =>
    have hv : v < 2 ^ 32 := by simpa [optNatLt] using ho
    simp only [tagOpt, List.cons_append, List.nil_append]
    exact goParseAux_nodes v hv B g h

theorem goParseAux_movetime (v : Nat) (hv : v < 2 ^ 64) (B : List String) (g : Go)
    (h : g.movetime = none) :
    goParseAux ("movetime" :: fmtNat v :: B) g = goParseAux B { g with movetime := some v } := by
  rw [goParseAux]
  simp only [List.length_cons]
  rw [goParseAuxF]
  rw [if_neg (by decide), if_neg (by decide), if_neg (by decide), if_neg (by decide), if_neg (by decide), if_neg (by decide), if_neg (by decide), if_neg (by decide), if_neg (by decide), if_neg (by decide), if_neg (by decide), if_pos rfl]
  simp only [goIntItem, cmdGoIntItem, h, Option.isSome_none, Bool.false_eq_true, if_false,
    parseU64_fmtNat v hv, List.nil_append, List.drop_succ_cons, List.drop_zero]
  rw [goParseAux_fuel B _ (B.length + 1) (by omega)]

theorem goParseAux_movetime_opt (o : Option Nat) (ho : optNatLt (2 ^ 64) o = true)
    (B : List String) (g : Go) (h : g.movetime = none) :
    goParseAux (tagOpt "movetime" o ++ B) g = goParseAux B { g with movetime := o } := by
  cases o with
  | none =>
    have hg : { g with movetime := none } = g := by cases g; simp_all
    simp only [tagOpt, List.nil_append, hg]
  | some v =>
    have hv : v < 2 ^ 64 := by simpa [optNatLt] using ho
    simp only [tagOpt, List.cons_append, List.nil_append]
    exact goParseAux_movetime v hv B g h

theorem cmdGoParseAux_searchmoves (ms : List UciMove)
    (hms : ∀ m ∈ ms, moveWf m = true ∧ m ≠ .null) (B : List String)
    (hB : headNotMoveLike B = true) (g : Go) (hp : g.ponder = none) :
    cmdGoParseAux ("searchmoves" :: (movevecFmt ms ++ B)) g =
      cmdGoParseAux B { g with searchmoves := some ms } := by
  rw [cmdGoParseAux]
  simp only [List.length_cons]
  rw [cmdGoParseAuxF]
  rw [if_pos rfl]
  simp only [movevecParse_fmt false ms hms B hB, hp, Option.isSome_none,
    Bool.false_eq_true, if_false, List.map_nil, List.nil_append]
  rw [cmdGoParseAux_fuel B _ _ (by simp [List.length_append])]

theorem cmdGoParseAux_searchmoves_opt (o : Option (List UciMove))
    (ho : (match o with | none => true | some ms => movesWfNoNull ms) = true)
    (B : List String) (hB : headNotMoveLike B = true) (g : Go)
    (hp : g.ponder = none) (hsm : g.searchmoves = none) :
    cmdGoParseAux (searchTag o ++ B) g =
      cmdGoParseAux B { g with searchmoves := o } := by
  cases o with
  | none =>
    have hg : { g with searchmoves := none } = g := by cases g; simp_all
    rw [hg]
    simp only [searchTag, List.nil_append]
  | some ms =>
    simp only [searchTag, List.cons_append]
    exact cmdGoParseAux_searchmoves ms (movesWfNoNull_forall (by simpa using ho)) B hB g hp

theorem cmdGoParseAux_ponder (B : List String) (g : Go) (h : g.ponder = none) :
    cmdGoParseAux ("ponder" :: B) g = cmdGoParseAux B { g with ponder := some () } := by
  rw [cmdGoParseAux]
  simp only [List.length_cons]
  rw [cmdGoParseAuxF]
  rw [if_neg (by decide), if_pos rfl]
  simp only [h, Option.isSome_none, Bool.false_eq_true, if_false, List.nil_append]
  rw [cmdGoParseAux_fuel B _ B.length (le_refl _)]

theorem cmdGoParseAux_ponder_opt (o : Option Unit) (B : List String) (g : Go)
    (h : g.ponder = none) :
    cmdGoParseAux ((if o.isSome then ["ponder"] else []) ++ B) g =
      cmdGoParseAux B { g with ponder := o } := by
  cases o with
  | none =>
    have hg : { g with ponder := none } = g := by cases g; simp_all
    simp only [Option.isSome_none, Bool.false_eq_true, if_false, List.nil_append, hg]
  | some u =>
    cases u
    simp only [Option.isSome_some, if_true, List.cons_append, List.nil_append]
    exact cmdGoParseAux_ponder B g h

theorem cmdGoParseAux_infinite (B : List String) (g : Go) (h : g.infinite = none) :
    cmdGoParseAux ("infinite" :: B) g = cmdGoParseAux B { g with infinite := some () } := by
  rw [cmdGoParseAux]
  simp only [List.length_cons]
  rw [cmdGoParseAuxF]
  rw [if_neg (by decide), if_neg (by decide), if_pos rfl]
  simp only [h, Option.isSome_none, Bool.false_eq_true, if_false, List.nil_append]
  rw [cmdGoParseAux_fuel B _ B.length (le_refl _)]

theorem cmdGoParseAux_infinite_opt (o : Option Unit) (B : List String) (g : Go)
    (h : g.infinite = none) :
    cmdGoParseAux ((if o.isSome then ["infinite"] else []) ++ B) g =
      cmdGoParseAux B { g with infinite := o } := by
  cases o with
  | none =>
    have hg : { g with infinite := none } = g := by cases g; simp_all
    simp only [Option.isSome_none, Bool.false_eq_true, if_false, List.nil_append, hg]
  | some u =>
    cases u
    simp only [Option.isSome_some, if_true, List.cons_append, List.nil_append]
    exact cmdGoParseAux_infinite B g h

theorem cmdGoParseAux_wtime (v : Nat) (hv : v < 2 ^ 64) (B : List String) (g : Go)
    (h : g.wtime = none) :
    cmdGoParseAux ("wtime" :: fmtNat v :: B) g = cmdGoParseAux B { g with wtime := some v } := by
  rw [cmdGoParseAux]
  simp only [List.length_cons]
  rw [cmdGoParseAuxF]
  rw [if_neg (by decide), if_neg (by decide), if_neg (by decide), if_pos rfl]
  simp only [goIntItem, cmdGoIntItem, h, Option.isSome_none, Bool.false_eq_true, if_false,
    parseU64_fmtNat v hv, List.nil_append, List.drop_succ_cons, List.drop_zero]
  rw [cmdGoParseAux_fuel B _ (B.length + 1) (by omega)]

theorem cmdGoParseAux_wtime_opt (o : Option Nat) (ho : optNatLt (2 ^ 64) o = true)
    (B : List String) (g : Go) (h : g.wtime = none) :
    cmdGoParseAux (tagOpt "wtime" o ++ B) g = cmdGoParseAux B { g with wtime := o } := by
  cases o with
  | none =>
    have hg : { g with wtime := none } = g := by cases g; simp_all
    simp only [tagOpt, List.nil_append, hg]
  | some v =>
    have hv : v < 2 ^ 64 := by simpa [optNatLt] using ho
    simp only [tagOpt, List.cons_append, List.nil_append]
    exact cmdGoParseAux_wtime v hv B g h

theorem cmdGoParseAux_btime (v : Nat) (hv : v < 2 ^ 64) (B : List String) (g : Go)
    (h : g.btime = none) :
    cmdGoParseAux ("btime" :: fmtNat v :: B) g = cmdGoParseAux B { g with btime := some v } := by
  rw [cmdGoParseAux]
  simp only [List.length_cons]
  rw [cmdGoParseAuxF]
  rw [if_neg (by decide), if_neg (by decide), if_neg (by decide), if_neg (by decide), if_pos rfl]
  simp only [goIntItem, cmdGoIntItem, h, Option.isSome_none, Bool.false_eq_true, if_false,
    parseU64_fmtNat v hv, List.nil_append, List.drop_succ_cons, List.drop_zero]
  rw [cmdGoParseAux_fuel B _ (B.length + 1) (by omega)]

theorem cmdGoParseAux_btime_opt (o : Option Nat) (ho : optNatLt (2 ^ 64) o = true)
    (B : List String) (g : Go) (h : g.btime = none) :
    cmdGoParseAux (tagOpt "btime" o ++ B) g = cmdGoParseAux B { g with btime := o } := by
  cases o with
  | none =>
    have hg : { g with btime := none } = g := by cases g; simp_all
    simp only [tagOpt, List.nil_append, hg]
  | some v =>
    have hv : v < 2 ^ 64 := by simpa [optNatLt] using ho
    simp only [tagOpt, List.cons_append, List.nil_append]
    exact cmdGoParseAux_btime v hv B g h

theorem cmdGoParseAux_winc (v : Nat) (hv : v < 2 ^ 64) (B : List String) (g : Go)
    (h : g.winc = none) :
    cmdGoParseAux ("winc" :: fmtNat v :: B) g = cmdGoParseAux B { g with winc := some v } := by
  rw [cmdGoParseAux]
  simp only [List.length_cons]
  rw [cmdGoParseAuxF]
  rw [if_neg (by decide), if_neg (by decide), if_neg (by decide), if_neg (by decide), if_neg (by decide), if_pos rfl]
  simp only [goIntItem, cmdGoIntItem, h, Option.isSome_none, Bool.false_eq_true, if_false,
    parseU64_fmtNat v hv, List.nil_append, List.drop_succ_cons, List.drop_zero]
  rw [cmdGoParseAux_fuel B _ (B.length + 1) (by omega)]

theorem cmdGoParseAux_winc_opt (o : Option Nat) (ho : optNatLt (2 ^ 64) o = true)
    (B : List String) (g : Go) (h : g.winc = none) :
    cmdGoParseAux (tagOpt "winc" o ++ B) g = cmdGoParseAux B { g with winc := o } := by
  cases o with
  | none =>
    have hg : { g with winc := none } = g := by cases g; simp_all
    simp only [tagOpt, List.nil_append, hg]
  | some v =>
    have hv : v < 2 ^ 64 := by simpa [optNatLt] using ho
    simp only [tagOpt, List.cons_append, List.nil_append]
    exact cmdGoParseAux_winc v hv B g h

theorem cmdGoParseAux_binc (v : Nat) (hv : v < 2 ^ 64) (B : List String) (g : Go)
    (h : g.binc = none) :
    cmdGoParseAux ("binc" :: fmtNat v :: B) g = cmdGoParseAux B { g with binc := some v } := by
  rw [cmdGoParseAux]
  simp only [List.length_cons]
  rw [cmdGoParseAuxF]
  rw [if_neg (by decide), if_neg (by decide), if_neg (by decide), if_neg (by decide), if_neg (by decide), if_neg (by decide), if_pos rfl]
  simp only [goIntItem, cmdGoIntItem, h, Option.isSome_none, Bool.false_eq_true, if_false,
    parseU64_fmtNat v hv, List.nil_append, List.drop_succ_cons, List.drop_zero]
  rw [cmdGoParseAux_fuel B _ (B.length + 1) (by omega)]

theorem cmdGoParseAux_binc_opt (o : Option Nat) (ho : optNatLt (2 ^ 64) o = true)
    (B : List String) (g : Go) (h : g.binc = none) :
    cmdGoParseAux (tagOpt "binc" o ++ B) g = cmdGoParseAux B { g with binc := o } := by
  cases o with
  | none =>
    have hg : { g with binc := none } = g := by cases g; simp_all
    simp only [tagOpt, List.nil_append, hg]
  | some v =>
    have hv : v < 2 ^ 64 := by simpa [optNatLt] using ho
    simp only [tagOpt, List.cons_append, List.nil_append]
    exact cmdGoParseAux_binc v hv B g h

theorem cmdGoParseAux_movestogo (v : Nat) (h0 : 0 < v) (hv : v < 2 ^ 64) (B : List String) (g : Go)
    (h : g.movestogo = none) :
    cmdGoParseAux ("movestogo" :: fmtNat v :: B) g = cmdGoParseAux B { g with movestogo := some v } := by
  rw [cmdGoParseAux]
  simp only [List.length_cons]
  rw [cmdGoParseAuxF]
  rw [if_neg (by decide), if_neg (by decide), if_neg (by decide), if_neg (by decide), if_neg (by decide), if_neg (by decide), if_neg (by decide), if_pos rfl]
  simp only [goIntItem, cmdGoIntItem, h, Option.isSome_none, Bool.false_eq_true, if_false,
    parseNonZeroU64_fmtNat v h0 hv, List.nil_append, List.drop_succ_cons, List.drop_zero]
  rw [cmdGoParseAux_fuel B _ (B.length + 1) (by omega)]

theorem cmdGoParseAux_movestogo_opt (o : Option Nat) (ho : (match o with | none => true | some v => decide (0 < v) && decide (v < 2 ^ 64)) = true)
    (B : List String) (g : Go) (h : g.movestogo = none) :
    cmdGoParseAux (tagOpt "movestogo" o ++ B) g = cmdGoParseAux B { g with movestogo := o } := by
  cases o with
  | none =>
    have hg : { g with movestogo := none } = g := by cases g; simp_all
    simp only [tagOpt, List.nil_append, hg]
  | some v =>
    have hv := ho
    rw [Bool.and_eq_true, decide_eq_true_eq, decide_eq_true_eq] at hv
    simp only [tagOpt, List.cons_append, List.nil_append]
    exact cmdGoParseAux_movestogo v hv.1 hv.2 B g h

theorem cmdGoParseAux_mate (v : Nat) (hv : v < 2 ^ 64) (B : List String) (g : Go)
    (h : g.mate = none) :
    cmdGoParseAux ("mate" :: fmtNat v :: B) g = cmdGoParseAux B { g with mate := some v } := by
  rw [cmdGoParseAux]
  simp only [List.length_cons]
  rw [cmdGoParseAuxF]
  rw [if_neg (by decide), if_neg (by decide), if_neg (by decide), if_neg (by decide), if_neg (by decide), if_neg (by decide), if_neg (by decide), if_neg (by decide), if_pos rfl]
  simp only [goIntItem, cmdGoIntItem, h, Option.isSome_none, Bool.false_eq_true, if_false,
    parseU64_fmtNat v hv, List.nil_append, List.drop_succ_cons, List.drop_zero]
  rw [cmdGoParseAux_fuel B _ (B.length + 1) (by omega)]

theorem cmdGoParseAux_mate_opt (o : Option Nat) (ho : optNatLt (2 ^ 64) o = true)
    (B : List String) (g : Go) (h : g.mate = none) :
    cmdGoParseAux (tagOpt "mate" o ++ B) g = cmdGoParseAux B { g with mate := o } := by
  cases o with
  | none =>
    have hg : { g with mate := none } = g := by cases g; simp_all
    simp only [tagOpt, List.nil_append, hg]
  | some v =>
    have hv : v < 2 ^ 64 := by simpa [optNatLt] using ho
    simp only [tagOpt, List.cons_append, List.nil_append]
    exact cmdGoParseAux_mate v hv B g h

theorem cmdGoParseAux_depth (v : Nat) (hv : v < 2 ^ 64) (B : List String) (g : Go)
    (h : g.depth = none) :
    cmdGoParseAux ("depth" :: fmtNat v :: B) g = cmdGoParseAux B { g with depth := some v } := by
  rw [cmdGoParseAux]
  simp only [List.length_cons]
  rw [cmdGoParseAuxF]
  rw [if_neg (by decide), if_neg (by decide), if_neg (by decide), if_neg (by decide), if_neg (by decide), if_neg (by decide), if_neg (by decide), if_neg (by decide), if_neg (by decide), if_pos rfl]
  simp only [goIntItem, cmdGoIntItem, h, Option.isSome_none, Bool.false_eq_true, if_false,
    parseU64_fmtNat v hv, List.nil_append, List.drop_succ_cons, List.drop_zero]
  rw [cmdGoParseAux_fuel B _ (B.length + 1) (by omega)]

theorem cmdGoParseAux_depth_opt (o : Option Nat) (ho : optNatLt (2 ^ 64) o = true)
    (B : List String) (g : Go) (h : g.depth = none) :
    cmdGoParseAux (tagOpt "depth" o ++ B) g = cmdGoParseAux B { g with depth := o } := by
  cases o with
  | none =>
    have hg : { g with depth := none } = g := by cases g; simp_all
    simp only [tagOpt, List.nil_append, hg]
  | some v =>
    have hv : v < 2 ^ 64 := by simpa [optNatLt] using ho
    simp only [tagOpt, List.cons_append, List.nil_append]
    exact cmdGoParseAux_depth v hv B g h

theorem cmdGoParseAux_nodes (v : Nat) (hv : v < 2 ^ 64) (B : List String) (g : Go)
    (h : g.nodes = none) :
    cmdGoParseAux ("nodes" :: fmtNat v :: B) g = cmdGoParseAux B { g with nodes := some v } := by
  rw [cmdGoParseAux]
  simp only [List.length_cons]
  rw [cmdGoParseAuxF]
  rw [if_neg (by decide), if_neg (by decide), if_neg (by decide), if_neg (by decide), if_neg (by decide), if_neg (by decide), if_neg (by decide), if_neg (by decide), if_neg (by decide), if_neg (by decide), if_pos rfl]
  simp only [goIntItem, cmdGoIntItem, h, Option.isSome_none, Bool.false_eq_true, if_false,
    parseU64_fmtNat v hv, List.nil_append, List.drop_succ_cons, List.drop_zero]
  rw [cmdGoParseAux_fuel B _ (B.length + 1) (by omega)]

theorem cmdGoParseAux_nodes_opt (o : Option Nat) (ho : optNatLt (2 ^ 64) o = true)
    (B : List String) (g : Go) (h : g.nodes = none) :
    cmdGoParseAux (tagOpt "nodes" o ++ B) g = cmdGoParseAux B { g with nodes := o } := by
  cases o with
  | none =>
    have hg : { g with nodes := none } = g := by cases g; simp_all
    simp only [tagOpt, List.nil_append, hg]
  | some v =>
    have hv : v < 2 ^ 64 := by simpa [optNatLt] using ho
    simp only [tagOpt, List.cons_append, List.nil_append]
    exact cmdGoParseAux_nodes v hv B g h

theorem cmdGoParseAux_movetime (v : Nat) (hv : v < 2 ^ 64) (B : List String) (g : Go)
    (h : g.movetime = none) :
    cmdGoParseAux ("movetime" :: fmtNat v :: B) g = cmdGoParseAux B { g with movetime := some v } := by
  rw [cmdGoParseAux]
  simp only [List.length_cons]
  rw [cmdGoParseAuxF]
  rw [if_neg (by decide), if_neg (by decide), if_neg (by decide), if_neg (by decide), if_neg (by decide), if_neg (by decide), if_neg (by decide), if_neg (by decide), if_neg (by decide), if_neg (by decide), if_neg (by decide), if_pos rfl]
  simp only [goIntItem, cmdGoIntItem, h, Option.isSome_none, Bool.false_eq_true, if_false,
    parseU64_fmtNat v hv, List.nil_append, List.drop_succ_cons, List.drop_zero]
  rw [cmdGoParseAux_fuel B _ (B.length + 1) (by omega)]

theorem cmdGoParseAux_movetime_opt (o : Option Nat) (ho : optNatLt (2 ^ 64) o = true)
    (B : List String) (g : Go) (h : g.movetime = none) :
    cmdGoParseAux (tagOpt "movetime" o ++ B) g = cmdGoParseAux B { g with movetime := o } := by
  cases o with
  | none =>
    have hg : { g with movetime := none } = g := by cases g; simp_all
    simp only [tagOpt, List.nil_append, hg]
  | some v =>
    have hv : v < 2 ^ 64 := by simpa [optNatLt] using ho
    simp only [tagOpt, List.cons_append, List.nil_append]
    exact cmdGoParseAux_movetime v hv B g h

theorem headNotMoveLike_nil : headNotMoveLike [] = true := rfl

theorem headNotMoveLike_flagBlock (c : Bool) (kw : String)
    (hkw : looksLikeMove kw = false) (B : List String)
    (hB : headNotMoveLike B = true) :
    headNotMoveLike ((if c then [kw] else []) ++ B) = true := by
  cases c with
  | false => simpa using hB
  | true =>
    simp only [if_true, List.cons_append, List.nil_append, headNotMoveLike]
    rw [hkw]
    rfl

theorem headNotMoveLike_tagOpt (kw : String) (o : Option Nat)
    (hkw : looksLikeMove kw = false) (B : List String)
    (hB : headNotMoveLike B = true) :
    headNotMoveLike (tagOpt kw o ++ B) = true := by
  cases o with
  | none => simpa [tagOpt] using hB
  | some v =>
    simp only [tagOpt, List.cons_append, headNotMoveLike]
    rw [hkw]
    rfl

theorem headNotMoveLike_tagOpt_nil (kw : String) (o : Option Nat)
    (hkw : looksLikeMove kw = false) :
    headNotMoveLike (tagOpt kw o) = true := by
  cases o with
  | none => rfl
  | some v =>
    simp only [tagOpt, headNotMoveLike]
    rw [hkw]
    rfl

theorem not_contains_forall (kw : String) (A : List String)
    (h : A.contains kw = false) : ∀ x ∈ A, x ≠ kw := by
  induction A with
  | nil => intro x hx; cases hx
  | cons t ts ih =>
    rw [List.contains_cons] at h
    intro x hx
    rcases List.mem_cons.mp hx with rfl | hmem
    · intro heq
      subst heq
      simp at h
    · refine ih ?_ x hmem
      cases hbeq : ts.contains kw
      · rfl
      · rw [hbeq, Bool.or_true] at h
        exact absurd h (by decide)

theorem trySplit_no_kw (kw : String) (A : List String) (h : ∀ x ∈ A, x ≠ kw) :
    trySplit A kw = (A, none) := by
  induction A with
  | nil => rfl
  | cons t ts ih =>
    rw [trySplit, if_neg (h t (List.mem_cons_self t ts))]
    rw [ih (fun x hx => h x (List.mem_cons_of_mem t hx))]

theorem trySplit_append (kw : String) (A B : List String) (h : ∀ x ∈ A, x ≠ kw) :
    trySplit (A ++ kw :: B) kw = (A, some B) := by
  induction A with
  | nil => simp only [List.nil_append, trySplit, if_pos]
  | cons t ts ih =>
    simp only [List.cons_append, trySplit, List.append_eq]
    rw [if_neg (h t (List.mem_cons_self t ts))]
    rw [ih (fun x hx => h x (List.mem_cons_of_mem t hx))]

theorem parseMovesAll_fmt (ms : List UciMove) (h : ∀ m ∈ ms, moveWf m = true) :
    ∀ pos, parseMovesAll (movevecFmt ms) pos = .ok ms := by
  induction ms with
  | nil => intro pos; rfl
  | cons m rest ih =>
    intro pos
    show parseMovesAll (fmtUciMove m :: movevecFmt rest) pos = _
    rw [parseMovesAll]
    simp only [parseUciMove_fmtUciMove m (h m (List.mem_cons_self m rest))]
    rw [ih (fun x hx => h x (List.mem_cons_of_mem m hx)) (pos + 1)]
    rfl

theorem scoreParseUnbounded_fmt (s : RelScore) (h : relScoreRT s = true)
    (R : List String) :
    scoreParseUnbounded (scoreFmtUnbounded s ++ R) = (some s, R, []) := by
  cases s with
  | cp v =>
    rw [relScoreRT] at h
    simp only [Bool.and_eq_true, decide_eq_true_eq] at h
    simp only [scoreFmtUnbounded, List.cons_append, List.nil_append]
    rw [scoreParseUnbounded, if_pos rfl]
    simp only [parseI32_fmtInt v h]
  | mate m win =>
    rw [relScoreRT] at h
    simp only [Bool.and_eq_true, Bool.not_eq_true', Bool.and_eq_false_iff,
      decide_eq_true_eq, decide_eq_false_iff_not] at h
    cases win with
    | false =>
      simp only [scoreFmtUnbounded, Bool.false_eq_true, if_false, List.cons_append,
        List.nil_append]
      rw [scoreParseUnbounded, if_neg (by decide), if_pos rfl]
      have hw : i64WrapAbs (-(m : Int)) = (m : Int) := by
        rw [i64WrapAbs, if_neg (show ¬(-(m : Int) = -(2 ^ 63)) by omega)]
        simp only [Int.natAbs_neg, Int.natAbs_ofNat]
      simp only [parseI64_fmtInt (-(m : Int)) (by constructor <;> omega), hw]
      rw [if_pos (show (0 : Int) ≤ (m : Int) ∧ (m : Int) < 2 ^ 32 by constructor <;> omega)]
      have hsgn : decide (0 < -(m : Int)) = false := by
        simp only [decide_eq_false_iff_not]
        omega
      simp only [Int.toNat_ofNat, hsgn]
    | true =>
      have hm0 : m ≠ 0 := by
        rcases h.2 with h2 | h2
        · exact h2
        · exact absurd h2 (by decide)
      simp only [scoreFmtUnbounded, if_true, List.cons_append, List.nil_append]
      rw [scoreParseUnbounded, if_neg (by decide), if_pos rfl]
      have hw : i64WrapAbs ((m : Int)) = (m : Int) := by
        rw [i64WrapAbs, if_neg (show ¬((m : Int) = -(2 ^ 63)) by omega)]
        simp only [Int.natAbs_ofNat]
      simp only [parseI64_fmtInt ((m : Int)) (by constructor <;> omega), hw]
      rw [if_pos (show (0 : Int) ≤ (m : Int) ∧ (m : Int) < 2 ^ 32 by constructor <;> omega)]
      have hsgn : decide (0 < (m : Int)) = true := by
        simp only [decide_eq_true_eq]
        omega
      simp only [Int.toNat_ofNat, hsgn]

theorem scoreParse_fmt (s : BoundedRelScore) (h : relScoreRT s.score = true)
    (R : List String) (hR : scoreBoundary R = true) :
    scoreParse (scoreFmt s ++ R) = (some s, R, []) := by
  obtain ⟨sc, bd⟩ := s
  cases bd with
  | exact =>
    simp only [scoreFmt, List.append_nil]
    rw [scoreParse]
    simp only [scoreParseUnbounded_fmt sc h R]
    cases R with
    | nil => rfl
    | cons b r2 =>
      rw [scoreBoundary] at hR
      simp only [Bool.and_eq_true, Bool.not_eq_true', decide_eq_false_iff_not] at hR
      dsimp only
      rw [if_neg hR.1, if_neg hR.2]
  | lower =>
    simp only [scoreFmt, List.append_assoc, List.cons_append, List.nil_append]
    rw [scoreParse]
    simp only [scoreParseUnbounded_fmt sc h ("lowerbound" :: R)]
    simp
  | upper =>
    simp only [scoreFmt, List.append_assoc, List.cons_append, List.nil_append]
    rw [scoreParse]
    simp only [scoreParseUnbounded_fmt sc h ("upperbound" :: R)]
    simp

theorem headNotMoveLike_of_infoBoundary (R : List String)
    (h : infoBoundary R = true) : headNotMoveLike R = true := by
  cases R with
  | nil => rfl
  | cons t ts =>
    rw [infoBoundary, Bool.and_eq_true, Bool.and_eq_true] at h
    rw [headNotMoveLike]
    exact h.1.1

theorem scoreBoundary_of_infoBoundary (R : List String)
    (h : infoBoundary R = true) : scoreBoundary R = true := by
  cases R with
  | nil => rfl
  | cons t ts =>
    rw [infoBoundary, Bool.and_eq_true, Bool.and_eq_true] at h
    rw [scoreBoundary, Bool.and_eq_true]
    exact ⟨h.1.2, h.2⟩

theorem infoParse_fmt (i : Info) (h : infoRT i = true) (R : List String)
    (hR : infoBoundary R = true) :
    ∃ w, infoParse (infoFmt i ++ R) = (some i, R, w) := by
  cases i with
  | depth n =>
    simp only [infoRT, decide_eq_true_eq] at h
    refine ⟨[], ?_⟩
    simp only [infoFmt, List.cons_append, List.nil_append]
    rw [infoParse]
    rw [if_pos rfl]
    simp only [infoIntField, parseU32_fmtNat n h]
  | seldepth n =>
    simp only [infoRT, decide_eq_true_eq] at h
    refine ⟨[], ?_⟩
    simp only [infoFmt, List.cons_append, List.nil_append]
    rw [infoParse]
    rw [if_neg (by decide)]
    rw [if_pos rfl]
    simp only [infoIntField, parseU32_fmtNat n h]
  | time n =>
    simp only [infoRT, decide_eq_true_eq] at h
    refine ⟨[], ?_⟩
    simp only [infoFmt, List.cons_append, List.nil_append]
    rw [infoParse]
    rw [if_neg (by decide)]
    rw [if_neg (by decide)]
    rw [if_pos rfl]
    simp only [infoIntField, parseU64_fmtNat n h]
  | nodes n =>
    simp only [infoRT, decide_eq_true_eq] at h
    refine ⟨[], ?_⟩
    simp only [infoFmt, List.cons_append, List.nil_append]
    rw [infoParse]
    rw [if_neg (by decide)]
    rw [if_neg (by decide)]
    rw [if_neg (by decide)]
    rw [if_pos rfl]
    simp only [infoIntField, parseU64_fmtNat n h]
  | pv ms =>
    simp only [infoRT] at h
    refine ⟨[], ?_⟩
    simp only [infoFmt, List.cons_append]
    rw [infoParse]
    rw [if_neg (by decide)]
    rw [if_neg (by decide)]
    rw [if_neg (by decide)]
    rw [if_neg (by decide)]
    rw [if_pos rfl]
    simp only [infoMoveVecField,
      movevecParse_fmt true ms (movesWfNoNull_forall h) R
        (headNotMoveLike_of_infoBoundary R hR), List.map_nil]
  | multipv n =>
    simp only [infoRT, decide_eq_true_eq] at h
    refine ⟨[], ?_⟩
    simp only [infoFmt, List.cons_append, List.nil_append]
    rw [infoParse]
    rw [if_neg (by decide)]
    rw [if_neg (by decide)]
    rw [if_neg (by decide)]
    rw [if_neg (by decide)]
    rw [if_neg (by decide)]
    rw [if_pos rfl]
    simp only [infoIntField, parseU32_fmtNat n h]
  | score s =>
    simp only [infoRT] at h
    refine ⟨[], ?_⟩
    simp only [infoFmt, List.cons_append]
    rw [infoParse]
    rw [if_neg (by decide)]
    rw [if_neg (by decide)]
    rw [if_neg (by decide)]
    rw [if_neg (by decide)]
    rw [if_neg (by decide)]
    rw [if_neg (by decide)]
    rw [if_pos rfl]
    simp only [infoScoreField,
      scoreParse_fmt s h R (scoreBoundary_of_infoBoundary R hR), Option.map_some',
      List.map_nil]
  | currmove m =>
    simp only [infoRT] at h
    refine ⟨[], ?_⟩
    simp only [infoFmt, List.cons_append, List.nil_append]
    rw [infoParse]
    rw [if_neg (by decide)]
    rw [if_neg (by decide)]
    rw [if_neg (by decide)]
    rw [if_neg (by decide)]
    rw [if_neg (by decide)]
    rw [if_neg (by decide)]
    rw [if_neg (by decide)]
    rw [if_pos rfl]
    simp only [infoMoveField, parseUciMove_fmtUciMove m h]
  | currmovenumber n =>
    simp only [infoRT, decide_eq_true_eq] at h
    refine ⟨[], ?_⟩
    simp only [infoFmt, List.cons_append, List.nil_append]
    rw [infoParse]
    rw [if_neg (by decide)]
    rw [if_neg (by decide)]
    rw [if_neg (by decide)]
    rw [if_neg (by decide)]
    rw [if_neg (by decide)]
    rw [if_neg (by decide)]
    rw [if_neg (by decide)]
    rw [if_neg (by decide)]
    rw [if_pos rfl]
    simp only [infoIntField, parseU32_fmtNat n h]
  | hashfull p =>
    obtain ⟨a⟩ := p
    simp only [infoRT, decide_eq_true_eq] at h
    refine ⟨if 1000 ≤ a then [.permilleTruncated a] else [], ?_⟩
    simp only [infoFmt, List.cons_append, List.nil_append]
    rw [infoParse]
    rw [if_neg (by decide)]
    rw [if_neg (by decide)]
    rw [if_neg (by decide)]
    rw [if_neg (by decide)]
    rw [if_neg (by decide)]
    rw [if_neg (by decide)]
    rw [if_neg (by decide)]
    rw [if_neg (by decide)]
    rw [if_neg (by decide)]
    rw [if_pos rfl]
    have hp : Permille.new_truncated a = (⟨a⟩ : Permille) := by
      rw [Permille.new_truncated, Permille.mk.injEq]
      omega
    simp only [infoPermilleField, parseU64_fmtNat a (by omega), make_permille, hp]
  | nps n =>
    simp only [infoRT, decide_eq_true_eq] at h
    refine ⟨[], ?_⟩
    simp only [infoFmt, List.cons_append, List.nil_append]
    rw [infoParse]
    rw [if_neg (by decide)]
    rw [if_neg (by decide)]
    rw [if_neg (by decide)]
    rw [if_neg (by decide)]
    rw [if_neg (by decide)]
    rw [if_neg (by decide)]
    rw [if_neg (by decide)]
    rw [if_neg (by decide)]
    rw [if_neg (by decide)]
    rw [if_neg (by decide)]
    rw [if_pos rfl]
    simp only [infoIntField, parseU64_fmtNat n h]
  | tbhits n =>
    simp only [infoRT, decide_eq_true_eq] at h
    refine ⟨[], ?_⟩
    simp only [infoFmt, List.cons_append, List.nil_append]
    rw [infoParse]
    rw [if_neg (by decide)]
    rw [if_neg (by decide)]
    rw [if_neg (by decide)]
    rw [if_neg (by decide)]
    rw [if_neg (by decide)]
    rw [if_neg (by decide)]
    rw [if_neg (by decide)]
    rw [if_neg (by decide)]
    rw [if_neg (by decide)]
    rw [if_neg (by decide)]
    rw [if_neg (by decide)]
    rw [if_pos rfl]
    simp only [infoIntField, parseU64_fmtNat n h]
  | sbhits n =>
    simp only [infoRT, decide_eq_true_eq] at h
    refine ⟨[], ?_⟩
    simp only [infoFmt, List.cons_append, List.nil_append]
    rw [infoParse]
    rw [if_neg (by decide)]
    rw [if_neg (by decide)]
    rw [if_neg (by decide)]
    rw [if_neg (by decide)]
    rw [if_neg (by decide)]
    rw [if_neg (by decide)]
    rw [if_neg (by decide)]
    rw [if_neg (by decide)]
    rw [if_neg (by decide)]
    rw [if_neg (by decide)]
    rw [if_neg (by decide)]
    rw [if_neg (by decide)]
    rw [if_pos rfl]
    simp only [infoIntField, parseU64_fmtNat n h]
  | cpuload p =>
    obtain ⟨a⟩ := p
    simp only [infoRT, decide_eq_true_eq] at h
    refine ⟨if 1000 ≤ a then [.permilleTruncated a] else [], ?_⟩
    simp only [infoFmt, List.cons_append, List.nil_append]
    rw [infoParse]
    rw [if_neg (by decide)]
    rw [if_neg (by decide)]
    rw [if_neg (by decide)]
    rw [if_neg (by decide)]
    rw [if_neg (by decide)]
    rw [if_neg (by decide)]
    rw [if_neg (by decide)]
    rw [if_neg (by decide)]
    rw [if_neg (by decide)]
    rw [if_neg (by decide)]
    rw [if_neg (by decide)]
    rw [if_neg (by decide)]
    rw [if_neg (by decide)]
    rw [if_pos rfl]
    have hp : Permille.new_truncated a = (⟨a⟩ : Permille) := by
      rw [Permille.new_truncated, Permille.mk.injEq]
      omega
    simp only [infoPermilleField, parseU64_fmtNat a (by omega), make_permille, hp]
  | refutation ms =>
    simp only [infoRT] at h
    refine ⟨[], ?_⟩
    simp only [infoFmt, List.cons_append]
    rw [infoParse]
    rw [if_neg (by decide)]
    rw [if_neg (by decide)]
    rw [if_neg (by decide)]
    rw [if_neg (by decide)]
    rw [if_neg (by decide)]
    rw [if_neg (by decide)]
    rw [if_neg (by decide)]
    rw [if_neg (by decide)]
    rw [if_neg (by decide)]
    rw [if_neg (by decide)]
    rw [if_neg (by decide)]
    rw [if_neg (by decide)]
    rw [if_neg (by decide)]
    rw [if_neg (by decide)]
    rw [if_pos rfl]
    simp only [infoMoveVecField,
      movevecParse_fmt true ms (movesWfNoNull_forall h) R
        (headNotMoveLike_of_infoBoundary R hR), List.map_nil]
  | currline cpu ms =>
    simp only [infoRT, Bool.and_eq_true, decide_eq_true_eq] at h
    refine ⟨[], ?_⟩
    simp only [infoFmt, List.cons_append]
    rw [infoParse]
    rw [if_neg (by decide)]
    rw [if_neg (by decide)]
    rw [if_neg (by decide)]
    rw [if_neg (by decide)]
    rw [if_neg (by decide)]
    rw [if_neg (by decide)]
    rw [if_neg (by decide)]
    rw [if_neg (by decide)]
    rw [if_neg (by decide)]
    rw [if_neg (by decide)]
    rw [if_neg (by decide)]
    rw [if_neg (by decide)]
    rw [if_neg (by decide)]
    rw [if_neg (by decide)]
    rw [if_neg (by decide)]
    rw [if_pos rfl]
    simp only [infoCurrlineField, parseU32_fmtNat cpu h.1,
      movevecParse_fmt true ms (movesWfNoNull_forall h.2) R
        (headNotMoveLike_of_infoBoundary R hR), List.map_nil]

theorem infoBoundary_stringTag (str : Option UciTokens) :
    infoBoundary (stringTag str) = true := by
  cases str <;> rfl

theorem infoBoundary_fold (items : List Info) (str : Option UciTokens) :
    infoBoundary (items.foldr (fun i acc => infoFmt i ++ acc) [] ++ stringTag str) =
      true := by
  cases items with
  | nil =>
    simp only [List.foldr_nil, List.nil_append]
    exact infoBoundary_stringTag str
  | cons i is =>
    simp only [List.foldr_cons, List.append_assoc]
    cases i <;> simp only [infoFmt, List.cons_append] <;> rfl

theorem infoItems_fmt (items : List Info) (h : ∀ i ∈ items, infoRT i = true)
    (str : Option UciTokens) : ∀ pos, ∃ w,
    infoItems (items.foldr (fun i acc => infoFmt i ++ acc) [] ++ stringTag str) pos =
      (items, str, w) := by
  induction items with
  | nil =>
    intro pos
    refine ⟨[], ?_⟩
    cases str with
    | none => rfl
    | some s =>
      simp only [List.foldr_nil, List.nil_append, stringTag]
      rw [infoItems_cons, if_pos rfl]
  | cons i is ih =>
    intro pos
    obtain ⟨w2, hw2⟩ := ih (fun x hx => h x (List.mem_cons_of_mem i hx)) (pos + 1)
    obtain ⟨w1, hw1⟩ := infoParse_fmt i (h i (List.mem_cons_self i is))
      (is.foldr (fun j acc => infoFmt j ++ acc) [] ++ stringTag str)
      (infoBoundary_fold is str)
    simp only [List.foldr_cons, List.append_assoc]
    set X := is.foldr (fun j acc => infoFmt j ++ acc) [] ++ stringTag str with hX
    cases i <;>
      (simp only [infoFmt, List.cons_append, List.nil_append] at hw1 ⊢
       rw [infoItems_cons, if_neg (by decide)]
       simp only [hw1, hw2]
       exact ⟨_, rfl⟩)

theorem fromTokensChecked_ok_of (bad toks : List String)
    (h : ∀ t ∈ toks, t ∉ bad) : fromTokensChecked bad toks = .ok toks := by
  rw [fromTokensChecked, (findBadToken_eq_none_iff bad toks).mpr h]

theorem splitOnTok_fmt (vars : List UciTokens)
    (hv : ∀ v ∈ vars, ∀ x ∈ v, x ≠ "var") :
    ∀ A, (∀ x ∈ A, x ≠ "var") →
      splitOnTok "var" (A ++ vars.foldr (fun v acc => "var" :: (v ++ acc)) []) =
        A :: vars := by
  induction vars with
  | nil =>
    intro A
    induction A with
    | nil => intro hA; rfl
    | cons t ts ihA =>
      intro hA
      rw [List.cons_append, splitOnTok]
      rw [if_neg (hA t (List.mem_cons_self t ts))]
      rw [ihA (fun x hx => hA x (List.mem_cons_of_mem t hx))]
  | cons v vs ih =>
    intro A
    induction A with
    | nil =>
      intro hA
      simp only [List.nil_append, List.foldr_cons]
      rw [splitOnTok, if_pos rfl]
      rw [ih (fun u hu => hv u (List.mem_cons_of_mem v hu)) v
        (hv v (List.mem_cons_self v vs))]
    | cons t ts ihA =>
      intro hA
      rw [List.cons_append, splitOnTok]
      rw [if_neg (hA t (List.mem_cons_self t ts))]
      rw [ihA (fun x hx => hA x (List.mem_cons_of_mem t hx))]

theorem comboVars_ok (gs : List UciTokens)
    (h : ∀ g ∈ gs, ∀ x ∈ g, x ≠ "var") :
    ∀ pos, comboVars gs pos = (gs, []) := by
  induction gs with
  | nil => intro pos; rfl
  | cons g rest ih =>
    intro pos
    rw [comboVars]
    rw [show OptComboVar.from_tokens g = .ok g from
      fromTokensChecked_ok_of ["var"] g
        (fun t ht hmem => (h g (List.mem_cons_self g rest) t ht)
          (by simpa using hmem))]
    rw [ih (fun x hx => h x (List.mem_cons_of_mem g hx)) (pos + 1)]

theorem optbodyParse_fmt (b : OptBody) (h : optBodyRT b = true) :
    optbodyParse (optbodyFmt b) = (some b, []) := by
  cases b with
  | check v => cases v <;> rfl
  | button => rfl
  | string s => exact absurd h (by simp [optBodyRT])
  | spin d mn mx =>
    simp only [optBodyRT, intI64Wf, Bool.and_eq_true, decide_eq_true_eq] at h
    obtain ⟨⟨⟨hd1, hd2⟩, hmn1, hmn2⟩, hmx1, hmx2⟩ := h
    simp only [optbodyFmt, optbodyParse, optbodyParseCore, spinParse,
      parseI64_fmtInt d ⟨hd1, hd2⟩, parseI64_fmtInt mn ⟨hmn1, hmn2⟩,
      parseI64_fmtInt mx ⟨hmx1, hmx2⟩, if_true, if_false]
    rw [if_neg (show ¬("spin" = "check") by decide)]
    rfl
  | combo d vars =>
    simp only [optBodyRT, comboVarWf, Bool.and_eq_true, Bool.not_eq_true',
      List.all_eq_true] at h
    obtain ⟨⟨hdWf, hdVar⟩, hvars⟩ := h
    have hdv : ∀ x ∈ d, x ≠ "var" := not_contains_forall "var" d hdVar
    have hvv : ∀ v ∈ vars, ∀ x ∈ v, x ≠ "var" :=
      fun v hv => not_contains_forall "var" v (hvars v hv).2
    simp only [optbodyFmt, optbodyParse, optbodyParseCore, List.cons_append,
      List.append_assoc, List.nil_append, if_true, if_false]
    rw [if_neg (show ¬("combo" = "check") by decide),
      if_neg (show ¬("combo" = "spin") by decide)]
    rw [splitOnTok_fmt vars hvv d hdv]
    simp only [List.headD_cons, List.tail_cons]
    rw [show OptComboVar.from_tokens d = .ok d from
      fromTokensChecked_ok_of ["var"] d
        (fun t ht hmem => (hdv t ht) (by simpa using hmem))]
    simp only [comboVars_ok vars hvv 0]
    rfl

theorem messageParse_fmt (m : Message) (h : messageRT m = true) :
    ∃ w, messageParse (messageFmt m) = (some m, w) := by
  cases m with
  | id s =>
    cases s with
    | name toks =>
      refine ⟨[], ?_⟩
      simp only [messageFmt, List.cons_append, List.nil_append, List.append_eq,
        messageParse, messageParseLoop, if_true, if_false]
    | author toks =>
      refine ⟨[], ?_⟩
      simp only [messageFmt, List.cons_append, List.nil_append, List.append_eq,
        messageParse, messageParseLoop, if_true, if_false]
      rw [if_neg (show ¬("author" = "name") by decide)]
      rfl
  | uciok => exact ⟨[], rfl⟩
  | readyok => exact ⟨[], rfl⟩
  | bestmove bm po =>
    simp only [messageRT, Bool.and_eq_true] at h
    obtain ⟨hbm, hpo⟩ := h
    cases po with
    | none =>
      refine ⟨[], ?_⟩
      simp only [messageFmt, ponderTag, List.cons_append, List.nil_append,
        List.append_nil, List.append_eq, messageParse, messageParseLoop,
        parseUciMove_fmtUciMove bm hbm, Option.getD_some, if_true, if_false]
      rw [if_neg (show ¬("bestmove" = "id") by decide),
        if_neg (show ¬("bestmove" = "uciok") by decide),
        if_neg (show ¬("bestmove" = "readyok") by decide)]
      rfl
    | some p =>
      have hp : moveWf p = true := by simpa using hpo
      refine ⟨[], ?_⟩
      simp only [messageFmt, ponderTag, List.cons_append, List.nil_append,
        List.append_eq, messageParse, messageParseLoop,
        parseUciMove_fmtUciMove bm hbm, parseUciMove_fmtUciMove p hp,
        Option.getD_some, if_true, if_false]
      rw [if_neg (show ¬("bestmove" = "id") by decide),
        if_neg (show ¬("bestmove" = "uciok") by decide),
        if_neg (show ¬("bestmove" = "readyok") by decide)]
      rfl
  | copyprotection s =>
    refine ⟨[], ?_⟩
    cases s <;> rfl
  | registration s =>
    refine ⟨[], ?_⟩
    cases s <;> rfl
  | info items str =>
    simp only [messageRT, Bool.and_eq_true, List.all_eq_true] at h
    obtain ⟨w, hw⟩ := infoItems_fmt items h.1 str 0
    refine ⟨w, ?_⟩
    simp only [messageFmt, List.cons_append, List.append_eq, messageParse,
      messageParseLoop, if_true, if_false]
    rw [if_neg (show ¬("info" = "id") by decide),
      if_neg (show ¬("info" = "uciok") by decide),
      if_neg (show ¬("info" = "readyok") by decide),
      if_neg (show ¬("info" = "bestmove") by decide),
      if_neg (show ¬("info" = "copyprotection") by decide),
      if_neg (show ¬("info" = "registration") by decide)]
    rw [hw]
    simp only [List.append_nil]
  | option nm body =>
    simp only [messageRT, optNameWf, Bool.and_eq_true, Bool.not_eq_true'] at h
    obtain ⟨⟨⟨hWf, hTy⟩, hVal⟩, hBody⟩ := h
    have hnmTy : ∀ x ∈ nm, x ≠ "type" := not_contains_forall "type" nm hTy
    have hnmVal : ∀ x ∈ nm, x ≠ "value" := not_contains_forall "value" nm hVal
    refine ⟨[], ?_⟩
    simp only [messageFmt, List.cons_append, List.append_assoc, List.append_eq,
      List.nil_append, messageParse, messageParseLoop, if_true, if_false]
    rw [if_neg (show ¬("option" = "id") by decide),
      if_neg (show ¬("option" = "uciok") by decide),
      if_neg (show ¬("option" = "readyok") by decide),
      if_neg (show ¬("option" = "bestmove") by decide),
      if_neg (show ¬("option" = "copyprotection") by decide),
      if_neg (show ¬("option" = "registration") by decide),
      if_neg (show ¬("option" = "info") by decide)]
    rw [trySplit_append "type" nm (optbodyFmt body) hnmTy]
    rw [show OptName.from_tokens nm = .ok nm from
      fromTokensChecked_ok_of ["type", "value"] nm
        (fun t ht hmem => by
          have hor : t = "type" ∨ t = "value" := by simpa using hmem
          rcases hor with h1 | h1
          · exact hnmTy t ht h1
          · exact hnmVal t ht h1)]
    simp only [Option.isNone_some, Bool.false_eq_true, if_false, Option.getD_some,
      optbodyParse_fmt body hBody, List.map_nil, List.nil_append, List.append_nil]

theorem headNotMoveLike_goLimitsFmt (l : GoLimits) :
    headNotMoveLike (goLimitsFmt l) = true := by
  cases l with
  | infinite => rfl
  | clock wt bt wi bi mtg => rfl
  | mate v => rfl
  | limits d n mt =>
    by_cases hall : d = none ∧ n = none ∧ mt = none
    · rw [goLimitsFmt, if_pos hall]
      rfl
    · rw [goLimitsFmt, if_neg hall]
      cases d with
      | some v => rfl
      | none =>
        cases n with
        | some v => rfl
        | none =>
          cases mt with
          | some v => rfl
          | none => exact absurd ⟨rfl, rfl, rfl⟩ hall

theorem cmdGo_clock_run (sm : Option (List UciMove)) (po : Option Unit)
    (wt bt : Nat) (wio bio mtg : Option Nat)
    (hsm : (match sm with | none => true | some ms => movesWfNoNull ms) = true)
    (hwt : wt < 2 ^ 64) (hbt : bt < 2 ^ 64)
    (hwio : optNatLt (2 ^ 64) wio = true) (hbio : optNatLt (2 ^ 64) bio = true)
    (hmtg : (match mtg with
             | none => true
             | some v => decide (0 < v) && decide (v < 2 ^ 64)) = true) :
    cmdGoParseAux (searchTag sm ++ ((if po.isSome then ["ponder"] else []) ++
      ("wtime" :: fmtNat wt :: "btime" :: fmtNat bt ::
        (tagOpt "winc" wio ++ (tagOpt "binc" bio ++ tagOpt "movestogo" mtg)))))
      emptyGo =
      (⟨sm, po, none, some wt, some bt, wio, bio, mtg, none, none, none, none⟩,
        []) := by
  rw [cmdGoParseAux_searchmoves_opt sm hsm _
        (headNotMoveLike_flagBlock po.isSome "ponder" (by decide) _ (by rfl))
        emptyGo rfl rfl]
  show cmdGoParseAux _
    ⟨sm, none, none, none, none, none, none, none, none, none, none, none⟩ = _
  rw [cmdGoParseAux_ponder_opt po _
        ⟨sm, none, none, none, none, none, none, none, none, none, none, none⟩ rfl]
  show cmdGoParseAux _
    ⟨sm, po, none, none, none, none, none, none, none, none, none, none⟩ = _
  rw [cmdGoParseAux_wtime wt hwt _
        ⟨sm, po, none, none, none, none, none, none, none, none, none, none⟩ rfl]
  show cmdGoParseAux _
    ⟨sm, po, none, some wt, none, none, none, none, none, none, none, none⟩ = _
  rw [cmdGoParseAux_btime bt hbt _
        ⟨sm, po, none, some wt, none, none, none, none, none, none, none, none⟩ rfl]
  show cmdGoParseAux _
    ⟨sm, po, none, some wt, some bt, none, none, none, none, none, none, none⟩ = _
  rw [cmdGoParseAux_winc_opt wio hwio _
        ⟨sm, po, none, some wt, some bt, none, none, none, none, none, none, none⟩ rfl]
  show cmdGoParseAux _
    ⟨sm, po, none, some wt, some bt, wio, none, none, none, none, none, none⟩ = _
  rw [cmdGoParseAux_binc_opt bio hbio _
        ⟨sm, po, none, some wt, some bt, wio, none, none, none, none, none, none⟩ rfl]
  show cmdGoParseAux _
    ⟨sm, po, none, some wt, some bt, wio, bio, none, none, none, none, none⟩ = _
  rw [← List.append_nil (tagOpt "movestogo" mtg)]
  rw [cmdGoParseAux_movestogo_opt mtg hmtg []
        ⟨sm, po, none, some wt, some bt, wio, bio, none, none, none, none, none⟩ rfl]
  rfl

theorem parseGo_eval (toks : List String) (g' : Go) (L : GoLimits)
    (hrun : cmdGoParseAux toks emptyGo = (g', []))
    (hfin : parseGoFinish g' = (L, [])) :
    parseGo toks = (.go g'.searchmoves g'.ponder L, []) := by
  simp only [parseGo, hrun, hfin, List.nil_append]

theorem parseGo_fmt (sm : Option (List UciMove)) (po : Option Unit) (l : GoLimits)
    (hsm : (match sm with | none => true | some ms => movesWfNoNull ms) = true)
    (hl : goLimitsRT l = true) :
    parseGo (searchTag sm ++ (if po.isSome then ["ponder"] else []) ++ goLimitsFmt l) =
      (.go sm po l, []) := by
  cases l with
  | infinite =>
    have h1 : cmdGoParseAux
        (searchTag sm ++ ((if po.isSome then ["ponder"] else []) ++ ["infinite"]))
        emptyGo =
        (⟨sm, po, some (), none, none, none, none, none, none, none, none, none⟩,
          []) := by
      rw [cmdGoParseAux_searchmoves_opt sm hsm _
            (headNotMoveLike_flagBlock po.isSome "ponder" (by decide) _ (by decide))
            emptyGo rfl rfl]
      show cmdGoParseAux _
        ⟨sm, none, none, none, none, none, none, none, none, none, none, none⟩ = _
      rw [cmdGoParseAux_ponder_opt po _
            ⟨sm, none, none, none, none, none, none, none, none, none, none, none⟩ rfl]
      show cmdGoParseAux _
        ⟨sm, po, none, none, none, none, none, none, none, none, none, none⟩ = _
      rw [cmdGoParseAux_infinite _
            ⟨sm, po, none, none, none, none, none, none, none, none, none, none⟩ rfl]
      rfl
    simp only [goLimitsFmt, List.append_assoc]
    exact parseGo_eval _ _ _ h1 rfl
  | mate v =>
    simp only [goLimitsRT, decide_eq_true_eq] at hl
    have h1 : cmdGoParseAux
        (searchTag sm ++ ((if po.isSome then ["ponder"] else []) ++
          ("mate" :: fmtNat v :: []))) emptyGo =
        (⟨sm, po, none, none, none, none, none, none, some v, none, none, none⟩,
          []) := by
      rw [cmdGoParseAux_searchmoves_opt sm hsm _
            (headNotMoveLike_flagBlock po.isSome "ponder" (by decide) _ (by rfl))
            emptyGo rfl rfl]
      show cmdGoParseAux _
        ⟨sm, none, none, none, none, none, none, none, none, none, none, none⟩ = _
      rw [cmdGoParseAux_ponder_opt po _
            ⟨sm, none, none, none, none, none, none, none, none, none, none, none⟩ rfl]
      show cmdGoParseAux _
        ⟨sm, po, none, none, none, none, none, none, none, none, none, none⟩ = _
      rw [cmdGoParseAux_mate v hl _
            ⟨sm, po, none, none, none, none, none, none, none, none, none, none⟩ rfl]
      rfl
    simp only [goLimitsFmt, List.append_assoc, List.cons_append]
    exact parseGo_eval _ _ _ h1 rfl
  | limits d n mt =>
    simp only [goLimitsRT, Bool.and_eq_true, Bool.not_eq_true'] at hl
    obtain ⟨⟨⟨hne, hd⟩, hn⟩, hmt⟩ := hl
    have hall : ¬(d = none ∧ n = none ∧ mt = none) := by
      rintro ⟨rfl, rfl, rfl⟩
      simp at hne
    have h1 : cmdGoParseAux
        (searchTag sm ++ ((if po.isSome then ["ponder"] else []) ++
          (tagOpt "depth" d ++ (tagOpt "nodes" n ++ tagOpt "movetime" mt))))
        emptyGo =
        (⟨sm, po, none, none, none, none, none, none, none, d, n, mt⟩, []) := by
      rw [cmdGoParseAux_searchmoves_opt sm hsm _
            (headNotMoveLike_flagBlock po.isSome "ponder" (by decide) _
              (headNotMoveLike_tagOpt "depth" d (by decide) _
                (headNotMoveLike_tagOpt "nodes" n (by decide) _
                  (headNotMoveLike_tagOpt_nil "movetime" mt (by decide)))))
            emptyGo rfl rfl]
      show cmdGoParseAux _
        ⟨sm, none, none, none, none, none, none, none, none, none, none, none⟩ = _
      rw [cmdGoParseAux_ponder_opt po _
            ⟨sm, none, none, none, none, none, none, none, none, none, none, none⟩ rfl]
      show cmdGoParseAux _
        ⟨sm, po, none, none, none, none, none, none, none, none, none, none⟩ = _
      rw [cmdGoParseAux_depth_opt d hd _
            ⟨sm, po, none, none, none, none, none, none, none, none, none, none⟩ rfl]
      show cmdGoParseAux _
        ⟨sm, po, none, none, none, none, none, none, none, d, none, none⟩ = _
      rw [cmdGoParseAux_nodes_opt n hn _
            ⟨sm, po, none, none, none, none, none, none, none, d, none, none⟩ rfl]
      show cmdGoParseAux _
        ⟨sm, po, none, none, none, none, none, none, none, d, n, none⟩ = _
      rw [← List.append_nil (tagOpt "movetime" mt)]
      rw [cmdGoParseAux_movetime_opt mt hmt []
            ⟨sm, po, none, none, none, none, none, none, none, d, n, none⟩ rfl]
      rfl
    have hor : d.isSome = true ∨ n.isSome = true ∨ mt.isSome = true := by
      cases d <;> cases n <;> cases mt <;> simp_all
    have hfin : parseGoFinish
        ⟨sm, po, none, none, none, none, none, none, none, d, n, mt⟩ =
        (GoLimits.limits d n mt, []) := by
      simp only [parseGoFinish, Option.isSome_none, Bool.false_eq_true, if_false,
        false_and]
      rw [if_pos hor]
      simp
    simp only [goLimitsFmt, if_neg hall, List.append_assoc, List.nil_append]
    exact parseGo_eval _ _ _ h1 hfin
  | clock wt bt wi bi mtg =>
    simp only [goLimitsRT, Bool.and_eq_true, decide_eq_true_eq] at hl
    obtain ⟨⟨⟨⟨hwt, hbt⟩, hwi⟩, hbi⟩, hmtg⟩ := hl
    have hconv_w : (if wi ≠ 0 then ["winc", fmtNat wi] else []) =
        tagOpt "winc" (if wi = 0 then none else some wi) := by
      by_cases hz : wi = 0 <;> simp [hz, tagOpt]
    have hconv_b : (if bi ≠ 0 then ["binc", fmtNat bi] else []) =
        tagOpt "binc" (if bi = 0 then none else some bi) := by
      by_cases hz : bi = 0 <;> simp [hz, tagOpt]
    have hwio : optNatLt (2 ^ 64) (if wi = 0 then none else some wi) = true := by
      by_cases hz : wi = 0
      · simp [hz, optNatLt]
      · simp only [hz, optNatLt, if_false, decide_eq_true_eq]
        omega
    have hbio : optNatLt (2 ^ 64) (if bi = 0 then none else some bi) = true := by
      by_cases hz : bi = 0
      · simp [hz, optNatLt]
      · simp only [hz, optNatLt, if_false, decide_eq_true_eq]
        omega
    have hrun := cmdGo_clock_run sm po wt bt (if wi = 0 then none else some wi)
      (if bi = 0 then none else some bi) mtg hsm hwt hbt hwio hbio hmtg
    have hfin : parseGoFinish
        ⟨sm, po, none, some wt, some bt, (if wi = 0 then none else some wi),
          (if bi = 0 then none else some bi), mtg, none, none, none, none⟩ =
        (GoLimits.clock wt bt ((if wi = 0 then none else some wi).getD 0)
          ((if bi = 0 then none else some bi).getD 0) mtg, []) := rfl
    have hres := parseGo_eval _ _ _ hrun hfin
    have hgw : (if wi = 0 then none else some wi).getD 0 = wi := by
      by_cases hz : wi = 0 <;> simp [hz]
    have hgb : (if bi = 0 then none else some bi).getD 0 = bi := by
      by_cases hz : bi = 0 <;> simp [hz]
    rw [hgw, hgb] at hres
    simp only [goLimitsFmt, List.append_assoc, List.cons_append]
    rw [hconv_w, hconv_b]
    exact hres

theorem commandParse_fmt (c : Command) (h : commandRT c = true) :
    commandParse (commandFmt c) = (some c, []) := by
  cases c with
  | uci => rfl
  | isready => rfl
  | ucinewgame => rfl
  | stop => rfl
  | ponderhit => rfl
  | quit => rfl
  | debug v => cases v <;> rfl
  | setoption nm val =>
    simp only [commandRT, optNameWf, Bool.and_eq_true, Bool.not_eq_true'] at h
    obtain ⟨⟨⟨hWf, hTy⟩, hVal⟩, hv⟩ := h
    have hnmVal : ∀ x ∈ nm, x ≠ "value" := not_contains_forall "value" nm hVal
    have hnmTy : ∀ x ∈ nm, x ≠ "type" := not_contains_forall "type" nm hTy
    have hok : OptName.from_tokens nm = .ok nm :=
      fromTokensChecked_ok_of ["type", "value"] nm
        (fun t ht hmem => by
          have hor : t = "type" ∨ t = "value" := by simpa using hmem
          rcases hor with h1 | h1
          · exact hnmTy t ht h1
          · exact hnmVal t ht h1)
    cases val with
    | none =>
      simp only [commandFmt, valueTag, List.cons_append, List.append_assoc,
        List.append_eq, List.nil_append, List.append_nil, commandParse,
        commandParseLoop, if_true, if_false]
      rw [if_neg (show ¬("setoption" = "uci") by decide),
        if_neg (show ¬("setoption" = "debug") by decide),
        if_neg (show ¬("setoption" = "isready") by decide)]
      rw [trySplit_no_kw "value" nm hnmVal, hok]
      rfl
    | some v =>
      simp only [commandFmt, valueTag, List.cons_append, List.append_assoc,
        List.append_eq, List.nil_append, commandParse, commandParseLoop,
        if_true, if_false]
      rw [if_neg (show ¬("setoption" = "uci") by decide),
        if_neg (show ¬("setoption" = "debug") by decide),
        if_neg (show ¬("setoption" = "isready") by decide)]
      rw [trySplit_append "value" nm v hnmVal, hok]
      rfl
  | register r =>
    cases r with
    | later => rfl
    | now nm code =>
      simp only [commandRT, registerNameWf, Bool.and_eq_true, Bool.not_eq_true'] at h
      obtain ⟨⟨hWf, hCode⟩, hcodeWf⟩ := h
      have hnm : ∀ x ∈ nm, x ≠ "code" := not_contains_forall "code" nm hCode
      simp only [commandFmt, List.cons_append, List.append_assoc, List.append_eq,
        List.nil_append, commandParse, commandParseLoop, if_true, if_false]
      rw [if_neg (show ¬("register" = "uci") by decide),
        if_neg (show ¬("register" = "debug") by decide),
        if_neg (show ¬("register" = "isready") by decide),
        if_neg (show ¬("register" = "setoption") by decide)]
      rw [if_neg (show ¬("name" = "later") by decide)]
      rw [trySplit_append "code" nm code hnm]
      rw [show RegisterName.from_tokens nm = .ok nm from
        fromTokensChecked_ok_of ["code"] nm
          (fun t ht hmem => (hnm t ht) (by simpa using hmem))]
      simp only [Option.isNone_some, Bool.false_eq_true, if_false,
        Option.getD_some, List.nil_append, List.append_nil]
  | position b ms =>
    simp only [commandRT, Bool.and_eq_true, List.all_eq_true] at h
    obtain ⟨hfen, hms⟩ := h
    have hfen' := hfen
    rw [fenWf, Bool.and_eq_true, Bool.and_eq_true] at hfen'
    obtain ⟨⟨hne, hWf0⟩, hNoMoves⟩ := hfen'
    have hWf : toksWf b.fen = true := hWf0
    have hmoves : ∀ x ∈ b.fen, x ≠ "moves" :=
      not_contains_forall "moves" b.fen (by simpa using hNoMoves)
    have hparse := parseMovesAll_fmt ms hms 0
    by_cases hb : b = RawBoard.initial
    · subst hb
      simp only [commandFmt, if_pos rfl, List.cons_append, List.append_eq,
        List.nil_append, commandParse, commandParseLoop, if_true, if_false]
      rw [if_neg (show ¬("position" = "uci") by decide),
        if_neg (show ¬("position" = "debug") by decide),
        if_neg (show ¬("position" = "isready") by decide),
        if_neg (show ¬("position" = "setoption") by decide),
        if_neg (show ¬("position" = "register") by decide),
        if_neg (show ¬("position" = "ucinewgame") by decide)]
      rw [show trySplit ("startpos" :: "moves" :: movevecFmt ms) "moves" =
          (["startpos"], some (movevecFmt ms)) by
        rw [trySplit, if_neg (by decide), trySplit, if_pos rfl]]
      simp only [Option.isNone_some, Bool.false_eq_true, if_false, Option.getD_some,
        posMoves, hparse, List.nil_append, List.append_nil]
      rfl
    · simp only [commandFmt, if_neg hb, List.cons_append, List.append_eq,
        List.nil_append, commandParse, commandParseLoop, if_true, if_false]
      rw [if_neg (show ¬("position" = "uci") by decide),
        if_neg (show ¬("position" = "debug") by decide),
        if_neg (show ¬("position" = "isready") by decide),
        if_neg (show ¬("position" = "setoption") by decide),
        if_neg (show ¬("position" = "register") by decide),
        if_neg (show ¬("position" = "ucinewgame") by decide)]
      rw [show trySplit ("fen" :: (b.fen ++ "moves" :: movevecFmt ms)) "moves" =
          ("fen" :: b.fen, some (movevecFmt ms)) by
        rw [trySplit, if_neg (by decide),
          trySplit_append "moves" b.fen (movevecFmt ms) hmoves]]
      dsimp only
      rw [if_neg (show ¬("fen" = "startpos") by decide)]
      rw [show RawBoard.from_fen (joinToks b.fen) = some b by
        rw [RawBoard.from_fen, tokenize_joinToks b.fen hWf]
        rw [if_pos (show fenWf ⟨b.fen⟩ = true from hfen)]]
      simp only [Option.isNone_some, Bool.false_eq_true, if_false, Option.getD_some,
        posMoves, hparse, List.nil_append, List.append_nil]
      rfl
  | go sm po limits =>
    simp only [commandRT, Bool.and_eq_true] at h
    obtain ⟨hsm, hlim⟩ := h
    simp only [commandFmt, List.cons_append, List.append_eq, commandParse,
      commandParseLoop, if_true, if_false]
    rw [if_neg (show ¬("go" = "uci") by decide),
      if_neg (show ¬("go" = "debug") by decide),
      if_neg (show ¬("go" = "isready") by decide),
      if_neg (show ¬("go" = "setoption") by decide),
      if_neg (show ¬("go" = "register") by decide),
      if_neg (show ¬("go" = "ucinewgame") by decide),
      if_neg (show ¬("go" = "position") by decide)]
    rw [parseGo_fmt sm po limits hsm (by simpa using hlim)]
    rfl

theorem toksWf_nil : toksWf [] = true := rfl

theorem toksWf_cons (t : String) (ts : List String) (h1 : tokWf t = true)
    (h2 : toksWf ts = true) : toksWf (t :: ts) = true := by
  rw [toksWf, List.all_cons, h1, Bool.true_and]
  exact h2

theorem toksWf_append' (A B : List String) (h1 : toksWf A = true)
    (h2 : toksWf B = true) : toksWf (A ++ B) = true := by
  rw [toksWf, List.all_append]
  rw [toksWf] at h1 h2
  rw [h1, h2]
  rfl

theorem toksWf_movevecFmt (ms : List UciMove) (h : ∀ m ∈ ms, moveWf m = true) :
    toksWf (movevecFmt ms) = true := by
  rw [movevecFmt, toksWf, List.all_eq_true]
  intro x hx
  obtain ⟨m, hm, rfl⟩ := List.mem_map.mp hx
  exact fmtUciMove_tokWf m (h m hm)

theorem toksWf_tagOpt (kw : String) (o : Option Nat) (hkw : tokWf kw = true) :
    toksWf (tagOpt kw o) = true := by
  cases o with
  | none => rfl
  | some v => exact toksWf_cons _ _ hkw (toksWf_cons _ _ (fmtNat_tokWf v) rfl)

theorem toksWf_scoreFmt (s : BoundedRelScore) : toksWf (scoreFmt s) = true := by
  obtain ⟨sc, bd⟩ := s
  have hunb : toksWf (scoreFmtUnbounded sc) = true := by
    cases sc with
    | cp v => exact toksWf_cons _ _ (by decide) (toksWf_cons _ _ (fmtInt_tokWf _) rfl)
    | mate m win =>
      exact toksWf_cons _ _ (by decide) (toksWf_cons _ _ (fmtInt_tokWf _) rfl)
  cases bd with
  | exact =>
    show toksWf (scoreFmtUnbounded sc ++ []) = true
    exact toksWf_append' _ _ hunb rfl
  | lower =>
    show toksWf (scoreFmtUnbounded sc ++ ["lowerbound"]) = true
    exact toksWf_append' _ _ hunb (by decide)
  | upper =>
    show toksWf (scoreFmtUnbounded sc ++ ["upperbound"]) = true
    exact toksWf_append' _ _ hunb (by decide)

theorem toksWf_infoFmt (i : Info) (h : infoRT i = true) :
    toksWf (infoFmt i) = true := by
  cases i with
  | depth n =>
    exact toksWf_cons _ _ (by decide) (toksWf_cons _ _ (fmtNat_tokWf n) rfl)
  | seldepth n =>
    exact toksWf_cons _ _ (by decide) (toksWf_cons _ _ (fmtNat_tokWf n) rfl)
  | time n =>
    exact toksWf_cons _ _ (by decide) (toksWf_cons _ _ (fmtNat_tokWf n) rfl)
  | nodes n =>
    exact toksWf_cons _ _ (by decide) (toksWf_cons _ _ (fmtNat_tokWf n) rfl)
  | multipv n =>
    exact toksWf_cons _ _ (by decide) (toksWf_cons _ _ (fmtNat_tokWf n) rfl)
  | currmovenumber n =>
    exact toksWf_cons _ _ (by decide) (toksWf_cons _ _ (fmtNat_tokWf n) rfl)
  | nps n =>
    exact toksWf_cons _ _ (by decide) (toksWf_cons _ _ (fmtNat_tokWf n) rfl)
  | tbhits n =>
    exact toksWf_cons _ _ (by decide) (toksWf_cons _ _ (fmtNat_tokWf n) rfl)
  | sbhits n =>
    exact toksWf_cons _ _ (by decide) (toksWf_cons _ _ (fmtNat_tokWf n) rfl)
  | pv ms =>
    simp only [infoRT] at h
    exact toksWf_cons _ _ (by decide)
      (toksWf_movevecFmt ms (fun m hm => (movesWfNoNull_forall h m hm).1))
  | refutation ms =>
    simp only [infoRT] at h
    exact toksWf_cons _ _ (by decide)
      (toksWf_movevecFmt ms (fun m hm => (movesWfNoNull_forall h m hm).1))
  | score s =>
    exact toksWf_cons _ _ (by decide) (toksWf_scoreFmt s)
  | currmove m =>
    simp only [infoRT] at h
    exact toksWf_cons _ _ (by decide) (toksWf_cons _ _ (fmtUciMove_tokWf m h) rfl)
  | hashfull p =>
    exact toksWf_cons _ _ (by decide) (toksWf_cons _ _ (fmtNat_tokWf _) rfl)
  | cpuload p =>
    exact toksWf_cons _ _ (by decide) (toksWf_cons _ _ (fmtNat_tokWf _) rfl)
  | currline cpu ms =>
    simp only [infoRT, Bool.and_eq_true] at h
    exact toksWf_cons _ _ (by decide) (toksWf_cons _ _ (fmtNat_tokWf cpu)
      (toksWf_movevecFmt ms (fun m hm => (movesWfNoNull_forall h.2 m hm).1)))

theorem toksWf_infoFold (items : List Info) (h : ∀ i ∈ items, infoRT i = true) :
    toksWf (items.foldr (fun i acc => infoFmt i ++ acc) []) = true := by
  induction items with
  | nil => rfl
  | cons i is ih =>
    rw [List.foldr_cons]
    exact toksWf_append' _ _ (toksWf_infoFmt i (h i (List.mem_cons_self i is)))
      (ih (fun x hx => h x (List.mem_cons_of_mem i hx)))

theorem toksWf_optbodyFmt (b : OptBody) (h : optBodyRT b = true) :
    toksWf (optbodyFmt b) = true := by
  cases b with
  | check v => cases v <;> decide
  | button => decide
  | string s => exact absurd h (by simp [optBodyRT])
  | spin d mn mx =>
    refine toksWf_cons _ _ (by decide) (toksWf_cons _ _ (by decide)
      (toksWf_cons _ _ (fmtInt_tokWf d) (toksWf_cons _ _ (by decide)
        (toksWf_cons _ _ (fmtInt_tokWf mn) (toksWf_cons _ _ (by decide)
          (toksWf_cons _ _ (fmtInt_tokWf mx) rfl))))))
  | combo d vars =>
    simp only [optBodyRT, comboVarWf, Bool.and_eq_true, List.all_eq_true] at h
    obtain ⟨⟨hdWf, _⟩, hvars⟩ := h
    refine toksWf_cons _ _ (by decide) (toksWf_cons _ _ (by decide)
      (toksWf_append' _ _ hdWf ?_))
    induction vars with
    | nil => rfl
    | cons v vs ih =>
      simp only [List.foldr_cons]
      refine toksWf_cons _ _ (by decide) (toksWf_append' _ _ ?_ ?_)
      · exact (hvars v (List.mem_cons_self v vs)).1
      · exact ih (fun x hx => hvars x (List.mem_cons_of_mem v hx))

theorem toksWf_goLimitsFmt (l : GoLimits) (h : goLimitsRT l = true) :
    toksWf (goLimitsFmt l) = true := by
  cases l with
  | infinite => decide
  | mate v => exact toksWf_cons _ _ (by decide) (toksWf_cons _ _ (fmtNat_tokWf v) rfl)
  | clock wt bt wi bi mtg =>
    refine toksWf_append' _ _ (toksWf_append' _ _ (toksWf_append' _ _
      (toksWf_cons _ _ (by decide) (toksWf_cons _ _ (fmtNat_tokWf wt)
        (toksWf_cons _ _ (by decide) (toksWf_cons _ _ (fmtNat_tokWf bt) rfl)))) ?_) ?_)
      (toksWf_tagOpt _ mtg (by decide))
    · by_cases hz : wi = 0
      · rw [if_neg (show ¬(wi ≠ 0) from fun hh => hh hz)]
        rfl
      · rw [if_pos hz]
        exact toksWf_cons _ _ (by decide) (toksWf_cons _ _ (fmtNat_tokWf wi) rfl)
    · by_cases hz : bi = 0
      · rw [if_neg (show ¬(bi ≠ 0) from fun hh => hh hz)]
        rfl
      · rw [if_pos hz]
        exact toksWf_cons _ _ (by decide) (toksWf_cons _ _ (fmtNat_tokWf bi) rfl)
  | limits d n mt =>
    refine toksWf_append' _ _ (toksWf_append' _ _ (toksWf_append' _ _ ?_
      (toksWf_tagOpt _ d (by decide))) (toksWf_tagOpt _ n (by decide)))
      (toksWf_tagOpt _ mt (by decide))
    by_cases hall : d = none ∧ n = none ∧ mt = none
    · rw [if_pos hall]
      decide
    · rw [if_neg hall]
      rfl

theorem commandFmt_toksWf (c : Command) (h : commandRT c = true) :
    toksWf (commandFmt c) = true := by
  cases c with
  | uci => decide
  | isready => decide
  | ucinewgame => decide
  | stop => decide
  | ponderhit => decide
  | quit => decide
  | debug v => cases v <;> decide
  | setoption nm val =>
    simp only [commandRT, optNameWf, Bool.and_eq_true] at h
    obtain ⟨⟨⟨hWf, _⟩, _⟩, hv⟩ := h
    refine toksWf_cons _ _ (by decide) (toksWf_cons _ _ (by decide)
      (toksWf_append' _ _ hWf ?_))
    cases val with
    | none => rfl
    | some v => exact toksWf_cons _ _ (by decide) (by simpa using hv)
  | register r =>
    cases r with
    | later => decide
    | now nm code =>
      simp only [commandRT, registerNameWf, Bool.and_eq_true] at h
      obtain ⟨⟨hWf, _⟩, hcode⟩ := h
      exact toksWf_cons _ _ (by decide) (toksWf_cons _ _ (by decide)
        (toksWf_append' _ _ hWf (toksWf_cons _ _ (by decide) hcode)))
  | position b ms =>
    simp only [commandRT, Bool.and_eq_true, List.all_eq_true] at h
    obtain ⟨hfen, hms⟩ := h
    rw [fenWf, Bool.and_eq_true, Bool.and_eq_true] at hfen
    refine toksWf_cons _ _ (by decide) (toksWf_append' _ _ ?_
      (toksWf_cons _ _ (by decide) (toksWf_movevecFmt ms hms)))
    by_cases hb : b = RawBoard.initial
    · rw [if_pos hb]
      decide
    · rw [if_neg hb]
      exact toksWf_cons _ _ (by decide) hfen.1.2
  | go sm po limits =>
    simp only [commandRT, Bool.and_eq_true] at h
    obtain ⟨hsm, hlim⟩ := h
    refine toksWf_cons _ _ (by decide) (toksWf_append' _ _ (toksWf_append' _ _ ?_ ?_)
      (toksWf_goLimitsFmt limits (by simpa using hlim)))
    · cases sm with
      | none => rfl
      | some ms =>
        simp only at hsm
        exact toksWf_cons _ _ (by decide)
          (toksWf_movevecFmt ms (fun m hm => (movesWfNoNull_forall hsm m hm).1))
    · cases po with
      | none => rfl
      | some u => rfl

theorem messageFmt_toksWf (m : Message) (h : messageRT m = true) :
    toksWf (messageFmt m) = true := by
  cases m with
  | id s =>
    cases s with
    | name toks =>
      simp only [messageRT] at h
      exact toksWf_cons _ _ (by decide) (toksWf_cons _ _ (by decide) h)
    | author toks =>
      simp only [messageRT] at h
      exact toksWf_cons _ _ (by decide) (toksWf_cons _ _ (by decide) h)
  | uciok => decide
  | readyok => decide
  | bestmove bm po =>
    simp only [messageRT, Bool.and_eq_true] at h
    obtain ⟨hbm, hpo⟩ := h
    refine toksWf_append' _ _
      (toksWf_cons _ _ (by decide) (toksWf_cons _ _ (fmtUciMove_tokWf bm hbm) rfl)) ?_
    cases po with
    | none => rfl
    | some p =>
      exact toksWf_cons _ _ (by decide)
        (toksWf_cons _ _ (fmtUciMove_tokWf p (by simpa using hpo)) rfl)
  | copyprotection s => cases s <;> decide
  | registration s => cases s <;> decide
  | info items str =>
    simp only [messageRT, Bool.and_eq_true, List.all_eq_true] at h
    obtain ⟨hitems, hstr⟩ := h
    refine toksWf_cons _ _ (by decide)
      (toksWf_append' _ _ (toksWf_infoFold items hitems) ?_)
    cases str with
    | none => rfl
    | some s => exact toksWf_cons _ _ (by decide) (by simpa using hstr)
  | option nm body =>
    simp only [messageRT, optNameWf, Bool.and_eq_true] at h
    obtain ⟨⟨⟨hWf, _⟩, _⟩, hBody⟩ := h
    exact toksWf_cons _ _ (by decide) (toksWf_cons _ _ (by decide)
      (toksWf_append' _ _ hWf (toksWf_cons _ _ (by decide)
        (toksWf_optbodyFmt body hBody))))


theorem contains_eq_true_iff (A : List String) (x : String) :
    A.contains x = true ↔ x ∈ A := by
  induction A with
  | nil => simp
  | cons t ts ih =>
    rw [List.contains_cons]
    simp only [Bool.or_eq_true, beq_iff_eq, ih, List.mem_cons]

theorem findBadToken_some_mem (bad A : List String) (b : String)
    (h : findBadToken bad A = some b) : b ∈ A ∧ b ∈ bad := by
  induction A with
  | nil => simp [findBadToken] at h
  | cons t ts ih =>
    rw [findBadToken] at h
    cases hf : bad.find? (fun x => x = t) with
    | some b' =>
      rw [hf] at h
      simp only [Option.some.injEq] at h
      subst h
      have h1 := List.find?_some hf
      have h2 : b' ∈ bad := List.mem_of_find?_eq_some hf
      simp only [decide_eq_true_eq] at h1
      subst h1
      exact ⟨List.mem_cons_self _ ts, h2⟩
    | none =>
      rw [hf] at h
      obtain ⟨h1, h2⟩ := ih h
      exact ⟨List.mem_cons_of_mem t h1, h2⟩

theorem fromTokensChecked_none_iff (bad A : List String) :
    (∃ e, fromTokensChecked bad A = .error e) ↔ ∃ t ∈ A, t ∈ bad := by
  rw [fromTokensChecked]
  cases hb : findBadToken bad A with
  | none =>
    simp only []
    constructor
    · rintro ⟨e, he⟩
      exact absurd he (by simp)
    · rintro ⟨t, ht, htb⟩
      exact absurd htb ((findBadToken_eq_none_iff bad A).mp hb t ht)
  | some b =>
    simp only []
    constructor
    · rintro _
      obtain ⟨hbA, hbbad⟩ := findBadToken_some_mem bad A b hb
      exact ⟨b, hbA, hbbad⟩
    · intro _
      exact ⟨.badToken b, rfl⟩

theorem trySplit_fst_forall (kw : String) (A : List String) :
    ∀ x ∈ (trySplit A kw).1, x ≠ kw := by
  induction A with
  | nil =>
    intro x hx
    simp [trySplit] at hx
  | cons t ts ih =>
    intro x hx
    rw [trySplit] at hx
    by_cases h : t = kw
    · rw [if_pos h] at hx
      simp at hx
    · rw [if_neg h] at hx
      dsimp only at hx
      rcases List.mem_cons.mp hx with h1 | hmem
      · subst h1
        exact h
      · exact ih x hmem

theorem splitOnTok_headD_forall (kw : String) (A : List String) :
    ∀ x ∈ (splitOnTok kw A).headD [], x ≠ kw := by
  induction A with
  | nil =>
    intro x hx
    simp [splitOnTok] at hx
  | cons t ts ih =>
    intro x hx
    rw [splitOnTok] at hx
    by_cases h : t = kw
    · rw [if_pos h] at hx
      simp at hx
    · rw [if_neg h] at hx
      cases hs : splitOnTok kw ts with
      | nil =>
        rw [hs] at hx
        simp only [List.headD_cons, List.mem_singleton] at hx
        subst hx
        exact h
      | cons g gs =>
        rw [hs] at hx
        simp only [List.headD_cons] at hx
        rcases List.mem_cons.mp hx with h1 | hmem
        · subst h1
          exact h
        · refine ih x ?_
          rw [hs]
          simpa using hmem

theorem parseMovesAll_ok_of (toks : List String) (h : movesFatal toks = false) :
    ∀ pos, ∃ ms, parseMovesAll toks pos = .ok ms := by
  induction toks with
  | nil => intro pos; exact ⟨[], rfl⟩
  | cons t ts ih =>
    intro pos
    cases hpt : parseUciMove t with
    | none =>
      rw [movesFatal, List.any_cons, hpt] at h
      simp at h
    | some m =>
      have hts : movesFatal ts = false := by
        rw [movesFatal, List.any_cons, hpt] at h
        simpa [movesFatal] using h
      obtain ⟨ms, hms⟩ := ih hts (pos + 1)
      refine ⟨m :: ms, ?_⟩
      rw [parseMovesAll, hpt, hms]
      rfl

theorem parseMovesAll_error_of (toks : List String) (h : movesFatal toks = true) :
    ∀ pos, ∃ e, parseMovesAll toks pos = .error e := by
  induction toks with
  | nil => intro pos; simp [movesFatal] at h
  | cons t ts ih =>
    intro pos
    cases hpt : parseUciMove t with
    | none =>
      refine ⟨(pos, t), ?_⟩
      rw [parseMovesAll, hpt]
    | some m =>
      have hts : movesFatal ts = true := by
        rw [movesFatal, List.any_cons, hpt] at h
        simpa [movesFatal] using h
      obtain ⟨e, he⟩ := ih hts (pos + 1)
      refine ⟨e, ?_⟩
      rw [parseMovesAll, hpt, he]
      rfl

theorem triStatusParse_none_iff (ts : List String) :
    (triStatusParse ts).1 = none ↔ triStatusFatal ts = true := by
  cases ts with
  | nil => simp [triStatusParse, triStatusFatal]
  | cons t r =>
    rw [triStatusParse, triStatusFatal]
    by_cases h1 : t = "ok"
    · rw [if_pos h1]
      simp [h1]
    rw [if_neg h1]
    by_cases h2 : t = "checking"
    · rw [if_pos h2]
      simp [h2]
    rw [if_neg h2]
    by_cases h3 : t = "error"
    · rw [if_pos h3]
      simp [h3]
    · rw [if_neg h3]
      simp [h1, h2, h3]

theorem spinParse_none_iff (ts : List String) :
    (spinParse ts).1 = none ↔ spinFatal ts = true := by
  cases ts with
  | nil => simp [spinParse, spinFatal]
  | cons d rest =>
    simp only [spinParse, spinFatal]
    by_cases hd : d = "default"
    case neg =>
      rw [if_neg hd, if_neg hd]
      simp
    rw [if_pos hd, if_pos hd]
    cases rest with
    | nil => simp
    | cons v1 r1 =>
      cases hp1 : parseI64 v1 with
      | none => simp [hp1]
      | some dv =>
        simp only [hp1, Option.isNone_some, Bool.false_eq_true, if_false]
        cases r1 with
        | nil => simp
        | cons m r2 =>
          dsimp only
          by_cases hm : m = "min"
          case neg =>
            rw [if_neg hm, if_neg hm]
            simp
          rw [if_pos hm, if_pos hm]
          cases r2 with
          | nil => simp
          | cons v2 r3 =>
            cases hp2 : parseI64 v2 with
            | none => simp [hp2]
            | some mn =>
              simp only [hp2, Option.isNone_some, Bool.false_eq_true, if_false]
              cases r3 with
              | nil => simp
              | cons x r4 =>
                dsimp only
                by_cases hx : x = "max"
                case neg =>
                  rw [if_neg hx, if_neg hx]
                  simp
                rw [if_pos hx, if_pos hx]
                cases r4 with
                | nil => simp
                | cons v3 r5 =>
                  cases hp3 : parseI64 v3 with
                  | none => simp [hp3]
                  | some mx => simp [hp3]

theorem optbodyParse_none_iff (ts : List String) :
    (optbodyParse ts).1 = none ↔ optbodyFatal ts = true := by
  have hcore : (optbodyParse ts).1 = (optbodyParseCore ts).1 := rfl
  rw [hcore]
  cases ts with
  | nil => simp [optbodyParseCore, optbodyFatal]
  | cons t ts' =>
    simp only [optbodyParseCore, optbodyFatal]
    by_cases h1 : t = "check"
    · rw [if_pos h1, if_pos h1]
      cases ts' with
      | nil => simp
      | cons d rest =>
        dsimp only
        by_cases hd : d = "default"
        case neg =>
          rw [if_neg hd, if_neg hd]
          simp
        rw [if_pos hd, if_pos hd]
        cases rest with
        | nil => simp
        | cons v r2 =>
          dsimp only
          by_cases hv1 : v = "true"
          · rw [if_pos hv1]
            simp [hv1]
          rw [if_neg hv1]
          by_cases hv2 : v = "false"
          · rw [if_pos hv2]
            simp [hv2]
          · rw [if_neg hv2]
            simp [hv1, hv2]
    rw [if_neg h1, if_neg h1]
    by_cases h2 : t = "spin"
    · rw [if_pos h2, if_pos h2]
      exact spinParse_none_iff ts'
    rw [if_neg h2, if_neg h2]
    by_cases h3 : t = "combo"
    · rw [if_pos h3, if_pos h3]
      cases ts' with
      | nil => simp
      | cons d rest =>
        dsimp only
        by_cases hd : d = "default"
        case neg =>
          rw [if_neg hd]
          simp [hd]
        rw [if_pos hd]
        rw [show OptComboVar.from_tokens ((splitOnTok "var" rest).headD []) =
            .ok ((splitOnTok "var" rest).headD []) from
          fromTokensChecked_ok_of ["var"] _
            (fun x hx hmem =>
              (splitOnTok_headD_forall "var" rest x hx) (by simpa using hmem))]
        simp [hd]
    rw [if_neg h3, if_neg h3]
    by_cases h4 : t = "button"
    · rw [if_pos h4, if_pos h4]
      simp
    rw [if_neg h4, if_neg h4]
    by_cases h5 : t = "string"
    · rw [if_pos h5, if_pos h5]
      cases ts' with
      | nil => simp
      | cons d rest =>
        dsimp only
        by_cases hd : d = "default"
        · rw [if_pos hd]
          simp [hd]
        · rw [if_neg hd]
          simp [hd]
    · rw [if_neg h5, if_neg h5]
      simp

theorem fromTokens_ok_contains_false (bad A : List String) (nm : UciTokens)
    (h : fromTokensChecked bad A = .ok nm) (x : String) (hx : x ∈ bad) :
    A.contains x = false := by
  cases hc : A.contains x
  · rfl
  · exfalso
    obtain ⟨e, he⟩ := (fromTokensChecked_none_iff bad A).mpr
      ⟨x, (contains_eq_true_iff A x).mp hc, hx⟩
    rw [h] at he
    simp at he

theorem commandLoop_none_iff (toks : List String) :
    (commandParseLoop toks).1 = none ↔ commandFatal toks = true := by
  induction toks with
  | nil => simp [commandParseLoop, commandFatal]
  | cons t ts ih =>
    simp only [commandParseLoop, commandFatal]
    by_cases h1 : t = "uci"
    · rw [if_pos h1, if_pos h1]
      simp
    rw [if_neg h1, if_neg h1]
    by_cases h2 : t = "debug"
    · rw [if_pos h2, if_pos h2]
      cases ts with
      | nil => simp
      | cons v rest =>
        dsimp only
        by_cases hv1 : v = "on"
        · rw [if_pos hv1]
          simp [hv1]
        rw [if_neg hv1]
        by_cases hv2 : v = "off"
        · rw [if_pos hv2]
          simp [hv2]
        · rw [if_neg hv2]
          simp [hv1, hv2]
    rw [if_neg h2, if_neg h2]
    by_cases h3 : t = "isready"
    · rw [if_pos h3, if_pos h3]
      simp
    rw [if_neg h3, if_neg h3]
    by_cases h4 : t = "setoption"
    · rw [if_pos h4, if_pos h4]
      cases ts with
      | nil => simp
      | cons v rest =>
        dsimp only
        by_cases hv : v = "name"
        case neg =>
          rw [if_neg hv, if_neg hv]
          simp
        rw [if_pos hv, if_pos hv]
        cases hf : OptName.from_tokens (trySplit rest "value").1 with
        | error e =>
          simp only [hf]
          refine iff_of_true (by trivial) ?_
          obtain ⟨tk, htkA, htkB⟩ :=
            (fromTokensChecked_none_iff ["type", "value"] _).mp ⟨e, hf⟩
          have htk2 : tk = "type" ∨ tk = "value" := by simpa using htkB
          rcases htk2 with rfl | rfl
          · simp only [Bool.or_eq_true, contains_eq_true_iff]
            exact Or.inl htkA
          · simp only [Bool.or_eq_true, contains_eq_true_iff]
            exact Or.inr htkA
        | ok nm =>
          simp only [hf]
          refine iff_of_false (by simp) ?_
          rw [fromTokens_ok_contains_false ["type", "value"] _ nm hf "type" (by simp),
            fromTokens_ok_contains_false ["type", "value"] _ nm hf "value" (by simp)]
          simp
    rw [if_neg h4, if_neg h4]
    by_cases h5 : t = "register"
    · rw [if_pos h5, if_pos h5]
      cases ts with
      | nil => simp
      | cons v rest =>
        dsimp only
        by_cases hv1 : v = "later"
        · rw [if_pos hv1]
          simp [hv1]
        rw [if_neg hv1]
        by_cases hv2 : v = "name"
        · rw [if_pos hv2]
          rw [show RegisterName.from_tokens (trySplit rest "code").1 =
              .ok (trySplit rest "code").1 from
            fromTokensChecked_ok_of ["code"] _ (fun x hx hmem =>
              (trySplit_fst_forall "code" rest x hx) (by simpa using hmem))]
          simp [hv1, hv2]
        · rw [if_neg hv2]
          simp [hv1, hv2]
    rw [if_neg h5, if_neg h5]
    by_cases h6 : t = "ucinewgame"
    · rw [if_pos h6, if_pos h6]
      simp
    rw [if_neg h6, if_neg h6]
    by_cases h7 : t = "position"
    · rw [if_pos h7, if_pos h7]
      cases hs1 : (trySplit ts "moves").1 with
      | nil =>
        by_cases hmf : movesFatal ((trySplit ts "moves").2.getD []) = true
        · obtain ⟨e, he⟩ := parseMovesAll_error_of _ hmf 0
          simp only [posMoves, he]
          simp [hmf]
        · have hmf' : movesFatal ((trySplit ts "moves").2.getD []) = false := by
            simpa using hmf
          obtain ⟨ms, hok⟩ := parseMovesAll_ok_of _ hmf' 0
          simp only [posMoves, hok]
          simp [hmf']
      | cons d drest =>
        dsimp only
        by_cases hd1 : d = "startpos"
        · rw [if_pos hd1, if_pos hd1]
          by_cases hmf : movesFatal ((trySplit ts "moves").2.getD []) = true
          · obtain ⟨e, he⟩ := parseMovesAll_error_of _ hmf 0
            simp only [posMoves, he]
            simp [hmf]
          · have hmf' : movesFatal ((trySplit ts "moves").2.getD []) = false := by
              simpa using hmf
            obtain ⟨ms, hok⟩ := parseMovesAll_ok_of _ hmf' 0
            simp only [posMoves, hok]
            simp [hmf']
        rw [if_neg hd1, if_neg hd1]
        by_cases hd2 : d = "fen"
        · rw [if_pos hd2, if_pos hd2]
          cases hfen : RawBoard.from_fen (joinToks drest) with
          | none => simp [hfen]
          | some b =>
            simp only [hfen]
            by_cases hmf : movesFatal ((trySplit ts "moves").2.getD []) = true
            · obtain ⟨e, he⟩ := parseMovesAll_error_of _ hmf 0
              simp only [posMoves, he]
              simp [hmf]
            · have hmf' : movesFatal ((trySplit ts "moves").2.getD []) = false := by
                simpa using hmf
              obtain ⟨ms, hok⟩ := parseMovesAll_ok_of _ hmf' 0
              simp only [posMoves, hok]
              simp [hmf']
        · rw [if_neg hd2, if_neg hd2]
          simp
    rw [if_neg h7, if_neg h7]
    by_cases h8 : t = "go"
    · rw [if_pos h8, if_pos h8]
      simp
    rw [if_neg h8, if_neg h8]
    by_cases h9 : t = "stop"
    · rw [if_pos h9, if_pos h9]
      simp
    rw [if_neg h9, if_neg h9]
    by_cases h10 : t = "ponderhit"
    · rw [if_pos h10, if_pos h10]
      simp
    rw [if_neg h10, if_neg h10]
    by_cases h11 : t = "quit"
    · rw [if_pos h11, if_pos h11]
      simp
    · rw [if_neg h11, if_neg h11]
      dsimp only
      exact ih

theorem messageLoop_none_iff (toks : List String) :
    (messageParseLoop toks).1 = none ↔ messageFatal toks = true := by
  induction toks with
  | nil => simp [messageParseLoop, messageFatal]
  | cons t ts ih =>
    simp only [messageParseLoop, messageFatal]
    by_cases h1 : t = "id"
    · rw [if_pos h1, if_pos h1]
      cases ts with
      | nil => simp
      | cons v rest =>
        dsimp only
        by_cases hv1 : v = "name"
        · rw [if_pos hv1]
          simp [hv1]
        rw [if_neg hv1]
        by_cases hv2 : v = "author"
        · rw [if_pos hv2]
          simp [hv2]
        · rw [if_neg hv2]
          simp [hv1, hv2]
    rw [if_neg h1, if_neg h1]
    by_cases h2 : t = "uciok"
    · rw [if_pos h2, if_pos h2]
      simp
    rw [if_neg h2, if_neg h2]
    by_cases h3 : t = "readyok"
    · rw [if_pos h3, if_pos h3]
      simp
    rw [if_neg h3, if_neg h3]
    by_cases h4 : t = "bestmove"
    · rw [if_pos h4, if_pos h4]
      cases ts with
      | nil => simp
      | cons v rest =>
        dsimp only
        cases rest with
        | nil => simp
        | cons p rest2 =>
          dsimp only
          by_cases hp : p = "ponder"
          · rw [if_pos hp]
            cases rest2 with
            | nil => simp
            | cons pv r3 =>
              cases hpv : parseUciMove pv with
              | none => simp [hpv]
              | some pm => simp [hpv]
          · rw [if_neg hp]
            simp
    rw [if_neg h4, if_neg h4]
    by_cases h5 : t = "copyprotection"
    · rw [if_pos h5, if_pos h5]
      cases hr : (triStatusParse ts).1 with
      | some s =>
        have := (triStatusParse_none_iff ts)
        rw [hr] at this
        simp only [hr]
        simp only [reduceCtorEq, false_iff] at this
        simp [this]
      | none =>
        have := (triStatusParse_none_iff ts).mp hr
        simp [hr, this]
    rw [if_neg h5, if_neg h5]
    by_cases h6 : t = "registration"
    · rw [if_pos h6, if_pos h6]
      cases hr : (triStatusParse ts).1 with
      | some s =>
        have := (triStatusParse_none_iff ts)
        rw [hr] at this
        simp only [hr]
        simp only [reduceCtorEq, false_iff] at this
        simp [this]
      | none =>
        have := (triStatusParse_none_iff ts).mp hr
        simp [hr, this]
    rw [if_neg h6, if_neg h6]
    by_cases h7 : t = "info"
    · rw [if_pos h7, if_pos h7]
      simp
    rw [if_neg h7, if_neg h7]
    by_cases h8 : t = "option"
    · rw [if_pos h8, if_pos h8]
      cases ts with
      | nil => simp
      | cons v rest =>
        dsimp only
        by_cases hv : v = "name"
        case neg =>
          rw [if_neg hv, if_neg hv]
          simp
        rw [if_pos hv, if_pos hv]
        cases hf : OptName.from_tokens (trySplit rest "type").1 with
        | error e =>
          simp only [hf]
          refine iff_of_true (by trivial) ?_
          obtain ⟨tk, htkA, htkB⟩ :=
            (fromTokensChecked_none_iff ["type", "value"] _).mp ⟨e, hf⟩
          have htk2 : tk = "type" ∨ tk = "value" := by simpa using htkB
          rcases htk2 with rfl | rfl
          · simp only [Bool.or_eq_true, contains_eq_true_iff]
            exact Or.inl (Or.inl htkA)
          · simp only [Bool.or_eq_true, contains_eq_true_iff]
            exact Or.inl (Or.inr htkA)
        | ok nm =>
          simp only [hf]
          rw [fromTokens_ok_contains_false ["type", "value"] _ nm hf "type" (by simp),
            fromTokens_ok_contains_false ["type", "value"] _ nm hf "value" (by simp)]
          cases hb : (optbodyParse ((trySplit rest "type").2.getD [])).1 with
          | some body =>
            have := (optbodyParse_none_iff ((trySplit rest "type").2.getD []))
            rw [hb] at this
            simp only [reduceCtorEq, false_iff] at this
            simp [this]
          | none =>
            have := (optbodyParse_none_iff ((trySplit rest "type").2.getD [])).mp hb
            simp [this]
    · rw [if_neg h8, if_neg h8]
      dsimp only
      exact ih

/-- C4 (amended): `parse_line` returns `None` exactly on the fatal
conditions transcribed by `commandFatal`/`messageFatal`: an empty line or a
line of only unrecognized tokens (unknown leading tokens are skipped with
warnings, so an unknown keyword is NOT fatal when a recognized one
follows); `debug`, `id` or `register` with a missing or invalid argument;
`setoption`/`option` without `name` or with a reserved token in the name;
`option` with a fatal body; a tri-status command with a bad status;
`bestmove` at end of line; `position` with an unknown discriminator,
invalid FEN, or invalid move.  Everything else — including every `go` and
`info` line — yields a best-effort `Some` with warnings. -/
theorem c4_amended_none_characterization (line : String) :
    ((commandParseLine line).1 = none ↔ commandFatal (tokenize line) = true) ∧
    ((messageParseLine line).1 = none ↔ messageFatal (tokenize line) = true) := by
  constructor
  · rw [commandParseLine]
    rw [show (commandParse (tokenize line)).1 =
      (commandParseLoop (tokenize line)).1 from rfl]
    exact commandLoop_none_iff (tokenize line)
  · rw [messageParseLine]
    rw [show (messageParse (tokenize line)).1 =
      (messageParseLoop (tokenize line)).1 from rfl]
    exact messageLoop_none_iff (tokenize line)

/-- C2: the claim is right and the code is wrong.  `parse_unbounded` computes
`src.abs()` on the parsed i64 before its range guard; at `i64::MIN`
(`-9223372036854775808`, which `i64::from_str` accepts) that negation
overflows, aborting the parse in debug builds instead of warning
`MateTooLarge`.  The conjuncts: the debug-profile parse panics; the value
parses to `-2^63`; the release profile reaches the same `abs` computation
and recovers only through two's-complement wrapping. -/
theorem c2_mate_abs_overflow_panic :
    scoreParseUnboundedDbg ["mate", "-9223372036854775808"] = .panic ∧
    parseI64 "-9223372036854775808" = some (-(2 ^ 63)) ∧
    i64AbsPanics (-(2 ^ 63)) = true ∧
    messageParseLine "info score mate -9223372036854775808" =
      (some (.info [] none), [.badInfo 0 (.badScore (.mateTooLarge (-(2 ^ 63))))]) := by
  refine ⟨by decide, by decide, by decide, by decide⟩

/-- C7: the claim is right and the code is wrong.  The `searchmoves` arm of
the go keyword loop tests `ponder.is_some()` instead of
`searchmoves.is_some()` for its duplicate warning: a repeated `searchmoves`
produces no `Duplicate` warning (in both the command.rs and go.rs loops),
while `go ponder searchmoves …` warns `Duplicate("searchmoves")` spuriously.
The last occurrence's value is stored, as the claim says. -/
theorem c7_searchmoves_duplicate_check_eval :
    (commandParseLine "go searchmoves e2e4 searchmoves d2d4").2 =
      [.goNoLimits] ∧
    (commandParseLine "go searchmoves e2e4 searchmoves d2d4").1 =
      some (.go (some [.move ⟨3, 1⟩ ⟨3, 3⟩ none]) none .infinite) ∧
    (goParse (tokenize "searchmoves e2e4 searchmoves d2d4")).2 = [] ∧
    (commandParseLine "go ponder searchmoves e2e4").2 =
      [.goDuplicate "searchmoves", .goNoLimits] := by
  refine ⟨by decide, by decide, by decide, by decide⟩

/-- C8: the claim is right and the code is wrong.  The stored value is
`min(n, 1000)` as claimed, but `make_permille` warns when `val >= 1000`,
so `info hashfull 1000` produces a `PermilleTruncated{1000}` warning even
though 1000 does not exceed 1000 and nothing is truncated — contradicting
the code's own error message ("larger than 1000, thus truncated"). -/
theorem c8_permille_truncation_warning :
    (∀ n, (Permille.new_truncated n).amount = min n 1000) ∧
    make_permille 1000 = (⟨1000⟩, [.permilleTruncated 1000]) ∧
    messageParseLine "info hashfull 1000" =
      (some (.info [.hashfull ⟨1000⟩] none), [.badInfo 0 (.permilleTruncated 1000)]) ∧
    make_permille 999 = (⟨999⟩, []) ∧
    make_permille 1001 = (⟨1000⟩, [.permilleTruncated 1001]) := by
  refine ⟨fun n => rfl, by decide, by decide, by decide, by decide⟩

/-- C3 counterexample: parsing `go infinite wtime 1 btime 2` through
`Command::parse_line` does not preserve the parsed fields: the keyword loop
collects them, but the limit collapse keeps only `infinite`, discards the
clock fields with `GoConflict` warnings, and the resulting value stores no
`wtime` at all — the `infinite` flag is not preserved alongside `wtime`.
The standalone record subparser (go.rs) does preserve both. -/
theorem c3_go_collapse_counterexample :
    commandParseLine "go infinite wtime 1 btime 2" =
      (some (.go none none .infinite), [.goConflict "wtime", .goConflict "btime"]) ∧
    (goParse (tokenize "infinite wtime 1 btime 2")).1 =
      { emptyGo with infinite := some (), wtime := some 1, btime := some 2 } := by
  refine ⟨by decide, by decide⟩

/-- C4 counterexample: both directions of the claimed iff fail.
`xyz uci` has an unrecognized keyword at the start of the line — a fatal
condition per the claim — yet parses to `Some(Uci)` because the dispatch
loop warns and skips unknown tokens.  `debug maybe` satisfies none of the
claim's fatal conditions (a keyword is present, no reserved-token
violation, no EOL — a value token is present but invalid) yet returns
`None`. -/
theorem c4_none_characterization_counterexample :
    commandParseLine "xyz uci" = (some .uci, [.unexpectedToken "xyz"]) ∧
    commandParseLine "debug maybe" = (none, [.unexpectedToken "maybe"]) := by
  refine ⟨by decide, by decide⟩

/-- C1 counterexample: the value `info score mate 0` (a winning mate in 0)
formats to `info score mate 0`, which parses back as a *losing* mate in 0:
`fmt_unbounded` prints `Mate{moves, win}` as a signed integer, which cannot
carry the win flag at distance zero, so `parse_line(fmt_line(v)) ≠ Some(v)`
although `v` embeds no reserved token. -/
theorem c1_format_parse_counterexample :
    messageFmtLine (.info [.score ⟨.mate 0 true, .exact⟩] none) =
      "info score mate 0" ∧
    messageParseLine "info score mate 0" =
      (some (.info [.score ⟨.mate 0 false, .exact⟩] none), []) ∧
    (Message.info [.score ⟨.mate 0 false, .exact⟩] none) ≠
      (.info [.score ⟨.mate 0 true, .exact⟩] none) := by
  refine ⟨by decide, by decide, by decide⟩

/-- C3 (amended): the standalone `go` record subparser (src/src/uci/parse/go.rs)
does preserve every parsed field with no precedence collapse: formatting any
well-formed record and reparsing it returns the same record with no warnings.
The collapse described by the claim happens only in `Command::parse`
(command.rs), which folds the record into `GoLimits` with `GoConflict`
warnings. -/
theorem c3_amended_go_record_roundtrip (g : Go) (h : goWf g = true) :
    goParse (goFmt g) = (g, []) := by
  obtain ⟨sm, po, inf, wt, bt, wi, bi, mtg, ma, dep, nod, mt⟩ := g
  simp only [goWf, Bool.and_eq_true] at h
  obtain ⟨⟨⟨⟨⟨⟨⟨⟨⟨hsm, hwt⟩, hbt⟩, hwi⟩, hbi⟩, hmtg⟩, hma⟩, hdep⟩, hnod⟩, hmt⟩ := h
  simp only [goParse, goFmt, List.append_assoc]
  rw [goParseAux_searchmoves_opt sm hsm _
        (headNotMoveLike_flagBlock po.isSome "ponder" (by decide) _
          (headNotMoveLike_flagBlock inf.isSome "infinite" (by decide) _
            (headNotMoveLike_tagOpt "wtime" wt (by decide) _
              (headNotMoveLike_tagOpt "btime" bt (by decide) _
                (headNotMoveLike_tagOpt "winc" wi (by decide) _
                  (headNotMoveLike_tagOpt "binc" bi (by decide) _
                    (headNotMoveLike_tagOpt "movestogo" mtg (by decide) _
                      (headNotMoveLike_tagOpt "mate" ma (by decide) _
                        (headNotMoveLike_tagOpt "depth" dep (by decide) _
                          (headNotMoveLike_tagOpt "nodes" nod (by decide) _
                            (headNotMoveLike_tagOpt_nil "movetime" mt (by decide))))))))))))
        emptyGo rfl rfl]
  show goParseAux _ ⟨sm, none, none, none, none, none, none, none, none, none, none, none⟩ = _
  rw [goParseAux_ponder_opt po _
        ⟨sm, none, none, none, none, none, none, none, none, none, none, none⟩ rfl]
  show goParseAux _ ⟨sm, po, none, none, none, none, none, none, none, none, none, none⟩ = _
  rw [goParseAux_infinite_opt inf _
        ⟨sm, po, none, none, none, none, none, none, none, none, none, none⟩ rfl]
  show goParseAux _ ⟨sm, po, inf, none, none, none, none, none, none, none, none, none⟩ = _
  rw [goParseAux_wtime_opt wt hwt _
        ⟨sm, po, inf, none, none, none, none, none, none, none, none, none⟩ rfl]
  show goParseAux _ ⟨sm, po, inf, wt, none, none, none, none, none, none, none, none⟩ = _
  rw [goParseAux_btime_opt bt hbt _
        ⟨sm, po, inf, wt, none, none, none, none, none, none, none, none⟩ rfl]
  show goParseAux _ ⟨sm, po, inf, wt, bt, none, none, none, none, none, none, none⟩ = _
  rw [goParseAux_winc_opt wi hwi _
        ⟨sm, po, inf, wt, bt, none, none, none, none, none, none, none⟩ rfl]
  show goParseAux _ ⟨sm, po, inf, wt, bt, wi, none, none, none, none, none, none⟩ = _
  rw [goParseAux_binc_opt bi hbi _
        ⟨sm, po, inf, wt, bt, wi, none, none, none, none, none, none⟩ rfl]
  show goParseAux _ ⟨sm, po, inf, wt, bt, wi, bi, none, none, none, none, none⟩ = _
  rw [goParseAux_movestogo_opt mtg hmtg _
        ⟨sm, po, inf, wt, bt, wi, bi, none, none, none, none, none⟩ rfl]
  show goParseAux _ ⟨sm, po, inf, wt, bt, wi, bi, mtg, none, none, none, none⟩ = _
  rw [goParseAux_mate_opt ma hma _
        ⟨sm, po, inf, wt, bt, wi, bi, mtg, none, none, none, none⟩ rfl]
  show goParseAux _ ⟨sm, po, inf, wt, bt, wi, bi, mtg, ma, none, none, none⟩ = _
  rw [goParseAux_depth_opt dep hdep _
        ⟨sm, po, inf, wt, bt, wi, bi, mtg, ma, none, none, none⟩ rfl]
  show goParseAux _ ⟨sm, po, inf, wt, bt, wi, bi, mtg, ma, dep, none, none⟩ = _
  rw [goParseAux_nodes_opt nod hnod _
        ⟨sm, po, inf, wt, bt, wi, bi, mtg, ma, dep, none, none⟩ rfl]
  show goParseAux _ ⟨sm, po, inf, wt, bt, wi, bi, mtg, ma, dep, nod, none⟩ = _
  rw [← List.append_nil (tagOpt "movetime" mt)]
  rw [goParseAux_movetime_opt mt hmt []
        ⟨sm, po, inf, wt, bt, wi, bi, mtg, ma, dep, nod, none⟩ rfl]
  rfl

/-- C1 (amended): for every `Command` and `Message` value satisfying the
round-trip predicates — integer fields within their Rust widths, `movestogo`
non-zero, no null move inside run-parsed move lists, no winning `mate 0`,
`GoLimits::Limits` not all-`None`, no `OptBody::String` body, and
typed-string bodies free of their reserved tokens — parsing the formatted
line returns exactly the original value (a warning-ignoring sink observes
only the parse result, so only the first component is constrained). -/
theorem c1_amended_roundtrip (c : Command) (m : Message)
    (hc : commandRT c = true) (hm : messageRT m = true) :
    (commandParseLine (commandFmtLine c)).1 = some c ∧
    (messageParseLine (messageFmtLine m)).1 = some m := by
  constructor
  · rw [commandParseLine, commandFmtLine,
      tokenize_joinToks (commandFmt c) (commandFmt_toksWf c hc),
      commandParse_fmt c hc]
  · rw [messageParseLine, messageFmtLine,
      tokenize_joinToks (messageFmt m) (messageFmt_toksWf m hm)]
    obtain ⟨w, hw⟩ := messageParse_fmt m hm
    rw [hw]

theorem c1_amended_roundtrip_witness :
    commandRT (Command.go (some [UciMove.move ⟨4, 1⟩ ⟨4, 3⟩ none]) (some ())
        (GoLimits.clock 60000 60000 0 1000 (some 40))) = true ∧
    messageRT (Message.info [Info.depth 7,
        Info.score ⟨RelScore.cp (-15), Bound.lower⟩,
        Info.pv [UciMove.move ⟨4, 1⟩ ⟨4, 3⟩ none]] (some ["a", "b"])) = true ∧
    (commandParseLine (commandFmtLine (Command.go
        (some [UciMove.move ⟨4, 1⟩ ⟨4, 3⟩ none]) (some ())
        (GoLimits.clock 60000 60000 0 1000 (some 40))))).1 =
      some (Command.go (some [UciMove.move ⟨4, 1⟩ ⟨4, 3⟩ none]) (some ())
        (GoLimits.clock 60000 60000 0 1000 (some 40))) ∧
    (messageParseLine (messageFmtLine (Message.info [Info.depth 7,
        Info.score ⟨RelScore.cp (-15), Bound.lower⟩,
        Info.pv [UciMove.move ⟨4, 1⟩ ⟨4, 3⟩ none]] (some ["a", "b"])))).1 =
      some (Message.info [Info.depth 7,
        Info.score ⟨RelScore.cp (-15), Bound.lower⟩,
        Info.pv [UciMove.move ⟨4, 1⟩ ⟨4, 3⟩ none]] (some ["a", "b"])) :=
  ⟨by decide, by decide,
    (c1_amended_roundtrip
      (Command.go (some [UciMove.move ⟨4, 1⟩ ⟨4, 3⟩ none]) (some ())
        (GoLimits.clock 60000 60000 0 1000 (some 40)))
      (Message.info [Info.depth 7, Info.score ⟨RelScore.cp (-15), Bound.lower⟩,
        Info.pv [UciMove.move ⟨4, 1⟩ ⟨4, 3⟩ none]] (some ["a", "b"]))
      (by decide) (by decide)).1,
    (c1_amended_roundtrip
      (Command.go (some [UciMove.move ⟨4, 1⟩ ⟨4, 3⟩ none]) (some ())
        (GoLimits.clock 60000 60000 0 1000 (some 40)))
      (Message.info [Info.depth 7, Info.score ⟨RelScore.cp (-15), Bound.lower⟩,
        Info.pv [UciMove.move ⟨4, 1⟩ ⟨4, 3⟩ none]] (some ["a", "b"]))
      (by decide) (by decide)).2⟩

theorem c3_amended_go_record_roundtrip_witness :
    goWf ⟨some [UciMove.move ⟨4, 1⟩ ⟨4, 3⟩ none], some (), some (), some 1,
        some 2, none, none, some 3, none, none, some 4, some 5⟩ = true ∧
    goParse (goFmt ⟨some [UciMove.move ⟨4, 1⟩ ⟨4, 3⟩ none], some (), some (),
        some 1, some 2, none, none, some 3, none, none, some 4, some 5⟩) =
      (⟨some [UciMove.move ⟨4, 1⟩ ⟨4, 3⟩ none], some (), some (), some 1,
        some 2, none, none, some 3, none, none, some 4, some 5⟩, []) :=
  ⟨by decide, c3_amended_go_record_roundtrip _ (by decide)⟩

-- ANCHOR-THMS (theorems are inserted above this line)

end Owl
